import Mathlib

/-!
# HFS Plus inspector: endian layer, volume layer and fork layer

A shallow embedding of the swap routines of `hfs_endian.c`, of volume detection
and attachment in `hfs.c`, and of the volume reads and special-file forks of
`hfs_io.c`.

Memory is a flat map from addresses to bytes.  A C struct is a region of that
memory, addressed by the pointer to its first byte; a field is a byte offset
and a width inside the region.  Host integers are natural numbers, reduced
modulo `256 ^ w` wherever the C type has `w` bytes.
-/

namespace HFS

/-! ## Bytes, memory and host integers -/

/-- One octet. -/
abbrev Byte := Fin 256

/-- Flat byte-addressed memory. -/
abbrev Mem := Nat → Byte

/-- Byte order of the host the program is compiled for. -/
inductive Endian where
  | little
  | big
  deriving DecidableEq, Repr

/-- The low octet of a number. -/
def byteOf (v : Nat) : Byte := ⟨v % 256, Nat.mod_lt v (by decide)⟩

/-- Value of a string of octets, least significant octet first. -/
def leValue : List Byte → Nat
  | [] => 0
  | b :: bs => b.val + 256 * leValue bs

/-- The `w` low octets of a number, least significant first. -/
def leBytes : Nat → Nat → List Byte
  | 0, _ => []
  | w + 1, v => byteOf v :: leBytes w (v / 256)

/-- Value of a string of octets, most significant octet first (the on-disk order). -/
def beValue (bs : List Byte) : Nat := leValue bs.reverse

/-- The `w` octets of memory that start at address `p`, in address order. -/
def readBytes (m : Mem) (p w : Nat) : List Byte :=
  (List.range w).map fun k => m (p + k)

/-- Memory after the octets `bs` are written at address `p`. -/
def writeBytes (m : Mem) (p : Nat) (bs : List Byte) : Mem :=
  fun a => if p ≤ a then (bs[a - p]?).getD (m a) else m a

/-- Octets of an integer in the order the host keeps them in memory,
given least significant first (and back: the map is its own inverse). -/
def memOrder (e : Endian) (bs : List Byte) : List Byte :=
  match e with
  | .little => bs
  | .big => bs.reverse

/-- Host-native load of a `w`-byte unsigned integer (its bit pattern). -/
def load (e : Endian) (w : Nat) (m : Mem) (p : Nat) : Nat :=
  leValue (memOrder e (readBytes m p w))

/-- Host-native store of the `w` low bytes of `v`. -/
def store (e : Endian) (w : Nat) (m : Mem) (p : Nat) (v : Nat) : Mem :=
  writeBytes m p (memOrder e (leBytes w v))

/-- Macro `OSSwapInt16/32/64` of `libkern/OSByteOrder.h`: the `w`-byte value with
its bytes in reverse order. -/
def OSSwapInt (w : Nat) (x : Nat) : Nat := leValue (leBytes w x).reverse

/-- Macro `OSSwapBigToHostInt16/32/64` of `libkern/OSByteOrder.h`: a byte swap on a
little-endian host, a cast to the unsigned `w`-byte type on a big-endian one. -/
def OSSwapBigToHostInt (e : Endian) (w : Nat) (x : Nat) : Nat :=
  match e with
  | .little => OSSwapInt w x
  | .big => x % 256 ^ w

/-- A struct field: byte offset inside the struct, width in bytes, and
whether its C type is signed. -/
structure Field where
  off : Nat
  size : Nat
  signed : Bool
  deriving DecidableEq, Repr

/-- C conversion of the field value with bit pattern `x` to the macro's
unsigned `mw`-byte argument type: sign extension for a signed field,
zero extension otherwise, reduced modulo `256 ^ mw`. -/
def macroArg (mw : Nat) (f : Field) (x : Nat) : Nat :=
  if f.signed ∧ 256 ^ f.size ≤ 2 * x then
    (x + 256 ^ (max mw f.size) - 256 ^ f.size) % 256 ^ mw
  else x % 256 ^ mw

/-- The macro `ConvertN(x)`, that is `x = OSSwapBigToHostIntN(x)`, on field `f`
of the struct at `p`; `mw` is N/8.  The assignment keeps the low `f.size`
bytes of the macro's result. -/
def Convert (e : Endian) (mw : Nat) (f : Field) (m : Mem) (p : Nat) : Mem :=
  let x := load e f.size m (p + f.off)
  store e f.size m (p + f.off) (OSSwapBigToHostInt e mw (macroArg mw f x))

/-- Macro `Convert16(x)`. -/
abbrev Convert16 (e : Endian) := Convert e 2
/-- Macro `Convert32(x)`. -/
abbrev Convert32 (e : Endian) := Convert e 4
/-- Macro `Convert64(x)`. -/
abbrev Convert64 (e : Endian) := Convert e 8

/-- Memory with the `w` octets at `p` in reverse order. -/
def revSeg (p w : Nat) (m : Mem) : Mem :=
  fun a => if p ≤ a ∧ a < p + w then m (p + (p + w - 1 - a)) else m a

/-! ## Record layouts

The structs are declared in `<hfs/hfs_format.h>` (packed, 2-byte aligned),
which the endian layer includes; the spec fixes the same byte layout by
reference to Apple TN1150. -/

/-- Modelled from the spec: `kHFSPlusExtentDensity` of `hfs_format.h`, the
eight inline extents of a fork-data descriptor. -/
def kHFSPlusExtentDensity : Nat := 8

namespace HFSPlusExtentDescriptor
/-- Modelled from the spec: `u_int32_t startBlock`. -/
def startBlock : Field := ⟨0, 4, false⟩
/-- Modelled from the spec: `u_int32_t blockCount`. -/
def blockCount : Field := ⟨4, 4, false⟩
/-- Modelled from the spec: `sizeof(HFSPlusExtentDescriptor)`. -/
def sizeof : Nat := 8
end HFSPlusExtentDescriptor

namespace HFSPlusForkData
/-- Modelled from the spec: `u_int64_t logicalSize`. -/
def logicalSize : Field := ⟨0, 8, false⟩
/-- Modelled from the spec: `u_int32_t clumpSize`. -/
def clumpSize : Field := ⟨8, 4, false⟩
/-- Modelled from the spec: `u_int32_t totalBlocks`. -/
def totalBlocks : Field := ⟨12, 4, false⟩
/-- Modelled from the spec: offset of `HFSPlusExtentRecord extents`. -/
def extents : Nat := 16
/-- Modelled from the spec: `sizeof(HFSPlusForkData)`. -/
def sizeof : Nat := 80
end HFSPlusForkData

namespace HFSPlusVolumeHeader
/-- Modelled from the spec: `u_int16_t signature`. -/
def signature : Field := ⟨0, 2, false⟩
/-- Modelled from the spec: `u_int16_t version`. -/
def version : Field := ⟨2, 2, false⟩
/-- Modelled from the spec: `u_int32_t attributes`. -/
def attributes : Field := ⟨4, 4, false⟩
/-- Modelled from the spec: `u_int32_t lastMountedVersion`. -/
def lastMountedVersion : Field := ⟨8, 4, false⟩
/-- Modelled from the spec: `u_int32_t journalInfoBlock`. -/
def journalInfoBlock : Field := ⟨12, 4, false⟩
/-- Modelled from the spec: `u_int32_t createDate`. -/
def createDate : Field := ⟨16, 4, false⟩
/-- Modelled from the spec: `u_int32_t modifyDate`. -/
def modifyDate : Field := ⟨20, 4, false⟩
/-- Modelled from the spec: `u_int32_t backupDate`. -/
def backupDate : Field := ⟨24, 4, false⟩
/-- Modelled from the spec: `u_int32_t checkedDate`. -/
def checkedDate : Field := ⟨28, 4, false⟩
/-- Modelled from the spec: `u_int32_t fileCount`. -/
def fileCount : Field := ⟨32, 4, false⟩
/-- Modelled from the spec: `u_int32_t folderCount`. -/
def folderCount : Field := ⟨36, 4, false⟩
/-- Modelled from the spec: `u_int32_t blockSize`. -/
def blockSize : Field := ⟨40, 4, false⟩
/-- Modelled from the spec: `u_int32_t totalBlocks`. -/
def totalBlocks : Field := ⟨44, 4, false⟩
/-- Modelled from the spec: `u_int32_t freeBlocks`. -/
def freeBlocks : Field := ⟨48, 4, false⟩
/-- Modelled from the spec: `u_int32_t nextAllocation`. -/
def nextAllocation : Field := ⟨52, 4, false⟩
/-- Modelled from the spec: `u_int32_t rsrcClumpSize`. -/
def rsrcClumpSize : Field := ⟨56, 4, false⟩
/-- Modelled from the spec: `u_int32_t dataClumpSize`. -/
def dataClumpSize : Field := ⟨60, 4, false⟩
/-- Modelled from the spec: `u_int32_t nextCatalogID`. -/
def nextCatalogID : Field := ⟨64, 4, false⟩
/-- Modelled from the spec: `u_int32_t writeCount`. -/
def writeCount : Field := ⟨68, 4, false⟩
/-- Modelled from the spec: `u_int64_t encodingsBitmap`. -/
def encodingsBitmap : Field := ⟨72, 8, false⟩
/-- Modelled from the spec: offset of `u_int8_t finderInfo[32]`. -/
def finderInfo : Nat := 80
/-- Modelled from the spec: offset of `HFSPlusForkData allocationFile`. -/
def allocationFile : Nat := 112
/-- Modelled from the spec: offset of `HFSPlusForkData extentsFile`. -/
def extentsFile : Nat := 192
/-- Modelled from the spec: offset of `HFSPlusForkData catalogFile`. -/
def catalogFile : Nat := 272
/-- Modelled from the spec: offset of `HFSPlusForkData attributesFile`. -/
def attributesFile : Nat := 352
/-- Modelled from the spec: offset of `HFSPlusForkData startupFile`. -/
def startupFile : Nat := 432
/-- Modelled from the spec: `sizeof(HFSPlusVolumeHeader)`. -/
def sizeof : Nat := 512
end HFSPlusVolumeHeader

namespace BTNodeDescriptor
/-- Modelled from the spec: `u_int32_t fLink`. -/
def fLink : Field := ⟨0, 4, false⟩
/-- Modelled from the spec: `u_int32_t bLink`. -/
def bLink : Field := ⟨4, 4, false⟩
/-- Modelled from the spec: `int8_t kind`. -/
def kind : Field := ⟨8, 1, true⟩
/-- Modelled from the spec: `u_int8_t height`. -/
def height : Field := ⟨9, 1, false⟩
/-- Modelled from the spec: `u_int16_t numRecords`. -/
def numRecords : Field := ⟨10, 2, false⟩
/-- Modelled from the spec: `u_int16_t reserved`. -/
def reserved : Field := ⟨12, 2, false⟩
/-- Modelled from the spec: `sizeof(BTNodeDescriptor)`. -/
def sizeof : Nat := 14
end BTNodeDescriptor

namespace BTHeaderRec
/-- Modelled from the spec: `u_int16_t treeDepth`. -/
def treeDepth : Field := ⟨0, 2, false⟩
/-- Modelled from the spec: `u_int32_t rootNode`. -/
def rootNode : Field := ⟨2, 4, false⟩
/-- Modelled from the spec: `u_int32_t leafRecords`. -/
def leafRecords : Field := ⟨6, 4, false⟩
/-- Modelled from the spec: `u_int32_t firstLeafNode`. -/
def firstLeafNode : Field := ⟨10, 4, false⟩
/-- Modelled from the spec: `u_int32_t lastLeafNode`. -/
def lastLeafNode : Field := ⟨14, 4, false⟩
/-- Modelled from the spec: `u_int16_t nodeSize`. -/
def nodeSize : Field := ⟨18, 2, false⟩
/-- Modelled from the spec: `u_int16_t maxKeyLength`. -/
def maxKeyLength : Field := ⟨20, 2, false⟩
/-- Modelled from the spec: `u_int32_t totalNodes`. -/
def totalNodes : Field := ⟨22, 4, false⟩
/-- Modelled from the spec: `u_int32_t freeNodes`. -/
def freeNodes : Field := ⟨26, 4, false⟩
/-- Modelled from the spec: `u_int16_t reserved1`. -/
def reserved1 : Field := ⟨30, 2, false⟩
/-- Modelled from the spec: `u_int32_t clumpSize`. -/
def clumpSize : Field := ⟨32, 4, false⟩
/-- Modelled from the spec: `u_int8_t btreeType`. -/
def btreeType : Field := ⟨36, 1, false⟩
/-- Modelled from the spec: `u_int8_t keyCompareType`. -/
def keyCompareType : Field := ⟨37, 1, false⟩
/-- Modelled from the spec: `u_int32_t attributes`. -/
def attributes : Field := ⟨38, 4, false⟩
/-- Modelled from the spec: offset of `u_int32_t reserved3[16]`. -/
def reserved3 : Nat := 42
/-- Modelled from the spec: `sizeof(BTHeaderRec)`. -/
def sizeof : Nat := 106
end BTHeaderRec

namespace HFSUniStr255
/-- Modelled from the spec: `u_int16_t length`. -/
def length : Field := ⟨0, 2, false⟩
/-- Modelled from the spec: offset of `u_int16_t unicode[255]`. -/
def unicode : Nat := 2
/-- Modelled from the spec: `sizeof(HFSUniStr255)`. -/
def sizeof : Nat := 512
end HFSUniStr255

namespace HFSPlusCatalogKey
/-- Modelled from the spec: `u_int16_t keyLength`. -/
def keyLength : Field := ⟨0, 2, false⟩
/-- Modelled from the spec: `u_int32_t parentID`. -/
def parentID : Field := ⟨2, 4, false⟩
/-- Modelled from the spec: offset of `HFSUniStr255 nodeName`. -/
def nodeName : Nat := 6
/-- Modelled from the spec: `sizeof(HFSPlusCatalogKey)`. -/
def sizeof : Nat := 518
end HFSPlusCatalogKey

namespace HFSPlusBSDInfo
/-- Modelled from the spec: `u_int32_t ownerID`. -/
def ownerID : Field := ⟨0, 4, false⟩
/-- Modelled from the spec: `u_int32_t groupID`. -/
def groupID : Field := ⟨4, 4, false⟩
/-- Modelled from the spec: `u_int8_t adminFlags`. -/
def adminFlags : Field := ⟨8, 1, false⟩
/-- Modelled from the spec: `u_int8_t ownerFlags`. -/
def ownerFlags : Field := ⟨9, 1, false⟩
/-- Modelled from the spec: `u_int16_t fileMode`. -/
def fileMode : Field := ⟨10, 2, false⟩
/-- Modelled from the spec: `u_int32_t special.iNodeNum` (a union of three
`u_int32_t`). -/
def special_iNodeNum : Field := ⟨12, 4, false⟩
/-- Modelled from the spec: `sizeof(HFSPlusBSDInfo)`. -/
def sizeof : Nat := 16
end HFSPlusBSDInfo

namespace FndrDirInfo
/-- Modelled from the spec: `int16_t frRect.top`. -/
def frRect_top : Field := ⟨0, 2, true⟩
/-- Modelled from the spec: `int16_t frRect.left`. -/
def frRect_left : Field := ⟨2, 2, true⟩
/-- Modelled from the spec: `int16_t frRect.bottom`. -/
def frRect_bottom : Field := ⟨4, 2, true⟩
/-- Modelled from the spec: `int16_t frRect.right`. -/
def frRect_right : Field := ⟨6, 2, true⟩
/-- Modelled from the spec: `unsigned short frFlags`. -/
def frFlags : Field := ⟨8, 2, false⟩
/-- Modelled from the spec: `u_int16_t frLocation.v`. -/
def frLocation_v : Field := ⟨10, 2, false⟩
/-- Modelled from the spec: `u_int16_t frLocation.h`. -/
def frLocation_h : Field := ⟨12, 2, false⟩
/-- Modelled from the spec: `int16_t opaque`. -/
def opaque_ : Field := ⟨14, 2, true⟩
/-- Modelled from the spec: `sizeof(FndrDirInfo)`. -/
def sizeof : Nat := 16
end FndrDirInfo

namespace FndrFileInfo
/-- Modelled from the spec: `u_int32_t fdType`. -/
def fdType : Field := ⟨0, 4, false⟩
/-- Modelled from the spec: `u_int32_t fdCreator`. -/
def fdCreator : Field := ⟨4, 4, false⟩
/-- Modelled from the spec: `u_int16_t fdFlags`. -/
def fdFlags : Field := ⟨8, 2, false⟩
/-- Modelled from the spec: `int16_t fdLocation.v`. -/
def fdLocation_v : Field := ⟨10, 2, true⟩
/-- Modelled from the spec: `int16_t fdLocation.h`. -/
def fdLocation_h : Field := ⟨12, 2, true⟩
/-- Modelled from the spec: `int16_t opaque`. -/
def opaque_ : Field := ⟨14, 2, true⟩
/-- Modelled from the spec: `sizeof(FndrFileInfo)`. -/
def sizeof : Nat := 16
end FndrFileInfo

namespace FndrOpaqueInfo
/-- Modelled from the spec: `sizeof(FndrOpaqueInfo)`, an `int8_t opaque[16]`. -/
def sizeof : Nat := 16
end FndrOpaqueInfo

namespace HFSPlusCatalogFolder
/-- Modelled from the spec: `int16_t recordType`. -/
def recordType : Field := ⟨0, 2, true⟩
/-- Modelled from the spec: `u_int16_t flags`. -/
def flags : Field := ⟨2, 2, false⟩
/-- Modelled from the spec: `u_int32_t valence`. -/
def valence : Field := ⟨4, 4, false⟩
/-- Modelled from the spec: `u_int32_t folderID`. -/
def folderID : Field := ⟨8, 4, false⟩
/-- Modelled from the spec: `u_int32_t createDate`. -/
def createDate : Field := ⟨12, 4, false⟩
/-- Modelled from the spec: `u_int32_t contentModDate`. -/
def contentModDate : Field := ⟨16, 4, false⟩
/-- Modelled from the spec: `u_int32_t attributeModDate`. -/
def attributeModDate : Field := ⟨20, 4, false⟩
/-- Modelled from the spec: `u_int32_t accessDate`. -/
def accessDate : Field := ⟨24, 4, false⟩
/-- Modelled from the spec: `u_int32_t backupDate`. -/
def backupDate : Field := ⟨28, 4, false⟩
/-- Modelled from the spec: offset of `HFSPlusBSDInfo bsdInfo`. -/
def bsdInfo : Nat := 32
/-- Modelled from the spec: offset of `FndrDirInfo userInfo`. -/
def userInfo : Nat := 48
/-- Modelled from the spec: offset of `FndrOpaqueInfo finderInfo`. -/
def finderInfo : Nat := 64
/-- Modelled from the spec: `u_int32_t textEncoding`. -/
def textEncoding : Field := ⟨80, 4, false⟩
/-- Modelled from the spec: `u_int32_t folderCount`. -/
def folderCount : Field := ⟨84, 4, false⟩
/-- Modelled from the spec: `sizeof(HFSPlusCatalogFolder)`. -/
def sizeof : Nat := 88
end HFSPlusCatalogFolder

namespace HFSPlusCatalogFile
/-- Modelled from the spec: `int16_t recordType`. -/
def recordType : Field := ⟨0, 2, true⟩
/-- Modelled from the spec: `u_int16_t flags`. -/
def flags : Field := ⟨2, 2, false⟩
/-- Modelled from the spec: `u_int32_t reserved1`. -/
def reserved1 : Field := ⟨4, 4, false⟩
/-- Modelled from the spec: `u_int32_t fileID`. -/
def fileID : Field := ⟨8, 4, false⟩
/-- Modelled from the spec: `u_int32_t createDate`. -/
def createDate : Field := ⟨12, 4, false⟩
/-- Modelled from the spec: `u_int32_t contentModDate`. -/
def contentModDate : Field := ⟨16, 4, false⟩
/-- Modelled from the spec: `u_int32_t attributeModDate`. -/
def attributeModDate : Field := ⟨20, 4, false⟩
/-- Modelled from the spec: `u_int32_t accessDate`. -/
def accessDate : Field := ⟨24, 4, false⟩
/-- Modelled from the spec: `u_int32_t backupDate`. -/
def backupDate : Field := ⟨28, 4, false⟩
/-- Modelled from the spec: offset of `HFSPlusBSDInfo bsdInfo`. -/
def bsdInfo : Nat := 32
/-- Modelled from the spec: offset of `FndrFileInfo userInfo`. -/
def userInfo : Nat := 48
/-- Modelled from the spec: offset of `FndrOpaqueInfo finderInfo`. -/
def finderInfo : Nat := 64
/-- Modelled from the spec: `u_int32_t textEncoding`. -/
def textEncoding : Field := ⟨80, 4, false⟩
/-- Modelled from the spec: `u_int32_t reserved2`. -/
def reserved2 : Field := ⟨84, 4, false⟩
/-- Modelled from the spec: offset of `HFSPlusForkData dataFork`. -/
def dataFork : Nat := 88
/-- Modelled from the spec: offset of `HFSPlusForkData resourceFork`. -/
def resourceFork : Nat := 168
/-- Modelled from the spec: `sizeof(HFSPlusCatalogFile)`. -/
def sizeof : Nat := 248
end HFSPlusCatalogFile

namespace HFSPlusCatalogThread
/-- Modelled from the spec: `int16_t recordType`. -/
def recordType : Field := ⟨0, 2, true⟩
/-- Modelled from the spec: `int16_t reserved`, a 16-bit field in
`hfs_format.h` and in TN1150. -/
def reserved : Field := ⟨2, 2, true⟩
/-- Modelled from the spec: `u_int32_t parentID`. -/
def parentID : Field := ⟨4, 4, false⟩
/-- Modelled from the spec: offset of `HFSUniStr255 nodeName`. -/
def nodeName : Nat := 8
/-- Modelled from the spec: `sizeof(HFSPlusCatalogThread)`. -/
def sizeof : Nat := 520
end HFSPlusCatalogThread

/-! ## Endian layer (`hfs_endian.c`)

Every routine takes the memory and the pointer `record` it is called with and
returns the memory it leaves behind. -/

/-- Function `swap_HFSPlusExtentDescriptor`. -/
def swap_HFSPlusExtentDescriptor (e : Endian) (m : Mem) (record : Nat) : Mem :=
  let m := Convert32 e HFSPlusExtentDescriptor.startBlock m record
  let m := Convert32 e HFSPlusExtentDescriptor.blockCount m record
  m

/-- Function `swap_HFSPlusForkData`: the three scalars, then the loop over the
`kHFSPlusExtentDensity` inline extents. -/
def swap_HFSPlusForkData (e : Endian) (m : Mem) (record : Nat) : Mem :=
  let m := Convert64 e HFSPlusForkData.logicalSize m record
  let m := Convert32 e HFSPlusForkData.totalBlocks m record
  let m := Convert32 e HFSPlusForkData.clumpSize m record
  (List.range kHFSPlusExtentDensity).foldl
    (fun m i => swap_HFSPlusExtentDescriptor e m
      (record + HFSPlusForkData.extents + i * HFSPlusExtentDescriptor.sizeof)) m

/-- Function `swap_HFSPlusVolumeHeader`. -/
def swap_HFSPlusVolumeHeader (e : Endian) (m : Mem) (record : Nat) : Mem :=
  let m := Convert16 e HFSPlusVolumeHeader.signature m record
  let m := Convert16 e HFSPlusVolumeHeader.version m record
  let m := Convert32 e HFSPlusVolumeHeader.attributes m record
  let m := Convert32 e HFSPlusVolumeHeader.lastMountedVersion m record
  let m := Convert32 e HFSPlusVolumeHeader.journalInfoBlock m record
  let m := Convert32 e HFSPlusVolumeHeader.createDate m record
  let m := Convert32 e HFSPlusVolumeHeader.modifyDate m record
  let m := Convert32 e HFSPlusVolumeHeader.backupDate m record
  let m := Convert32 e HFSPlusVolumeHeader.checkedDate m record
  let m := Convert32 e HFSPlusVolumeHeader.fileCount m record
  let m := Convert32 e HFSPlusVolumeHeader.folderCount m record
  let m := Convert32 e HFSPlusVolumeHeader.blockSize m record
  let m := Convert32 e HFSPlusVolumeHeader.totalBlocks m record
  let m := Convert32 e HFSPlusVolumeHeader.freeBlocks m record
  let m := Convert32 e HFSPlusVolumeHeader.nextAllocation m record
  let m := Convert32 e HFSPlusVolumeHeader.rsrcClumpSize m record
  let m := Convert32 e HFSPlusVolumeHeader.dataClumpSize m record
  let m := Convert32 e HFSPlusVolumeHeader.nextCatalogID m record
  let m := Convert32 e HFSPlusVolumeHeader.writeCount m record
  let m := Convert64 e HFSPlusVolumeHeader.encodingsBitmap m record
  let m := swap_HFSPlusForkData e m (record + HFSPlusVolumeHeader.allocationFile)
  let m := swap_HFSPlusForkData e m (record + HFSPlusVolumeHeader.extentsFile)
  let m := swap_HFSPlusForkData e m (record + HFSPlusVolumeHeader.catalogFile)
  let m := swap_HFSPlusForkData e m (record + HFSPlusVolumeHeader.attributesFile)
  let m := swap_HFSPlusForkData e m (record + HFSPlusVolumeHeader.startupFile)
  m

/-- Function `swap_BTNodeDescriptor`. -/
def swap_BTNodeDescriptor (e : Endian) (m : Mem) (record : Nat) : Mem :=
  let m := Convert32 e BTNodeDescriptor.fLink m record
  let m := Convert32 e BTNodeDescriptor.bLink m record
  let m := Convert16 e BTNodeDescriptor.numRecords m record
  m

/-- Function `swap_BTHeaderRec`. -/
def swap_BTHeaderRec (e : Endian) (m : Mem) (record : Nat) : Mem :=
  let m := Convert16 e BTHeaderRec.treeDepth m record
  let m := Convert32 e BTHeaderRec.rootNode m record
  let m := Convert32 e BTHeaderRec.leafRecords m record
  let m := Convert32 e BTHeaderRec.firstLeafNode m record
  let m := Convert32 e BTHeaderRec.lastLeafNode m record
  let m := Convert16 e BTHeaderRec.nodeSize m record
  let m := Convert16 e BTHeaderRec.maxKeyLength m record
  let m := Convert32 e BTHeaderRec.totalNodes m record
  let m := Convert32 e BTHeaderRec.freeNodes m record
  let m := Convert32 e BTHeaderRec.clumpSize m record
  let m := Convert32 e BTHeaderRec.attributes m record
  m

/-- Function `swap_HFSUniStr255`: the length only; the loop over the characters is
commented out in the source. -/
def swap_HFSUniStr255 (e : Endian) (m : Mem) (unistr : Nat) : Mem :=
  Convert16 e HFSUniStr255.length m unistr

/-- Function `swap_HFSPlusCatalogKey`. -/
def swap_HFSPlusCatalogKey (e : Endian) (m : Mem) (record : Nat) : Mem :=
  let m := Convert16 e HFSPlusCatalogKey.keyLength m record
  let m := Convert32 e HFSPlusCatalogKey.parentID m record
  let m := swap_HFSUniStr255 e m (record + HFSPlusCatalogKey.nodeName)
  m

/-- Function `swap_HFSPlusBSDInfo`. -/
def swap_HFSPlusBSDInfo (e : Endian) (m : Mem) (record : Nat) : Mem :=
  let m := Convert32 e HFSPlusBSDInfo.ownerID m record
  let m := Convert32 e HFSPlusBSDInfo.groupID m record
  let m := Convert16 e HFSPlusBSDInfo.fileMode m record
  let m := Convert32 e HFSPlusBSDInfo.special_iNodeNum m record
  m

/-- Function `swap_FndrDirInfo`. -/
def swap_FndrDirInfo (e : Endian) (m : Mem) (record : Nat) : Mem :=
  let m := Convert16 e FndrDirInfo.frRect_top m record
  let m := Convert16 e FndrDirInfo.frRect_left m record
  let m := Convert16 e FndrDirInfo.frRect_bottom m record
  let m := Convert16 e FndrDirInfo.frRect_right m record
  let m := Convert16 e FndrDirInfo.frLocation_v m record
  let m := Convert16 e FndrDirInfo.frLocation_h m record
  let m := Convert16 e FndrDirInfo.opaque_ m record
  m

/-- Function `swap_FndrFileInfo`. -/
def swap_FndrFileInfo (e : Endian) (m : Mem) (record : Nat) : Mem :=
  let m := Convert32 e FndrFileInfo.fdType m record
  let m := Convert32 e FndrFileInfo.fdCreator m record
  let m := Convert16 e FndrFileInfo.fdFlags m record
  let m := Convert16 e FndrFileInfo.fdLocation_v m record
  let m := Convert16 e FndrFileInfo.fdLocation_h m record
  let m := Convert16 e FndrFileInfo.opaque_ m record
  m

/-- Function `swap_FndrOpaqueInfo`: an empty body. -/
def swap_FndrOpaqueInfo (_e : Endian) (m : Mem) (_record : Nat) : Mem := m

/-- Function `swap_HFSPlusCatalogFolder`. -/
def swap_HFSPlusCatalogFolder (e : Endian) (m : Mem) (record : Nat) : Mem :=
  let m := Convert16 e HFSPlusCatalogFolder.recordType m record
  let m := Convert16 e HFSPlusCatalogFolder.flags m record
  let m := Convert32 e HFSPlusCatalogFolder.valence m record
  let m := Convert32 e HFSPlusCatalogFolder.folderID m record
  let m := Convert32 e HFSPlusCatalogFolder.createDate m record
  let m := Convert32 e HFSPlusCatalogFolder.contentModDate m record
  let m := Convert32 e HFSPlusCatalogFolder.attributeModDate m record
  let m := Convert32 e HFSPlusCatalogFolder.accessDate m record
  let m := Convert32 e HFSPlusCatalogFolder.backupDate m record
  let m := swap_HFSPlusBSDInfo e m (record + HFSPlusCatalogFolder.bsdInfo)
  let m := swap_FndrDirInfo e m (record + HFSPlusCatalogFolder.userInfo)
  let m := swap_FndrOpaqueInfo e m (record + HFSPlusCatalogFolder.finderInfo)
  let m := Convert32 e HFSPlusCatalogFolder.textEncoding m record
  let m := Convert32 e HFSPlusCatalogFolder.folderCount m record
  m

/-- Function `swap_HFSPlusCatalogFile`. -/
def swap_HFSPlusCatalogFile (e : Endian) (m : Mem) (record : Nat) : Mem :=
  let m := Convert16 e HFSPlusCatalogFile.recordType m record
  let m := Convert16 e HFSPlusCatalogFile.flags m record
  let m := Convert32 e HFSPlusCatalogFile.reserved1 m record
  let m := Convert32 e HFSPlusCatalogFile.fileID m record
  let m := Convert32 e HFSPlusCatalogFile.createDate m record
  let m := Convert32 e HFSPlusCatalogFile.contentModDate m record
  let m := Convert32 e HFSPlusCatalogFile.attributeModDate m record
  let m := Convert32 e HFSPlusCatalogFile.accessDate m record
  let m := Convert32 e HFSPlusCatalogFile.backupDate m record
  let m := swap_HFSPlusBSDInfo e m (record + HFSPlusCatalogFile.bsdInfo)
  let m := swap_FndrFileInfo e m (record + HFSPlusCatalogFile.userInfo)
  let m := swap_FndrOpaqueInfo e m (record + HFSPlusCatalogFile.finderInfo)
  let m := Convert32 e HFSPlusCatalogFile.textEncoding m record
  let m := Convert32 e HFSPlusCatalogFile.reserved2 m record
  let m := swap_HFSPlusForkData e m (record + HFSPlusCatalogFile.dataFork)
  let m := swap_HFSPlusForkData e m (record + HFSPlusCatalogFile.resourceFork)
  m

/-- Function `swap_HFSPlusCatalogThread`: `Convert32` is applied to the 16-bit field
`reserved`, as in the source. -/
def swap_HFSPlusCatalogThread (e : Endian) (m : Mem) (record : Nat) : Mem :=
  let m := Convert16 e HFSPlusCatalogThread.recordType m record
  let m := Convert32 e HFSPlusCatalogThread.reserved m record
  let m := Convert32 e HFSPlusCatalogThread.parentID m record
  m

/-! ## Byte sources (`volume.h`, not among the sources) -/

/-- Modelled from the spec: the byte source `Volume`: "an opaque handle
providing absolute read-at-offset and read-at-device-block semantics, a device
block size, a volume byte offset, and a volume byte length (0 = to end of
source)".  `pread nbytes offset` is the positional read: the bytes delivered
(a short read delivers fewer than `nbytes`), or `none` when the read fails. -/
structure Volume where
  offset : Nat
  length : Nat
  block_size : Nat
  pread : Nat → Nat → Option (List Byte)

/-- Modelled from the spec: `vol_read(vol, buf, size, offset)`: "positional
read; short reads permitted; negative on error".  Returns the byte count and
the memory with the delivered bytes stored at `buf`. -/
def vol_read (vol : Volume) (m : Mem) (buf : Nat) (size offset : Nat) : Int × Mem :=
  match vol.pread size offset with
  | none => (-1, m)
  | some bs => (((bs.take size).length : Nat), writeBytes m buf (bs.take size))

/-- Modelled from the spec: `vol_read_blocks(vol, buf, count, start)`:
"positional read in units of the source's device block size".  Returns the
number of whole blocks delivered. -/
def vol_read_blocks (vol : Volume) (m : Mem) (buf : Nat) (count start : Nat) : Int × Mem :=
  match vol.pread (count * vol.block_size) (start * vol.block_size) with
  | none => (-1, m)
  | some bs =>
    ((((bs.take (count * vol.block_size)).length / vol.block_size : Nat) : Int),
      writeBytes m buf (bs.take (count * vol.block_size)))

/-- A byte source backed by the bytes `content`: every read succeeds in full. -/
def diskVolume (content : Nat → Byte) : Volume :=
  { offset := 0, length := 0, block_size := 512,
    pread := fun n o => some (readBytes content o n) }

/-- Memory of all zero bytes, as left by `ZERO_STRUCT` and `calloc`. -/
def zeroMem : Mem := fun _ => 0

/-- The host value of field `f` of the struct at `p`: the expression
`record->f` (its bit pattern when the field is signed). -/
def Field.get (e : Endian) (f : Field) (m : Mem) (p : Nat) : Nat :=
  load e f.size m (p + f.off)

namespace HFSExtentDescriptor
/-- Modelled from the spec: `u_int16_t startBlock` of the HFS Standard
extent descriptor. -/
def startBlock : Field := ⟨0, 2, false⟩
/-- Modelled from the spec: `u_int16_t blockCount`. -/
def blockCount : Field := ⟨2, 2, false⟩
/-- Modelled from the spec: `sizeof(HFSExtentDescriptor)`. -/
def sizeof : Nat := 4
end HFSExtentDescriptor

namespace HFSMasterDirectoryBlock
/-- Modelled from the spec: `u_int16_t drSigWord`. -/
def drSigWord : Field := ⟨0, 2, false⟩
/-- Modelled from the spec: `u_int32_t drCrDate`. -/
def drCrDate : Field := ⟨2, 4, false⟩
/-- Modelled from the spec: `u_int32_t drLsMod`. -/
def drLsMod : Field := ⟨6, 4, false⟩
/-- Modelled from the spec: `u_int16_t drAtrb`. -/
def drAtrb : Field := ⟨10, 2, false⟩
/-- Modelled from the spec: `u_int16_t drNmFls`. -/
def drNmFls : Field := ⟨12, 2, false⟩
/-- Modelled from the spec: `u_int16_t drVBMSt`. -/
def drVBMSt : Field := ⟨14, 2, false⟩
/-- Modelled from the spec: `u_int16_t drAllocPtr`. -/
def drAllocPtr : Field := ⟨16, 2, false⟩
/-- Modelled from the spec: `u_int16_t drNmAlBlks`. -/
def drNmAlBlks : Field := ⟨18, 2, false⟩
/-- Modelled from the spec: `u_int32_t drAlBlkSiz`, the allocation-block size. -/
def drAlBlkSiz : Field := ⟨20, 4, false⟩
/-- Modelled from the spec: `u_int32_t drClpSiz`. -/
def drClpSiz : Field := ⟨24, 4, false⟩
/-- Modelled from the spec: `u_int16_t drAlBlSt`, the first allocation block
in 512-byte sectors. -/
def drAlBlSt : Field := ⟨28, 2, false⟩
/-- Modelled from the spec: `u_int32_t drNxtCNID`. -/
def drNxtCNID : Field := ⟨30, 4, false⟩
/-- Modelled from the spec: `u_int16_t drFreeBks`. -/
def drFreeBks : Field := ⟨34, 2, false⟩
/-- Modelled from the spec: offset of `u_int8_t drVN[28]`. -/
def drVN : Nat := 36
/-- Modelled from the spec: `u_int32_t drVolBkUp`. -/
def drVolBkUp : Field := ⟨64, 4, false⟩
/-- Modelled from the spec: `u_int16_t drVSeqNum`. -/
def drVSeqNum : Field := ⟨68, 2, false⟩
/-- Modelled from the spec: `u_int32_t drWrCnt`. -/
def drWrCnt : Field := ⟨70, 4, false⟩
/-- Modelled from the spec: `u_int32_t drXTClpSiz`. -/
def drXTClpSiz : Field := ⟨74, 4, false⟩
/-- Modelled from the spec: `u_int32_t drCTClpSiz`. -/
def drCTClpSiz : Field := ⟨78, 4, false⟩
/-- Modelled from the spec: `u_int16_t drNmRtDirs`. -/
def drNmRtDirs : Field := ⟨82, 2, false⟩
/-- Modelled from the spec: `u_int32_t drFilCnt`. -/
def drFilCnt : Field := ⟨84, 4, false⟩
/-- Modelled from the spec: `u_int32_t drDirCnt`. -/
def drDirCnt : Field := ⟨88, 4, false⟩
/-- Modelled from the spec: offset of `u_int32_t drFndrInfo[8]`. -/
def drFndrInfo : Nat := 92
/-- Modelled from the spec: `u_int16_t drEmbedSigWord`. -/
def drEmbedSigWord : Field := ⟨124, 2, false⟩
/-- Modelled from the spec: offset of `HFSExtentDescriptor drEmbedExtent`. -/
def drEmbedExtent : Nat := 126
/-- Modelled from the spec: `u_int32_t drXTFlSize`. -/
def drXTFlSize : Field := ⟨130, 4, false⟩
/-- Modelled from the spec: offset of `HFSExtentRecord drXTExtRec` (three
extent descriptors). -/
def drXTExtRec : Nat := 134
/-- Modelled from the spec: `u_int32_t drCTFlSize`. -/
def drCTFlSize : Field := ⟨146, 4, false⟩
/-- Modelled from the spec: offset of `HFSExtentRecord drCTExtRec`. -/
def drCTExtRec : Nat := 150
/-- Modelled from the spec: `sizeof(HFSMasterDirectoryBlock)`, the 162 bytes
of the candidate MDB. -/
def sizeof : Nat := 162
end HFSMasterDirectoryBlock

/-- Modelled from the spec: `swap_HFSExtentDescriptor`, which is not among the
sources: the per-structure swap of the HFS Standard extent descriptor. -/
def swap_HFSExtentDescriptor (e : Endian) (m : Mem) (record : Nat) : Mem :=
  let m := Convert16 e HFSExtentDescriptor.startBlock m record
  let m := Convert16 e HFSExtentDescriptor.blockCount m record
  m

/-- Modelled from the spec: `swap_HFSMasterDirectoryBlock`, which is not among
the sources: the per-structure swap of the MDB, converting every multi-byte
integer field and leaving the volume name and the Finder info untouched. -/
def swap_HFSMasterDirectoryBlock (e : Endian) (m : Mem) (record : Nat) : Mem :=
  let m := Convert16 e HFSMasterDirectoryBlock.drSigWord m record
  let m := Convert32 e HFSMasterDirectoryBlock.drCrDate m record
  let m := Convert32 e HFSMasterDirectoryBlock.drLsMod m record
  let m := Convert16 e HFSMasterDirectoryBlock.drAtrb m record
  let m := Convert16 e HFSMasterDirectoryBlock.drNmFls m record
  let m := Convert16 e HFSMasterDirectoryBlock.drVBMSt m record
  let m := Convert16 e HFSMasterDirectoryBlock.drAllocPtr m record
  let m := Convert16 e HFSMasterDirectoryBlock.drNmAlBlks m record
  let m := Convert32 e HFSMasterDirectoryBlock.drAlBlkSiz m record
  let m := Convert32 e HFSMasterDirectoryBlock.drClpSiz m record
  let m := Convert16 e HFSMasterDirectoryBlock.drAlBlSt m record
  let m := Convert32 e HFSMasterDirectoryBlock.drNxtCNID m record
  let m := Convert16 e HFSMasterDirectoryBlock.drFreeBks m record
  let m := Convert32 e HFSMasterDirectoryBlock.drVolBkUp m record
  let m := Convert16 e HFSMasterDirectoryBlock.drVSeqNum m record
  let m := Convert32 e HFSMasterDirectoryBlock.drWrCnt m record
  let m := Convert32 e HFSMasterDirectoryBlock.drXTClpSiz m record
  let m := Convert32 e HFSMasterDirectoryBlock.drCTClpSiz m record
  let m := Convert16 e HFSMasterDirectoryBlock.drNmRtDirs m record
  let m := Convert32 e HFSMasterDirectoryBlock.drFilCnt m record
  let m := Convert32 e HFSMasterDirectoryBlock.drDirCnt m record
  let m := Convert16 e HFSMasterDirectoryBlock.drEmbedSigWord m record
  let m := swap_HFSExtentDescriptor e m (record + HFSMasterDirectoryBlock.drEmbedExtent)
  let m := Convert32 e HFSMasterDirectoryBlock.drXTFlSize m record
  let m := (List.range 3).foldl (fun m i => swap_HFSExtentDescriptor e m
    (record + HFSMasterDirectoryBlock.drXTExtRec + i * HFSExtentDescriptor.sizeof)) m
  let m := Convert32 e HFSMasterDirectoryBlock.drCTFlSize m record
  let m := (List.range 3).foldl (fun m i => swap_HFSExtentDescriptor e m
    (record + HFSMasterDirectoryBlock.drCTExtRec + i * HFSExtentDescriptor.sizeof)) m
  m

/-! ## Volume layer (`hfs.c`) -/

/-- Modelled from the spec: the signature `'BD'` of an HFS Standard MDB. -/
def kHFSSigWord : Nat := 0x4244
/-- Modelled from the spec: the signature `'H+'` of an HFS Plus volume header. -/
def kHFSPlusSigWord : Nat := 0x482B
/-- Modelled from the spec: the signature `'HX'` of an HFSX volume header. -/
def kHFSXSigWord : Nat := 0x4858

/-- Modelled from the spec: `EINVAL` of `<errno.h>`, the invalid-argument code. -/
def EINVAL : Int := 22
/-- Modelled from the spec: `EFTYPE` of `<errno.h>` ("inappropriate file type
or format"), the filesystem-type code that `hfs_load` sets. -/
def EFTYPE : Int := 79

/-- Modelled from the spec: the volume kinds that `hfs_test` returns, distinct
non-negative constants of `volume.h`. -/
inductive VolumeSubtype where
  | kVolumeSubtypeUnknown
  | kFilesystemTypeHFS
  | kFilesystemTypeHFSPlus
  | kFilesystemTypeWrappedHFSPlus
  deriving DecidableEq, Repr

/-- Function `hfs_load_mbd`: read the 162 bytes at offset 1024 into the MDB at `mdb`
and swap it. -/
def hfs_load_mbd (e : Endian) (vol : Volume) (m : Mem) (mdb : Nat) : Int × Mem :=
  let r := vol_read vol m mdb HFSMasterDirectoryBlock.sizeof 1024
  if r.1 < 0 then (-1, r.2)
  else (0, swap_HFSMasterDirectoryBlock e r.2 mdb)

/-- Function `hfs_load_header`: read the 512 bytes at offset 1024 into the volume
header at `vh` and swap it. -/
def hfs_load_header (e : Endian) (vol : Volume) (m : Mem) (vh : Nat) : Int × Mem :=
  let r := vol_read vol m vh HFSPlusVolumeHeader.sizeof 1024
  if r.1 < 0 then (-1, r.2)
  else (0, swap_HFSPlusVolumeHeader e r.2 vh)

/-- Function `hfs_test`: `none` is the return value -1.  `mdb0` and `vh0` are the
contents of the two uninitialised locals `mdb` and `vh` on entry. -/
def hfs_test (e : Endian) (vol : Volume) (mdb0 vh0 : Mem) : Option VolumeSubtype :=
  let r := hfs_load_mbd e vol mdb0 0
  if r.1 < 0 then none
  else
    let mdb := r.2
    if HFSMasterDirectoryBlock.drSigWord.get e mdb 0 = kHFSSigWord ∧
        HFSMasterDirectoryBlock.drEmbedSigWord.get e mdb 0 = kHFSPlusSigWord then
      some .kFilesystemTypeWrappedHFSPlus
    else if HFSMasterDirectoryBlock.drSigWord.get e mdb 0 = kHFSSigWord then
      some .kFilesystemTypeHFS
    else
      let r := hfs_load_header e vol vh0 0
      if r.1 < 0 then none
      else if HFSPlusVolumeHeader.signature.get e r.2 0 = kHFSPlusSigWord ∨
          HFSPlusVolumeHeader.signature.get e r.2 0 = kHFSXSigWord then
        some .kFilesystemTypeHFSPlus
      else some .kVolumeSubtypeUnknown

/-- Modelled from the spec: `struct HFSVolume` of `hfs_structs.h`: the source
it reads from (a null pointer after `ZERO_STRUCT`), the cached volume header
(a 512-byte struct, addressed from 0), and the cached offset (`off_t`), length,
block size and block count (`size_t`). -/
structure HFSVolume where
  vol : Option Volume
  vh : Mem
  offset : Nat
  length : Nat
  block_size : Nat
  block_count : Nat

/-- Macro `ZERO_STRUCT(*hfs)`. -/
def HFSVolume.zero : HFSVolume :=
  { vol := none, vh := zeroMem, offset := 0, length := 0, block_size := 0, block_count := 0 }

/-- The C expression `(mdb.drAlBlSt * 512) + (mdb.drEmbedExtent.startBlock *
mdb.drAlBlkSiz)`: `drAlBlSt` and `startBlock` are `u_int16_t` and promote to
`int`, `drAlBlkSiz` is `u_int32_t`, so the product and the sum are taken in
`unsigned int`, modulo `2 ^ 32`. -/
def embeddedOffset (drAlBlSt startBlock drAlBlkSiz : Nat) : Nat :=
  (drAlBlSt * 512 + (startBlock * drAlBlkSiz) % 2 ^ 32) % 2 ^ 32

/-- Function `hfs_attach`: returns the result, the `HFSVolume` behind `hfs` as the call
leaves it, and `errno`.  `mdb0` and `vh0` are the uninitialised locals of the
call to `hfs_test`. -/
def hfs_attach (e : Endian) (hfs : Option HFSVolume) (vol : Option Volume) (errno : Int)
    (mdb0 vh0 : Mem) : Int × Option HFSVolume × Int :=
  match hfs, vol with
  | none, _ => (-1, none, EINVAL)
  | some h, none => (-1, some h, EINVAL)
  | some h, some v =>
    match hfs_test e v mdb0 vh0 with
    | none => (-1, some h, errno)
    | some type =>
      if type = .kVolumeSubtypeUnknown ∨ type = .kFilesystemTypeHFS then
        (-1, some h, EINVAL)
      else
        let h := HFSVolume.zero
        let wrapped : Int × HFSVolume :=
          if type = .kFilesystemTypeWrappedHFSPlus then
            let r := hfs_load_mbd e v zeroMem 0
            if r.1 < 0 then (-1, h)
            else
              let mdb := r.2
              let off := embeddedOffset
                (HFSMasterDirectoryBlock.drAlBlSt.get e mdb 0)
                (HFSExtentDescriptor.startBlock.get e mdb HFSMasterDirectoryBlock.drEmbedExtent)
                (HFSMasterDirectoryBlock.drAlBlkSiz.get e mdb 0)
              (0, { h with offset := off })
          else (0, h)
        if wrapped.1 < 0 then (-1, some wrapped.2, errno)
        else
          let h := wrapped.2
          let r := hfs_load_header e v h.vh 0
          let h := { h with vh := r.2 }
          if r.1 < 0 then (-1, some h, errno)
          else
            let h := { h with vol := some v }
            let h := { h with block_size := HFSPlusVolumeHeader.blockSize.get e h.vh 0 }
            let h := { h with block_count := HFSPlusVolumeHeader.totalBlocks.get e h.vh 0 }
            let h := { h with offset := (h.offset + v.offset) % 2 ^ 64 }
            let h := { h with length :=
              if v.length ≠ 0 then v.length else (h.block_size * h.block_count) % 2 ^ 64 }
            (0, some h, errno)

/-! ## Volume reads (`hfs_io.c`) -/

/-- Function `hfs_read`: a null `buffer` or `hfs` fails with `EINVAL`; otherwise the
call is `vol_read(hfs->vol, buffer, size, offset)`.  A volume that was never
attached has no source and the read fails. -/
def hfs_read (m : Mem) (buffer : Option Nat) (hfs : Option HFSVolume) (size offset : Nat)
    (errno : Int) : Int × Mem × Int :=
  match buffer, hfs with
  | none, _ => (-1, m, EINVAL)
  | some _, none => (-1, m, EINVAL)
  | some buf, some h =>
    match h.vol with
    | none => (-1, m, errno)
    | some v =>
      let r := vol_read v m buf size offset
      (r.1, r.2, errno)

/-- Function `hfs_read_blocks`: `ratio` is an `unsigned`; the block arguments are
scaled by it in `size_t`.  The device block size is a power of two in the
byte-source contract of the spec, never 0; at 0 the division of the source
traps, which the quotient 0 taken here does not show. -/
def hfs_read_blocks (m : Mem) (buffer : Option Nat) (hfs : Option HFSVolume)
    (block_count start_block : Nat) (errno : Int) : Int × Mem × Int :=
  match buffer, hfs with
  | none, _ => (-1, m, EINVAL)
  | some _, none => (-1, m, EINVAL)
  | some buf, some h =>
    match h.vol with
    | none => (-1, m, errno)
    | some v =>
      let ratio := (h.block_size / v.block_size) % 2 ^ 32
      let r := vol_read_blocks v m buf ((block_count * ratio) % 2 ^ 64)
        ((start_block * ratio) % 2 ^ 64)
      (r.1, r.2, errno)

/-! ## Byte-reversal plans

A plan is a list of segments `(address, width)`; it describes a swap routine
whose every `ConvertN` meets a field of its own width. -/

/-- Reverse each segment of the plan in turn. -/
def applySegs : List (Nat × Nat) → Mem → Mem
  | [], m => m
  | s :: ss, m => applySegs ss (revSeg s.1 s.2 m)

/-- Does address `a` lie in segment `s`? -/
def inSeg (s : Nat × Nat) (a : Nat) : Bool := decide (s.1 ≤ a) && decide (a < s.1 + s.2)

/-- Do two segments share no address? -/
def segDisjoint (s t : Nat × Nat) : Bool := decide (s.1 + s.2 ≤ t.1) || decide (t.1 + t.2 ≤ s.1)

/-- No two segments of the plan share an address. -/
def segsDisjoint : List (Nat × Nat) → Bool
  | [] => true
  | s :: ss => ss.all (segDisjoint s) && segsDisjoint ss

/-- Where the plan takes the byte of address `a` from. -/
def segSource : List (Nat × Nat) → Nat → Nat
  | [], a => a
  | s :: ss, a => if inSeg s a then s.1 + (s.1 + s.2 - 1 - a) else segSource ss a

/-- A plan given relative to a struct, placed at the struct's address. -/
def segsAt (p : Nat) (rel : List (Nat × Nat)) : List (Nat × Nat) :=
  rel.map fun s => (p + s.1, s.2)

/-- The fields that `swap_HFSPlusExtentDescriptor` converts. -/
def planExtentDescriptor : List (Nat × Nat) := [(0, 4), (4, 4)]

/-- The fields that `swap_HFSPlusForkData` converts, in the order of the source. -/
def planForkData : List (Nat × Nat) :=
  [(0, 8), (12, 4), (8, 4)] ++
    (List.range 8).flatMap fun i => segsAt (16 + i * 8) planExtentDescriptor

/-- The fields that `swap_HFSPlusVolumeHeader` converts, in the order of the source. -/
def planVolumeHeader : List (Nat × Nat) :=
  [(0, 2), (2, 2), (4, 4), (8, 4), (12, 4), (16, 4), (20, 4), (24, 4), (28, 4), (32, 4),
   (36, 4), (40, 4), (44, 4), (48, 4), (52, 4), (56, 4), (60, 4), (64, 4), (68, 4), (72, 8)] ++
    segsAt 112 planForkData ++ segsAt 192 planForkData ++ segsAt 272 planForkData ++
    segsAt 352 planForkData ++ segsAt 432 planForkData

/-- The fields that `swap_BTNodeDescriptor` converts. -/
def planNodeDescriptor : List (Nat × Nat) := [(0, 4), (4, 4), (10, 2)]

/-- The fields that `swap_BTHeaderRec` converts. -/
def planHeaderRec : List (Nat × Nat) :=
  [(0, 2), (2, 4), (6, 4), (10, 4), (14, 4), (18, 2), (20, 2), (22, 4), (26, 4), (32, 4), (38, 4)]

/-- The fields that `swap_HFSPlusCatalogKey` converts. -/
def planCatalogKey : List (Nat × Nat) := [(0, 2), (2, 4), (6, 2)]

/-- The fields that `swap_HFSPlusBSDInfo` converts. -/
def planBSDInfo : List (Nat × Nat) := [(0, 4), (4, 4), (10, 2), (12, 4)]

/-- The fields that `swap_FndrDirInfo` converts. -/
def planFndrDirInfo : List (Nat × Nat) :=
  [(0, 2), (2, 2), (4, 2), (6, 2), (10, 2), (12, 2), (14, 2)]

/-- The fields that `swap_FndrFileInfo` converts. -/
def planFndrFileInfo : List (Nat × Nat) := [(0, 4), (4, 4), (8, 2), (10, 2), (12, 2), (14, 2)]

/-- The fields that `swap_HFSPlusCatalogFolder` converts, in the order of the source. -/
def planCatalogFolder : List (Nat × Nat) :=
  [(0, 2), (2, 2), (4, 4), (8, 4), (12, 4), (16, 4), (20, 4), (24, 4), (28, 4)] ++
    segsAt 32 planBSDInfo ++ segsAt 48 planFndrDirInfo ++ [(80, 4), (84, 4)]

/-- The fields that `swap_HFSPlusCatalogFile` converts, in the order of the source. -/
def planCatalogFile : List (Nat × Nat) :=
  [(0, 2), (2, 2), (4, 4), (8, 4), (12, 4), (16, 4), (20, 4), (24, 4), (28, 4)] ++
    segsAt 32 planBSDInfo ++ segsAt 48 planFndrFileInfo ++ [(80, 4), (84, 4)] ++
    segsAt 88 planForkData ++ segsAt 168 planForkData

/-- The fields that `swap_HFSExtentDescriptor` converts. -/
def planExtentDescriptorStd : List (Nat × Nat) := [(0, 2), (2, 2)]

/-- The fields that `swap_HFSMasterDirectoryBlock` converts, in its order. -/
def planMasterDirectoryBlock : List (Nat × Nat) :=
  [(0, 2), (2, 4), (6, 4), (10, 2), (12, 2), (14, 2), (16, 2), (18, 2), (20, 4), (24, 4),
   (28, 2), (30, 4), (34, 2), (64, 4), (68, 2), (70, 4), (74, 4), (78, 4), (82, 2), (84, 4),
   (88, 4), (124, 2)] ++ segsAt 126 planExtentDescriptorStd ++ [(130, 4)] ++
    (List.range 3).flatMap (fun i => segsAt (134 + i * 4) planExtentDescriptorStd) ++
    [(146, 4)] ++
    (List.range 3).flatMap (fun i => segsAt (150 + i * 4) planExtentDescriptorStd)

/-- Do all segments of the plan lie outside the window `[lo, hi)`? -/
def segsAvoid (lo hi : Nat) (plan : List (Nat × Nat)) : Bool :=
  plan.all fun s => decide (s.1 + s.2 ≤ lo) || decide (hi ≤ s.1)

/-- Field `f` of a struct nested at offset `base`, as a field of the outer struct. -/
def Field.within (base : Nat) (f : Field) : Field := { f with off := base + f.off }

/-- The multi-byte integer fields of a fork-data descriptor: the three
scalars and both fields of each of the eight extents. -/
def HFSPlusForkData.integerFields : List Field :=
  [HFSPlusForkData.logicalSize, HFSPlusForkData.totalBlocks, HFSPlusForkData.clumpSize] ++
    (List.range kHFSPlusExtentDensity).flatMap fun i =>
      [HFSPlusExtentDescriptor.startBlock.within
          (HFSPlusForkData.extents + i * HFSPlusExtentDescriptor.sizeof),
       HFSPlusExtentDescriptor.blockCount.within
          (HFSPlusForkData.extents + i * HFSPlusExtentDescriptor.sizeof)]

/-- The multi-byte integer fields of the volume header: its twenty scalars
and the integer fields of its five fork-data descriptors. -/
def HFSPlusVolumeHeader.integerFields : List Field :=
  [HFSPlusVolumeHeader.signature, HFSPlusVolumeHeader.version, HFSPlusVolumeHeader.attributes,
   HFSPlusVolumeHeader.lastMountedVersion, HFSPlusVolumeHeader.journalInfoBlock,
   HFSPlusVolumeHeader.createDate, HFSPlusVolumeHeader.modifyDate,
   HFSPlusVolumeHeader.backupDate, HFSPlusVolumeHeader.checkedDate,
   HFSPlusVolumeHeader.fileCount, HFSPlusVolumeHeader.folderCount,
   HFSPlusVolumeHeader.blockSize, HFSPlusVolumeHeader.totalBlocks,
   HFSPlusVolumeHeader.freeBlocks, HFSPlusVolumeHeader.nextAllocation,
   HFSPlusVolumeHeader.rsrcClumpSize, HFSPlusVolumeHeader.dataClumpSize,
   HFSPlusVolumeHeader.nextCatalogID, HFSPlusVolumeHeader.writeCount,
   HFSPlusVolumeHeader.encodingsBitmap] ++
    [HFSPlusVolumeHeader.allocationFile, HFSPlusVolumeHeader.extentsFile,
     HFSPlusVolumeHeader.catalogFile, HFSPlusVolumeHeader.attributesFile,
     HFSPlusVolumeHeader.startupFile].flatMap fun fork =>
      HFSPlusForkData.integerFields.map (Field.within fork)

/-- A thread record at address 0 whose 16-bit `reserved` field holds the
on-disk bytes `00 01`; every other byte is zero. -/
def threadRecord : Mem := fun a => if a = 3 then 1 else 0

/-- A volume header at address 0 with signature bytes `48 2B` (`H+`) and
block-size bytes `00 00 10 00` (4096); every other byte is zero. -/
def sampleHeader : Mem := fun a =>
  if a = 0 then 0x48 else if a = 1 then 0x2B else if a = 42 then 0x10 else 0

/-! ## The detection table of the spec, and sample sources -/

/-- The big-endian 16-bit word at byte offset `o` of a byte string. -/
def be16At (bs : List Byte) (o : Nat) : Nat := beValue ((bs.drop o).take 2)

/-- The big-endian 32-bit word at byte offset `o` of a byte string. -/
def be32At (bs : List Byte) (o : Nat) : Nat := beValue ((bs.drop o).take 4)

/-- Detection as the spec words it: the 162 bytes at offset 1024 are the
candidate MDB, the 512 bytes at offset 1024 the candidate volume header.  MDB
signature `'BD'` with embedded signature `'H+'` is a wrapped HFS Plus volume,
`'BD'` with any other embedded signature is HFS; otherwise a header signature
`'H+'` or `'HX'` is HFS Plus and anything else is unknown.  `none` (the result
-1) is returned when a read that is needed fails. -/
def detect_spec (vol : Volume) : Option VolumeSubtype :=
  match vol.pread 162 1024 with
  | none => none
  | some mb =>
    if be16At mb 0 = 0x4244 then
      (if be16At mb 124 = 0x482B then some .kFilesystemTypeWrappedHFSPlus
       else some .kFilesystemTypeHFS)
    else
      match vol.pread 512 1024 with
      | none => none
      | some hb =>
        if be16At hb 0 = 0x482B ∨ be16At hb 0 = 0x4858 then some .kFilesystemTypeHFSPlus
        else some .kVolumeSubtypeUnknown

/-- A readable source: a read that succeeds delivers all the bytes asked for. -/
def FullReads (vol : Volume) : Prop :=
  ∀ n o bs, vol.pread n o = some bs → bs.length = n

/-- Bytes given at a few addresses, zero elsewhere. -/
def sparse (l : List (Nat × Byte)) : Nat → Byte :=
  fun a => ((l.find? fun x => x.1 == a).map Prod.snd).getD 0

/-- A wrapped volume: an MDB at 1024 with signature `'BD'`, `drAlBlkSiz` =
524288, `drAlBlSt` = 16, embedded signature `'H+'` and embedded start block 2;
the embedded volume header lies at 1056768 + 1024 with signature `'H+'`,
blockSize 512 and totalBlocks 256. -/
def wrappedDisk : Nat → Byte :=
  sparse [(1024, 0x42), (1025, 0x44), (1045, 0x08), (1053, 0x10), (1148, 0x48), (1149, 0x2B),
    (1151, 0x02), (1057792, 0x48), (1057793, 0x2B), (1057834, 0x02), (1057838, 0x01)]

/-- A wrapped volume whose MDB has `drAlBlSt` = 0, `drAlBlkSiz` = 524288 and
embedded start block 8192, so that the embedded volume starts at byte
`2 ^ 32`. -/
def overflowDisk : Nat → Byte :=
  sparse [(1024, 0x42), (1025, 0x44), (1045, 0x08), (1148, 0x48), (1149, 0x2B), (1150, 0x20)]

/-- A bare HFS Plus volume: signature `'H+'`, blockSize 4096, totalBlocks 256. -/
def bareDisk : Nat → Byte :=
  sparse [(1024, 0x48), (1025, 0x2B), (1066, 0x10), (1070, 0x01)]

/-- A bare HFS Standard volume: signature `'BD'`, embedded signature 0. -/
def hfsDisk : Nat → Byte := sparse [(1024, 0x42), (1025, 0x44)]

/-- What a correct attach of `wrappedDisk` would leave: the source, the
embedded volume's origin 1056768, block size 512 and block count 256. -/
def wrappedVolume : HFSVolume :=
  { vol := some (diskVolume wrappedDisk), vh := zeroMem, offset := 1056768,
    length := 131072, block_size := 512, block_count := 256 }

/-! ## Fork layer (`hfs_io.c`) -/

/-- How a call ends: it returns a value, or the macro `critical(...)` is
reached.  Modelled from the spec: `critical` is fatal and stops the program;
the statements that follow it in the sources never run. -/
inductive Outcome (α : Type) where
  | returned (a : α)
  | aborted
  deriving DecidableEq

/-- The value of an `HFSPlusExtentDescriptor`. -/
structure ExtentDescriptorValue where
  startBlock : Nat
  blockCount : Nat
  deriving DecidableEq, Repr

/-- The value of an `HFSPlusForkData`: what a struct assignment copies. -/
structure ForkDataValue where
  logicalSize : Nat
  clumpSize : Nat
  totalBlocks : Nat
  extents : List ExtentDescriptorValue
  deriving DecidableEq, Repr

/-- The value of the extent descriptor at `p`. -/
def HFSPlusExtentDescriptor.value (e : Endian) (m : Mem) (p : Nat) : ExtentDescriptorValue :=
  { startBlock := HFSPlusExtentDescriptor.startBlock.get e m p,
    blockCount := HFSPlusExtentDescriptor.blockCount.get e m p }

/-- The value of the fork-data descriptor at `p`. -/
def HFSPlusForkData.value (e : Endian) (m : Mem) (p : Nat) : ForkDataValue :=
  { logicalSize := HFSPlusForkData.logicalSize.get e m p,
    clumpSize := HFSPlusForkData.clumpSize.get e m p,
    totalBlocks := HFSPlusForkData.totalBlocks.get e m p,
    extents := (List.range kHFSPlusExtentDensity).map fun i =>
      HFSPlusExtentDescriptor.value e m
        (p + HFSPlusForkData.extents + i * HFSPlusExtentDescriptor.sizeof) }

/-- Modelled from the spec: an entry of the extent list,
`{logical_start, start_block, block_count}`. -/
structure Extent where
  logicalStart : Nat
  startBlock : Nat
  blockCount : Nat
  deriving DecidableEq, Repr

/-- Modelled from the spec: the extent list, an ordered sequence of entries. -/
abbrev ExtentList := List Extent

/-- Modelled from the spec: the fork-kind tag `hfs_forktype_t`. -/
inductive hfs_forktype_t where
  | HFSDataForkType
  | HFSResourceForkType
  deriving DecidableEq, Repr

/-- Modelled from the spec: `struct HFSFork` of `hfs_structs.h`: the volume,
the fork-data descriptor, the fork kind, the CNID, the cached total blocks and
logical size (wide enough for the descriptor's values) and the extent list. -/
structure HFSFork where
  hfs : HFSVolume
  forkData : ForkDataValue
  forkType : hfs_forktype_t
  cnid : Nat
  totalBlocks : Nat
  logicalSize : Nat
  extents : ExtentList

/-- Modelled from the spec: `kHFSExtentsFileID`. -/
def kHFSExtentsFileID : Nat := 3
/-- Modelled from the spec: `kHFSCatalogFileID`. -/
def kHFSCatalogFileID : Nat := 4
/-- Modelled from the spec: `kHFSBadBlockFileID`. -/
def kHFSBadBlockFileID : Nat := 5
/-- Modelled from the spec: `kHFSAllocationFileID`. -/
def kHFSAllocationFileID : Nat := 6
/-- Modelled from the spec: `kHFSStartupFileID`. -/
def kHFSStartupFileID : Nat := 7
/-- Modelled from the spec: `kHFSAttributesFileID`. -/
def kHFSAttributesFileID : Nat := 8

/-- The fork that `hfsfork_make` has filled in when it asks for the extent
list: every field set, the list still empty (`extentlist_make()`). -/
def HFSFork.init (hfs : HFSVolume) (forkData : ForkDataValue) (forkType : hfs_forktype_t)
    (cnid : Nat) : HFSFork :=
  { hfs := hfs, forkData := forkData, forkType := forkType, cnid := cnid,
    totalBlocks := forkData.totalBlocks, logicalSize := forkData.logicalSize, extents := [] }

/-- Function `hfsfork_make`.  `fork` is the out-parameter: `none` is a null pointer,
`some slot` a pointer to a cell that holds `slot`; the cell is returned as the
call leaves it.  `getExtents` stands for `hfs_extents_get_extentlist_for_fork`
(not among the sources): the completed list, or `none` for `false`. -/
def hfsfork_make (getExtents : HFSFork → Option ExtentList)
    (fork : Option (Option HFSFork)) (hfs : Option HFSVolume) (forkData : ForkDataValue)
    (forkType : hfs_forktype_t) (cnid : Nat) (errno : Int) :
    Outcome (Int × Option (Option HFSFork) × Int) :=
  match fork, hfs with
  | none, _ => .returned (-1, none, EINVAL)
  | some slot, none => .returned (-1, some slot, EINVAL)
  | some _, some h =>
    let f := HFSFork.init h forkData forkType cnid
    match getExtents f with
    | none => .aborted
    | some l => .returned (0, some (some { f with extents := l }), errno)

/-- Function `hfsfork_get_special`. -/
def hfsfork_get_special (e : Endian) (getExtents : HFSFork → Option ExtentList)
    (fork : Option (Option HFSFork)) (hfs : Option HFSVolume) (cnid : Nat) (errno : Int) :
    Outcome (Int × Option (Option HFSFork) × Int) :=
  match fork, hfs with
  | none, _ => .returned (-1, none, EINVAL)
  | some slot, none => .returned (-1, some slot, EINVAL)
  | some slot, some h =>
    let forkData : Option ForkDataValue :=
      if cnid = kHFSExtentsFileID then
        some (HFSPlusForkData.value e h.vh HFSPlusVolumeHeader.extentsFile)
      else if cnid = kHFSCatalogFileID then
        some (HFSPlusForkData.value e h.vh HFSPlusVolumeHeader.catalogFile)
      else if cnid = kHFSBadBlockFileID then none
      else if cnid = kHFSAllocationFileID then
        some (HFSPlusForkData.value e h.vh HFSPlusVolumeHeader.allocationFile)
      else if cnid = kHFSStartupFileID then
        some (HFSPlusForkData.value e h.vh HFSPlusVolumeHeader.startupFile)
      else if cnid = kHFSAttributesFileID then
        some (HFSPlusForkData.value e h.vh HFSPlusVolumeHeader.attributesFile)
      else none
    match forkData with
    | none => .returned (-1, some slot, errno)
    | some fd =>
      match hfsfork_make getExtents fork hfs fd .HFSDataForkType cnid errno with
      | .aborted => .aborted
      | .returned r => if r.1 < 0 then .returned (-1, r.2.1, r.2.2) else .returned (0, r.2.1, r.2.2)

/-! ## Fork reads (`hfs_io.c`) -/

/-- Modelled from the spec: `struct range` of `range.h`: a start and a count,
natural numbers. -/
structure range where
  start : Nat
  count : Nat
  deriving DecidableEq, Repr

/-- Modelled from the spec: `make_range(start, count)`. -/
def make_range (start count : Nat) : range := { start := start, count := count }

/-- Modelled from the spec: `range_max`, the last index of a range, so that
`range_max(request) >= totalBlocks` is the spec's test
"start_block + block_count > total_blocks".  (Were it `start + count`, the
request would also be clamped when it ends exactly at the total, to the same
count.) -/
def range_max (r : range) : Nat := r.start + r.count - 1

/-- Modelled from the spec: `extentlist_find` of `hfs_extent_ops.h`: "locates
the entry whose [logical_start, logical_start + block_count) contains the query
and returns the remaining run from that point"; `none` is not-found.  The
result is `(device_start_block, run_length)`. -/
def extentlist_find (list : ExtentList) (logical_block : Nat) : Option (Nat × Nat) :=
  match list.find? fun x =>
      decide (x.logicalStart ≤ logical_block) &&
        decide (logical_block < x.logicalStart + x.blockCount) with
  | none => none
  | some x =>
    some (x.startBlock + (logical_block - x.logicalStart),
      x.blockCount - (logical_block - x.logicalStart))

/-- The value an integer has once stored in a 64-bit signed integer (`ssize_t`,
`off_t`, `fpos_t`): its residue modulo `2 ^ 64` in the signed range. -/
def toInt64 (x : Int) : Int := (x + 2 ^ 63) % 2 ^ 64 - 2 ^ 63

/-- Modelled from the spec: macro `INIT_BUFFER(buffer, size)` (not among the
sources), "a scratch buffer is allocated": is the allocation of `size` bytes
met?  No object is larger than `PTRDIFF_MAX`, that is `2 ^ 63 - 1` bytes, so a
larger request is met on no host; without the buffer the program cannot go on
and stops.  A request within the bound is taken to be met, with a zeroed
buffer. -/
def INIT_BUFFER (size : Nat) : Bool := decide (size < 2 ^ 63)

/-- The C library's `memcpy(dst + d, src + s, n)` between two memories. -/
def memcpy (dst : Mem) (d : Nat) (src : Mem) (s n : Nat) : Mem :=
  fun a => if d ≤ a ∧ a < d + n then src (s + (a - d)) else dst a

/-- The locals of `hfs_read_fork` that change in its loop: what is left to
get, the scratch buffer `read_buffer`, the fail-safe counter, `errno`, and the
calls of `hfs_read_blocks` made so far, each as `(start_block, block_count)`. -/
structure ReadState where
  remaining : range
  read_buffer : Mem
  loopCounter : Nat
  reads : List (Nat × Nat)
  errno : Int

/-- One pass through the loop body: the body ends and control goes back to the
loop condition (also by `continue`), or `critical(...)` stops the program. -/
inductive ReadStep where
  | next (s : ReadState)
  | stop (s : ReadState)

/-- The locals as a pass through the loop body leaves them. -/
def ReadStep.state : ReadStep → ReadState
  | .next s => s
  | .stop s => s

/-- Does the pass end with control back at the loop condition? -/
def ReadStep.isNext : ReadStep → Bool
  | .next _ => true
  | .stop _ => false

/-- The body of the `while` loop of `hfs_read_fork`.  `find` stands for
`extentlist_find`.  The scratch buffer is a memory of its own, addressed
from 0. -/
def readBody (find : ExtentList → Nat → Option (Nat × Nat)) (fork : HFSFork)
    (request : range) (s : ReadState) : ReadStep :=
  let s := { s with loopCounter := s.loopCounter + 1 }
  if s.loopCounter > 2000 then .stop s
  else
    match find fork.extents s.remaining.start with
    | none => .stop s
    | some read_range =>
      if read_range.2 = 0 then .next s
      else
        let count := min read_range.2 request.count
        let r := hfs_read_blocks s.read_buffer (some 0) (some fork.hfs) count read_range.1
          s.errno
        let s := { s with reads := s.reads ++ [(read_range.1, count)],
                          read_buffer := r.2.1, errno := r.2.2 }
        if r.1 < 0 then .stop s
        else
          let blocks := r.1.toNat
          .next { s with remaining :=
            { start := s.remaining.start + blocks,
              count := s.remaining.count - min blocks s.remaining.count } }

/-- The `while (remaining.count != 0)` loop of `hfs_read_fork`: `true` when
the loop ends with nothing left to get, `false` when `critical(...)` stops the
program.  The first argument bounds the passes; 2001 are enough, because the
fail-safe stops the 2001st. -/
def readLoop (find : ExtentList → Nat → Option (Nat × Nat)) (fork : HFSFork)
    (request : range) : Nat → ReadState → Bool × ReadState
  | 0, s => (false, s)
  | fuel + 1, s =>
    if s.remaining.count = 0 then (true, s)
    else
      match readBody find fork request s with
      | .stop s => (false, s)
      | .next s => readLoop find fork request fuel s

/-- What a call of `hfs_read_fork` leaves behind: how it ended, the caller's
memory, the calls of `hfs_read_blocks` it made, in order, as
`(start_block, block_count)`, how often the loop body was entered, and
`errno`. -/
structure ForkRead where
  outcome : Outcome Int
  buffer : Mem
  reads : List (Nat × Nat)
  iterations : Nat
  errno : Int

/-- The request of `hfs_read_fork` after its sanity checks have trimmed it. -/
def trimRequest (totalBlocks : Nat) (request : range) : range :=
  if range_max request ≥ totalBlocks then
    { request with count := max (totalBlocks - request.start) 1 }
  else request

/-- Function `hfs_read_fork`.  `m` is the caller's memory and `buffer` the
pointer into it.  The scratch buffer of `block_count * block_size` bytes (a
product in `size_t`) is allocated after the sanity checks; when the
allocation fails the program stops. -/
def hfs_read_fork (find : ExtentList → Nat → Option (Nat × Nat)) (m : Mem)
    (buffer : Option Nat) (fork : Option HFSFork) (block_count start_block : Nat)
    (errno : Int) : ForkRead :=
  match buffer, fork with
  | none, _ =>
    { outcome := .returned (-1), buffer := m, reads := [], iterations := 0, errno := EINVAL }
  | some _, none =>
    { outcome := .returned (-1), buffer := m, reads := [], iterations := 0, errno := EINVAL }
  | some buf, some f =>
    let request := make_range start_block block_count
    if request.count < 1 then
      { outcome := .returned (-1), buffer := m, reads := [], iterations := 0, errno := errno }
    else if request.start > f.totalBlocks then
      { outcome := .returned (-1), buffer := m, reads := [], iterations := 0, errno := errno }
    else
      let request := trimRequest f.totalBlocks request
      if INIT_BUFFER ((block_count * f.hfs.block_size) % 2 ^ 64) = false then
        { outcome := .aborted, buffer := m, reads := [], iterations := 0, errno := errno }
      else
        let r := readLoop find f request 2001
          { remaining := request, read_buffer := zeroMem, loopCounter := 0, reads := [],
            errno := errno }
        if r.1 then
          { outcome := .returned request.count,
            buffer := memcpy m buf r.2.read_buffer 0
              ((min block_count request.count * f.hfs.block_size) % 2 ^ 64),
            reads := r.2.reads, iterations := r.2.loopCounter, errno := r.2.errno }
        else
          { outcome := .aborted, buffer := m, reads := r.2.reads,
            iterations := r.2.loopCounter, errno := r.2.errno }

/-- What a call of `hfs_read_fork_range` leaves behind: how it ended, the
caller's memory, the `(block_count, start_block)` it passed to
`hfs_read_fork`, the `(byte_offset, size)` of its `memcpy` out of the scratch
buffer when one is made, and `errno`. -/
structure RangeRead where
  outcome : Outcome Int
  buffer : Mem
  request : Option (Nat × Nat)
  copied : Option (Nat × Nat)
  errno : Int

/-- Function `hfs_read_fork_range`.  The sums `offset + size` are taken in `size_t`,
modulo `2 ^ 64`; a block size of 0 stops the program at the first division.
A size that is `2 ^ 63` bytes or more after the clamp cannot be served: the
scratch allocation fails, or else the final `memcpy` of that many bytes, made
after every return of `hfs_read_fork` (it never returns 0), leaves the address
space; the call does not return, and the model stops it ahead of the
allocation.  The statement `return size` converts the `size_t` to `ssize_t`. -/
def hfs_read_fork_range (find : ExtentList → Nat → Option (Nat × Nat)) (m : Mem)
    (buffer : Option Nat) (fork : Option HFSFork) (size offset : Nat) (errno : Int) :
    RangeRead :=
  match buffer, fork with
  | none, _ =>
    { outcome := .returned (-1), buffer := m, request := none, copied := none,
      errno := EINVAL }
  | some _, none =>
    { outcome := .returned (-1), buffer := m, request := none, copied := none,
      errno := EINVAL }
  | some buf, some f =>
    if offset > f.logicalSize then
      { outcome := .returned 0, buffer := m, request := none, copied := none, errno := errno }
    else
      let size := if (offset + size) % 2 ^ 64 > f.logicalSize then f.logicalSize - offset
        else size
      if size < 1 then
        { outcome := .returned 0, buffer := m, request := none, copied := none,
          errno := errno }
      else if f.hfs.block_size = 0 then
        { outcome := .aborted, buffer := m, request := none, copied := none, errno := errno }
      else if 2 ^ 63 ≤ size then
        { outcome := .aborted, buffer := m, request := none, copied := none, errno := errno }
      else
        let start_block := offset / f.hfs.block_size
        let byte_offset := offset % f.hfs.block_size
        let block_count := size / f.hfs.block_size +
          (if ((offset + size) % 2 ^ 64) % f.hfs.block_size ≠ 0 then 1 else 0)
        if INIT_BUFFER ((block_count * f.hfs.block_size) % 2 ^ 64) = false then
          { outcome := .aborted, buffer := m, request := none, copied := none,
            errno := errno }
        else
          let rd := hfs_read_fork find zeroMem (some 0) (some f) block_count start_block errno
          { outcome :=
              match rd.outcome with
              | .aborted => .aborted
              | .returned _ => .returned (toInt64 size),
            buffer :=
              match rd.outcome with
              | .aborted => m
              | .returned read_blocks =>
                if read_blocks ≠ 0 then memcpy m buf rd.buffer byte_offset size else m,
            request := some (block_count, start_block),
            copied :=
              match rd.outcome with
              | .aborted => none
              | .returned read_blocks =>
                if read_blocks ≠ 0 then some (byte_offset, size) else none,
            errno := rd.errno }


/-! ## Sample forks -/

/-- A source on which every read is at the end of the file: reads succeed and
deliver no byte. -/
def emptyVolume : Volume :=
  { offset := 0, length := 0, block_size := 512, pread := fun _ _ => some [] }

/-- An attached volume over the source `vol` with the allocation-block size
`block_size`. -/
def volumeOn (vol : Volume) (block_size : Nat) : HFSVolume :=
  { vol := some vol, vh := zeroMem, offset := 0, length := 0, block_size := block_size,
    block_count := 16 }

/-- A fork of the volume `hfs` with the extent list `extents`, the total
`totalBlocks` and the logical size `logicalSize`. -/
def forkOf (hfs : HFSVolume) (extents : ExtentList) (totalBlocks logicalSize : Nat) : HFSFork :=
  { hfs := hfs,
    forkData := { logicalSize := logicalSize, clumpSize := 0, totalBlocks := totalBlocks,
                  extents := [] },
    forkType := .HFSDataForkType, cnid := 16, totalBlocks := totalBlocks,
    logicalSize := logicalSize, extents := extents }

/-- A disk whose allocation block 1 starts with the byte AA, block 3 with BB
and block 5 with CC (blocks of 512 bytes). -/
def markedDisk : Nat → Byte := sparse [(512, 0xAA), (1536, 0xBB), (2560, 0xCC)]

/-- Two extents of one block each, at blocks 1 and 3: logical block 0 is
block 1, logical block 1 is block 3. -/
def twoExtents : ExtentList :=
  [{ logicalStart := 0, startBlock := 1, blockCount := 1 },
   { logicalStart := 1, startBlock := 3, blockCount := 1 }]

/-- An extent of one block at block 1, then an extent of two blocks at
block 5. -/
def oneThenTwo : ExtentList :=
  [{ logicalStart := 0, startBlock := 1, blockCount := 1 },
   { logicalStart := 1, startBlock := 5, blockCount := 2 }]

/-- A fork of one block on a source at whose end every read falls: each read
succeeds and delivers no block. -/
def stuckFork : HFSFork :=
  forkOf (volumeOn emptyVolume 512)
    [{ logicalStart := 0, startBlock := 1, blockCount := 1 }] 1 512

/-- The locals of `hfs_read_fork` on entry to its loop for the request
(start 0, count 1). -/
def firstPass : ReadState :=
  { remaining := make_range 0 1, read_buffer := zeroMem, loopCounter := 0, reads := [],
    errno := 0 }

/-- Is the list a gapless chain of non-empty extents that starts at logical
block `L`? -/
def extentsChain : Nat → ExtentList → Bool
  | _, [] => true
  | L, x :: xs =>
    decide (x.logicalStart = L) && decide (1 ≤ x.blockCount) &&
      extentsChain (L + x.blockCount) xs

/-- The sum of the block counts of the list. -/
def extentsTotal (l : ExtentList) : Nat := (l.map fun x => x.blockCount).sum

/-- A source on which every read succeeds and delivers all the bytes asked
for. -/
def AlwaysReads (vol : Volume) : Prop :=
  ∀ n o, ∃ bs, vol.pread n o = some bs ∧ bs.length = n


/-- The fork of the spec's scenario S5: extents of 10, 5 and 3 blocks at the
device starts 100, 500 and 200. -/
def fragmentedExtents : ExtentList :=
  [{ logicalStart := 0, startBlock := 100, blockCount := 10 },
   { logicalStart := 10, startBlock := 500, blockCount := 5 },
   { logicalStart := 15, startBlock := 200, blockCount := 3 }]

/-! ## B-tree nodes (`hfs_endian.c`) -/

namespace BTreeKey
/-- Member `length8` of the union `BTreeKey`. -/
def length8 : Field := ⟨0, 1, false⟩
/-- Member `length16` of the union `BTreeKey`. -/
def length16 : Field := ⟨0, 2, false⟩
end BTreeKey

/-- Function `swap_BTreeKey`. -/
def swap_BTreeKey (e : Endian) (m : Mem) (record : Nat) : Mem :=
  Convert16 e BTreeKey.length16 m record

/-- Modelled from the spec: macro `S16` of `hfs_endian.h` (not among the
sources), the conversion of a 16-bit big-endian value to host order; its
argument is cast to `uint16_t`. -/
def S16 (e : Endian) (x : Nat) : Nat := OSSwapBigToHostInt e 2 (x % 2 ^ 16)

/-- The signed reading of a `w`-byte bit pattern. -/
def asSigned (w : Nat) (x : Nat) : Int :=
  if 256 ^ w ≤ 2 * x then (x : Int) - (256 ^ w : Nat) else (x : Int)

/-- Constant `kBTLeafNode` of `hfs_format.h`. -/
def kBTLeafNode : Int := -1
/-- Constant `kBTIndexNode` of `hfs_format.h`. -/
def kBTIndexNode : Int := 0
/-- Constant `kBTHeaderNode` of `hfs_format.h`. -/
def kBTHeaderNode : Int := 1
/-- Constant `kBTMapNode` of `hfs_format.h`. -/
def kBTMapNode : Int := 2

/-- Constant `kHFSPlusFolderRecord` of `hfs_format.h`. -/
def kHFSPlusFolderRecord : Int := 1
/-- Constant `kHFSPlusFileRecord` of `hfs_format.h`. -/
def kHFSPlusFileRecord : Int := 2
/-- Constant `kHFSPlusFolderThreadRecord` of `hfs_format.h`. -/
def kHFSPlusFolderThreadRecord : Int := 3
/-- Constant `kHFSPlusFileThreadRecord` of `hfs_format.h`. -/
def kHFSPlusFileThreadRecord : Int := 4

/-- The value of a `BTNodeDescriptor` struct, member by member, in host
order. -/
structure BTNodeDescriptorValue where
  fLink : Nat
  bLink : Nat
  kind : Int
  height : Nat
  numRecords : Nat
  reserved : Nat
  deriving DecidableEq, Repr

/-- The struct copy `*nodeDescriptor`: the host reads the members of the
descriptor at `p`. -/
def BTNodeDescriptor.value (e : Endian) (m : Mem) (p : Nat) : BTNodeDescriptorValue :=
  { fLink := BTNodeDescriptor.fLink.get e m p,
    bLink := BTNodeDescriptor.bLink.get e m p,
    kind := asSigned 1 (BTNodeDescriptor.kind.get e m p),
    height := BTNodeDescriptor.height.get e m p,
    numRecords := BTNodeDescriptor.numRecords.get e m p,
    reserved := BTNodeDescriptor.reserved.get e m p }

/-- Modelled from the spec: `struct BTreeNode` of `hfs_structs.h` (not among
the sources), the members `swap_BTreeNode` uses: the decoded descriptor
`nodeDescriptor`, the CNID `bTree.fork.cnid` of the tree's fork, the node size
`blockSize`, and the address `buffer.data` of the node buffer in memory. -/
structure BTreeNode where
  nodeDescriptor : BTNodeDescriptorValue
  cnid : Nat
  blockSize : Nat
  data : Nat
  deriving DecidableEq, Repr

/-- The local `sentinel` of `swap_BTreeNode`: the pointer
`node->buffer.data + node->blockSize - sizeof(u_int16_t)` cast to `u_int16_t`,
that is the low 16 bits of the address of the last 16-bit word of the buffer.
The buffer is not read. -/
def sentinel (node : BTreeNode) : Nat := (node.data + node.blockSize + 2 ^ 64 - 2) % 2 ^ 16

/-- The local pointer `offsets` of `swap_BTreeNode`:
`node->buffer.data + node->blockSize - sizeof(u_int16_t) * numRecords`. -/
def offsetsBase (node : BTreeNode) : Nat :=
  node.data + node.blockSize - 2 * node.nodeDescriptor.numRecords

/-- The address `&offsets[i]`. -/
def offsetSlot (node : BTreeNode) (i : Nat) : Nat := offsetsBase node + 2 * i

/-- The statement `*offset = S16(*offset)` on the 16-bit word at `a`. -/
def swapOffset (e : Endian) (m : Mem) (a : Nat) : Mem :=
  store e 2 m a (S16 e (load e 2 m a))

/-- The loop of `swap_BTreeNode` over the record offsets: `offsets[i]` for
`i < numRecords`. -/
def swapOffsets (e : Endian) (node : BTreeNode) (m : Mem) : Mem :=
  (List.range node.nodeDescriptor.numRecords).foldl
    (fun m i => swapOffset e m (offsetSlot node i)) m

/-- The local `key_length` of the record loop: `key->length16`, plus one when
odd, in `u_int16_t`. -/
def keyLength (e : Endian) (m : Mem) (record : Nat) : Nat :=
  let key_length := BTreeKey.length16.get e m record
  if key_length % 2 ≠ 0 then (key_length + 1) % 2 ^ 16 else key_length

/-- The second value of the local `record` in the record loop, once the key
at `key` is swapped (memory `m`): `node->buffer.data + offsets[i] + key_length`. -/
def recordPayload (e : Endian) (node : BTreeNode) (m : Mem) (i key : Nat) : Nat :=
  node.data + load e 2 m (offsetSlot node i) + keyLength e m key

/-- The local `recordKind` of the record loop: the `int16_t` at `record`
after `S16`. -/
def recordKind (e : Endian) (m : Mem) (record : Nat) : Int :=
  asSigned 2 (S16 e (load e 2 m record))

/-- The body of the record loop of `swap_BTreeNode` for a catalog index or
leaf node, at loop index `i`. -/
def swapRecord (e : Endian) (node : BTreeNode) (m : Mem) (i : Nat) : Mem :=
  let key := node.data + load e 2 m (offsetSlot node i)
  let m := swap_BTreeKey e m key
  let record := recordPayload e node m i key
  if node.nodeDescriptor.kind = kBTIndexNode then m
  else if node.nodeDescriptor.kind = kBTLeafNode then
    let recordKind := recordKind e m record
    if recordKind = kHFSPlusFolderRecord then swap_HFSPlusCatalogFolder e m record
    else if recordKind = kHFSPlusFileRecord then swap_HFSPlusCatalogFile e m record
    else if recordKind = kHFSPlusFolderThreadRecord then swap_HFSPlusCatalogThread e m record
    else if recordKind = kHFSPlusFileThreadRecord then swap_HFSPlusCatalogThread e m record
    else m
  else m

/-- Function `swap_BTreeNode`: the memory and the node struct it leaves behind. -/
def swap_BTreeNode (e : Endian) (m : Mem) (node : BTreeNode) : Mem × BTreeNode :=
  if sentinel node = 14 then (m, node)
  else
    let m := swap_BTNodeDescriptor e m node.data
    let node := { node with nodeDescriptor := BTNodeDescriptor.value e m node.data }
    let m := swapOffsets e node m
    let treeID := node.cnid
    if treeID = kHFSCatalogFileID then
      if node.nodeDescriptor.kind = kBTHeaderNode then
        (swap_BTHeaderRec e m (node.data + BTNodeDescriptor.sizeof), node)
      else if node.nodeDescriptor.kind = kBTIndexNode ∨
          node.nodeDescriptor.kind = kBTLeafNode then
        ((List.range' 1 (node.nodeDescriptor.numRecords - 1)).foldl (swapRecord e node) m,
          node)
      else (m, node)
    else (m, node)

/-- Modelled from the spec: the start of record `j`, "the 16-bit offset stored
at node_end - 2*(j+1)", as the big-endian reading of the node's bytes on
disk. -/
def recordOffset (m : Mem) (node : BTreeNode) (j : Nat) : Nat :=
  beValue (readBytes m (node.data + node.blockSize - 2 * (j + 1)) 2)

/-! ## Sample nodes -/

/-- A node struct as the B-tree reader hands it to `swap_BTreeNode`: a 512-byte
buffer at address 4096 and a descriptor not yet decoded. -/
def freshNode (cnid : Nat) : BTreeNode :=
  { nodeDescriptor := { fLink := 0, bLink := 0, kind := 0, height := 0, numRecords := 0,
                        reserved := 0 },
    cnid := cnid, blockSize := 512, data := 4096 }

/-- A catalog leaf node of 512 bytes as read from disk, at address 4096:
fLink 2, bLink 1, kind -1, height 1, three records.  Each record is a key of
key length 6 (a parent ID and an empty name) and a thread record with a name
of one character: record 0 at offset 14 (folder thread), record 1 at 34 and
record 2 at 54 (file threads); the free space starts at 74.  The offsets 14,
34, 54 and 74 are stored big-endian at 510, 508, 506 and 504. -/
def leafImage : Mem :=
  sparse [(4096 + 3, 2), (4096 + 7, 1), (4096 + 8, 0xFF), (4096 + 9, 1), (4096 + 11, 3),
    (4096 + 15, 6), (4096 + 19, 2), (4096 + 23, 3), (4096 + 29, 1), (4096 + 31, 1),
    (4096 + 33, 0x41),
    (4096 + 35, 6), (4096 + 39, 3), (4096 + 43, 4), (4096 + 49, 2), (4096 + 51, 1),
    (4096 + 53, 0x42),
    (4096 + 55, 6), (4096 + 59, 5), (4096 + 63, 4), (4096 + 69, 2), (4096 + 71, 1),
    (4096 + 73, 0x43),
    (4096 + 505, 74), (4096 + 507, 54), (4096 + 509, 34), (4096 + 511, 14)]

/-- The header node of a catalog tree, 512 bytes as read from disk, at address
4096: kind 1, three records (the header record at offset 14, the user data at
120, the map at 248; free space at 504).  The header record has tree depth 1, root node 1,
three leaf records, first and last leaf node 1, node size 512 (the bytes
02 00), maximum key length 516, two nodes, and attributes 6. -/
def headerImage : Mem :=
  sparse [(4096 + 8, 1), (4096 + 11, 3),
    (4096 + 15, 1), (4096 + 19, 1), (4096 + 23, 3), (4096 + 27, 1), (4096 + 31, 1),
    (4096 + 32, 2), (4096 + 34, 2), (4096 + 35, 4), (4096 + 39, 2), (4096 + 55, 6),
    (4096 + 504, 1), (4096 + 505, 0xF8), (4096 + 507, 0xF8), (4096 + 509, 0x78),
    (4096 + 511, 14)]

/-- The header node of an extents-overflow tree, 512 bytes as read from disk,
at address 4096: kind 1, three records at 14, 120 and 248, free space at 504.
The header record has tree depth 1, root node 1, three leaf records, first and
last leaf node 1, node size 512 (the bytes 02 00), maximum key length 10, two
nodes, and attributes 2. -/
def extentsHeaderImage : Mem :=
  sparse [(4096 + 8, 1), (4096 + 11, 3),
    (4096 + 15, 1), (4096 + 19, 1), (4096 + 23, 3), (4096 + 27, 1), (4096 + 31, 1),
    (4096 + 32, 2), (4096 + 35, 10), (4096 + 39, 2), (4096 + 55, 2),
    (4096 + 504, 1), (4096 + 505, 0xF8), (4096 + 507, 0xF8), (4096 + 509, 0x78),
    (4096 + 511, 14)]

/-- A catalog leaf node of 512 bytes as read from disk, at address 4096, with
two records.  Record 0 at offset 14 has a key of key length 8: parent ID 2 and
a name of one character, U+0003 (the bytes 00 03 at 22); its payload at 24 is a
folder record (type 1, valence 5, folder ID 16).  Record 1 at 112 is the key
(parent ID 16, empty name) and the thread record of that folder; the free
space starts at 132. -/
def namedLeafImage : Mem :=
  sparse [(4096 + 8, 0xFF), (4096 + 9, 1), (4096 + 11, 2),
    (4096 + 15, 8), (4096 + 19, 2), (4096 + 21, 1), (4096 + 23, 3),
    (4096 + 25, 1), (4096 + 31, 5), (4096 + 35, 16),
    (4096 + 113, 6), (4096 + 117, 16), (4096 + 121, 3), (4096 + 127, 2), (4096 + 129, 1),
    (4096 + 131, 3),
    (4096 + 507, 132), (4096 + 509, 112), (4096 + 511, 14)]

/-- A catalog index node of 512 bytes as read from disk, at address 4096:
kind 0, height 2, three records.  Each record is a key of key length 6 (a
parent ID and an empty name) and the number of a child node: record 0 at
offset 14, record 1 at 26, record 2 at 38; the free space starts at 50. -/
def indexImage : Mem :=
  sparse [(4096 + 9, 2), (4096 + 11, 3),
    (4096 + 15, 6), (4096 + 19, 1), (4096 + 25, 5),
    (4096 + 27, 6), (4096 + 31, 2), (4096 + 37, 6),
    (4096 + 39, 6), (4096 + 43, 3), (4096 + 49, 7),
    (4096 + 505, 50), (4096 + 507, 38), (4096 + 509, 26), (4096 + 511, 14)]

/-- A node struct whose 512-byte buffer lies at address 65040 (hexadecimal
FE10): the last 16-bit word of the buffer has the address 65550, whose low 16
bits are 14. -/
def unluckyNode (cnid : Nat) : BTreeNode := { freshNode cnid with data := 65040 }

/-! ## Stream cursors (`hfs_io.c`) -/

/-- Constant `SEEK_SET` of `stdio.h`. -/
def SEEK_SET : Int := 0
/-- Constant `SEEK_CUR` of `stdio.h`. -/
def SEEK_CUR : Int := 1
/-- Constant `SEEK_END` of `stdio.h`. -/
def SEEK_END : Int := 2

/-- Struct `HFSVolumeCookie`: the cursor (`off_t`) and the volume. -/
structure HFSVolumeCookie where
  cursor : Int
  hfs : HFSVolume

/-- Function `hfs_seekfn`: the position returned and the cookie left behind, or
`none` when `SEEK_END` dereferences a null `vol`.  The case `SEEK_END` has no
`break` and falls into `default`, which only breaks.  `vol->length` is
unsigned (modelled from the spec: `source.length: u64`), so the difference is
taken modulo `2 ^ 64` and stored in the signed `pos`. -/
def hfs_seekfn (c : HFSVolumeCookie) (pos : Int) (mode : Int) :
    Option (Int × HFSVolumeCookie) :=
  let pos : Option Int :=
    if mode = SEEK_CUR then some (toInt64 (pos + c.cursor))
    else if mode = SEEK_END then c.hfs.vol.map fun vol => toInt64 ((vol.length : Int) - pos)
    else some pos
  pos.map fun pos => (pos, { c with cursor := pos })

/-- Struct `HFSForkCookie`: the cursor (`off_t`) and the fork. -/
structure HFSForkCookie where
  cursor : Int
  fork : HFSFork

/-- Function `fork_seekfn`: the position returned and the cookie left behind.  The
case `SEEK_END` falls into `default`; `logicalSize` is unsigned, so the
difference is taken modulo `2 ^ 64` and stored in the signed `pos`. -/
def fork_seekfn (c : HFSForkCookie) (pos : Int) (mode : Int) : Int × HFSForkCookie :=
  let pos : Int :=
    if mode = SEEK_CUR then toInt64 (pos + c.cursor)
    else if mode = SEEK_END then toInt64 ((c.fork.logicalSize : Int) - pos)
    else pos
  (pos, { c with cursor := pos })

/-- Is the integer a value of `off_t`? -/
@[reducible] def isInt64 (x : Int) : Prop := -2 ^ 63 ≤ x ∧ x < 2 ^ 63

/-- A source of 4096 bytes. -/
def sizedVolume : Volume := { diskVolume markedDisk with length := 4096 }

/-- A stream on the volume over `sizedVolume` with the cursor at 100. -/
def volumeCookie : HFSVolumeCookie := { cursor := 100, hfs := volumeOn sizedVolume 512 }

/-- A stream on a fork of 1024 bytes with the cursor at 100. -/
def forkCookie : HFSForkCookie :=
  { cursor := 100, fork := forkOf (volumeOn sizedVolume 512) twoExtents 2 1024 }

/-! ## Master Boot Record (`mbr.c`) -/

namespace MBRPartition
/-- Modelled from the spec: `uint8_t status` of a partition entry. -/
def status : Field := ⟨0, 1, false⟩
/-- Modelled from the spec: `uint8_t type`, after the three bytes of the first
CHS address. -/
def type : Field := ⟨4, 1, false⟩
/-- Modelled from the spec: `uint32_t first_sector_lba`, after the three bytes
of the last CHS address. -/
def first_sector_lba : Field := ⟨8, 4, false⟩
/-- Modelled from the spec: `uint32_t sector_count`. -/
def sector_count : Field := ⟨12, 4, false⟩
/-- Modelled from the spec: the 16 bytes of a partition entry. -/
def sizeof : Nat := 16
end MBRPartition

namespace MBR
/-- Modelled from the spec: offset of `MBRPartition partitions[4]`. -/
def partitions : Nat := 446
/-- Modelled from the spec: offset of the two signature bytes. -/
def signature : Nat := 510
/-- Modelled from the spec: `sizeof(MBR)`. -/
def sizeof : Nat := 512
end MBR

/-- A partition region as `mbr_load` hands it to `vol_make_partition`: the
index of the entry, the byte offset (`off_t`) and the byte length (`size_t`). -/
structure PartitionRegion where
  index : Nat
  offset : Nat
  length : Nat
  deriving DecidableEq, Repr

/-- Function `mbr_load_header`: read the 512 bytes at offset 0 into the MBR at `mbr`. -/
def mbr_load_header (vol : Volume) (m : Mem) (mbr : Nat) : Int × Mem :=
  let r := vol_read vol m mbr MBR.sizeof 0
  if r.1 < 0 then (-1, r.2) else (0, r.2)

/-- Function `mbr_load`: the result and the regions made, in order.  Modelled from
the spec: `vol->block_size` is a `u32`, as `first_sector_lba` and
`sector_count` are, so both products are taken modulo `2 ^ 32` before they are
stored in `offset` and `length`.  The fields are read in host order. -/
def mbr_load (e : Endian) (vol : Volume) : Int × List PartitionRegion :=
  let r := mbr_load_header vol zeroMem 0
  if r.1 < 0 then (-1, [])
  else
    (0, (List.range 4).filterMap fun i =>
      let p := MBR.partitions + i * MBRPartition.sizeof
      if MBRPartition.type.get e r.2 p ≠ 0 then
        some { index := i,
               offset := (MBRPartition.first_sector_lba.get e r.2 p * vol.block_size) % 2 ^ 32,
               length := (MBRPartition.sector_count.get e r.2 p * vol.block_size) % 2 ^ 32 }
      else none)

/-- A disk with the MBR of the spec's example: signature 55 AA, and a first
entry of type AF with first_sector_lba 40 and sector_count 2000
(little-endian). -/
def mbrDisk : Nat → Byte :=
  sparse [(450, 0xAF), (454, 40), (458, 0xD0), (459, 0x07), (510, 0x55), (511, 0xAA)]

/-- A disk whose first MBR entry has type AF, first_sector_lba 8388608
(the bytes 00 00 80 00) and sector_count 2000: the partition starts at byte
`2 ^ 32`. -/
def farMbrDisk : Nat → Byte :=
  sparse [(450, 0xAF), (456, 0x80), (458, 0xD0), (459, 0x07), (510, 0x55), (511, 0xAA)]

/-! ## Partition type names (`mbr.c`) -/

/-- Modelled from the spec: an entry of the static table `mbr_partition_types`
of `mbr.h` (not among the sources), "partition type → hint mapping table":
the members `mbr_partition_type_str` uses, the type, the name and the
hint. -/
structure MBRPartitionName where
  type : Nat
  name : String
  hints : Nat
  deriving DecidableEq, Repr

/-- Function `strlcpy(dst, src, size)` of `string.h`, for `size > 0`: the string
left in `dst`, the first `size - 1` characters of `src`. -/
def strlcpy (src : String) (size : Nat) : String := String.mk (src.data.take (size - 1))

/-- What a call of `mbr_partition_type_str` leaves behind: the contents of the
static buffer `type_str`, to which the returned pointer points, and the value
at `hint` (`none` for a null pointer). -/
structure TypeStr where
  type_str : String
  hint : Option Nat
  deriving DecidableEq, Repr

/-- Function `mbr_partition_type_str`.  `table i` is `mbr_partition_types[i]`;
`type_str` is what the static buffer holds on entry (the empty string before
the first call) and `hint` the value at the pointer `hint`.  The test
`type_str == NULL` compares the address of an array with null and never
holds, so the branch that stores "unknown" is never taken. -/
def mbr_partition_type_str (table : Nat → MBRPartitionName) (type_str : String) (type : Nat)
    (hint : Option Nat) : TypeStr :=
  (List.range 256).foldl
    (fun s i =>
      if (table i).type = type then
        { type_str := strlcpy (table i).name 99, hint := s.hint.map fun _ => (table i).hints }
      else s)
    { type_str := type_str, hint := hint }

/-- A table in the manner of `mbr_partition_types`: type 0x07 "NTFS", 0x0B
"FAT32", 0x83 "Linux" and 0xAF "HFS" with the hints 1, 2, 3 and 4; the other
entries of the array are zero. -/
def sampleTypes (i : Nat) : MBRPartitionName :=
  ([⟨0x07, "NTFS", 1⟩, ⟨0x0B, "FAT32", 2⟩, ⟨0x83, "Linux", 3⟩, ⟨0xAF, "HFS", 4⟩].get? i).getD
    ⟨0, "", 0⟩

/-! ## Lemmas on bytes -/

theorem leBytes_length (w v : Nat) : (leBytes w v).length = w := by
  induction w generalizing v with
  | zero => rfl
  | succ n ih => simp [leBytes, ih]

theorem leBytes_leValue (bs : List Byte) : leBytes bs.length (leValue bs) = bs := by
  induction bs with
  | nil => rfl
  | cons b bs ih =>
    have hb : b.val < 256 := b.isLt
    have h1 : byteOf (b.val + 256 * leValue bs) = b := by
      apply Fin.ext
      show (b.val + 256 * leValue bs) % 256 = b.val
      omega
    have h2 : (b.val + 256 * leValue bs) / 256 = leValue bs := by omega
    simp only [List.length_cons, leValue, leBytes, h1, h2, ih]

theorem leValue_lt (bs : List Byte) : leValue bs < 256 ^ bs.length := by
  induction bs with
  | nil => simp [leValue]
  | cons b bs ih =>
    have hb : b.val < 256 := b.isLt
    simp only [leValue, List.length_cons, pow_succ]
    omega

theorem leValue_leBytes (w v : Nat) : leValue (leBytes w v) = v % 256 ^ w := by
  induction w generalizing v with
  | zero => simp [leBytes, leValue, Nat.mod_one]
  | succ n ih =>
    simp only [leBytes, leValue, ih, byteOf, pow_succ]
    rw [mul_comm (256 ^ n) 256, Nat.mod_mul]

theorem readBytes_length (m : Mem) (p w : Nat) : (readBytes m p w).length = w := by
  simp [readBytes]

theorem memOrder_length (e : Endian) (bs : List Byte) : (memOrder e bs).length = bs.length := by
  cases e <;> simp [memOrder]

theorem memOrder_memOrder (e : Endian) (bs : List Byte) : memOrder e (memOrder e bs) = bs := by
  cases e <;> simp [memOrder]

theorem readBytes_getElem? (m : Mem) (p w k : Nat) :
    (readBytes m p w)[k]? = if k < w then some (m (p + k)) else none := by
  unfold readBytes
  by_cases h : k < w
  · simp [h, List.getElem?_map, List.getElem?_range h]
  · simp [h, List.getElem?_map]
    omega

theorem readBytes_getElem (m : Mem) (p w k : Nat) (h : k < (readBytes m p w).length) :
    (readBytes m p w)[k] = m (p + k) := by
  simp [readBytes]

theorem writeBytes_outside (m : Mem) (p : Nat) (bs : List Byte) (a : Nat)
    (h : a < p ∨ p + bs.length ≤ a) : writeBytes m p bs a = m a := by
  unfold writeBytes
  by_cases hp : p ≤ a
  · have : bs.length ≤ a - p := by omega
    simp [hp, List.getElem?_eq_none this]
  · simp [hp]

theorem writeBytes_readBytes (m : Mem) (p w : Nat) : writeBytes m p (readBytes m p w) = m := by
  funext a
  unfold writeBytes
  by_cases hp : p ≤ a
  · simp only [hp, if_true, readBytes_getElem?]
    by_cases hw : a - p < w
    · have : p + (a - p) = a := by omega
      simp [hw, this]
    · simp [hw]
  · simp [hp]

theorem writeBytes_reverse (m : Mem) (p w : Nat) :
    writeBytes m p (readBytes m p w).reverse = revSeg p w m := by
  funext a
  unfold writeBytes revSeg
  by_cases hp : p ≤ a
  · by_cases hw : a < p + w
    · have h1 : a - p < (readBytes m p w).length := by
        rw [readBytes_length]; omega
      have h2 : w - 1 - (a - p) < w := by omega
      have h3 : p + (w - 1 - (a - p)) = p + (p + w - 1 - a) := by omega
      simp [hp, hw, List.getElem?_reverse h1, readBytes_length, readBytes_getElem, h2, h3]
    · have h1 : (readBytes m p w).reverse.length ≤ a - p := by
        rw [List.length_reverse, readBytes_length]; omega
      simp [hp, hw, List.getElem?_eq_none h1]
  · have : ¬ (p ≤ a ∧ a < p + w) := fun h => hp h.1
    simp [hp, this]

theorem readBytes_revSeg (m : Mem) (p w : Nat) :
    readBytes (revSeg p w m) p w = (readBytes m p w).reverse := by
  apply List.ext_getElem?
  intro k
  by_cases hk : k < w
  · have h1 : k < (readBytes m p w).length := by rw [readBytes_length]; exact hk
    have h2 : w - 1 - k < w := by omega
    have h3 : p + (p + w - 1 - (p + k)) = p + (w - 1 - k) := by omega
    simp [readBytes_getElem?, hk, List.getElem?_reverse h1, readBytes_length, readBytes_getElem, h2, revSeg, h3]
  · have h1 : (readBytes m p w).reverse.length ≤ k := by
      rw [List.length_reverse, readBytes_length]; omega
    simp [readBytes_getElem?, hk, List.getElem?_eq_none h1]

theorem revSeg_outside (p w : Nat) (m : Mem) (a : Nat) (h : a < p ∨ p + w ≤ a) :
    revSeg p w m a = m a := by
  unfold revSeg
  have : ¬ (p ≤ a ∧ a < p + w) := by omega
  simp [this]

theorem macroArg_matched (mw : Nat) (f : Field) (x : Nat) (hf : f.size = mw)
    (hx : x < 256 ^ mw) : macroArg mw f x = x := by
  unfold macroArg
  rw [hf]
  split
  · rw [max_self, Nat.add_sub_cancel, Nat.mod_eq_of_lt hx]
  · exact Nat.mod_eq_of_lt hx

theorem load_lt (e : Endian) (w : Nat) (m : Mem) (p : Nat) : load e w m p < 256 ^ w := by
  have h := leValue_lt (memOrder e (readBytes m p w))
  rw [memOrder_length, readBytes_length] at h
  exact h

/-- On a field whose width is the macro's, `ConvertN` reverses the field's
bytes on a little-endian host and changes nothing on a big-endian one. -/
theorem Convert_matched (e : Endian) (mw : Nat) (f : Field) (m : Mem) (p : Nat)
    (hf : f.size = mw) :
    Convert e mw f m p = match e with
      | .little => revSeg (p + f.off) mw m
      | .big => m := by
  unfold Convert
  simp only []
  rw [macroArg_matched mw f _ hf (hf ▸ load_lt e f.size m (p + f.off))]
  subst hf
  cases e with
  | little =>
    simp only [load, store, OSSwapBigToHostInt, OSSwapInt, memOrder]
    have h := leBytes_leValue (readBytes m (p + f.off) f.size)
    rw [readBytes_length] at h
    rw [h]
    have h' := leBytes_leValue (readBytes m (p + f.off) f.size).reverse
    rw [List.length_reverse, readBytes_length] at h'
    rw [h', writeBytes_reverse]
  | big =>
    simp only [load, store, OSSwapBigToHostInt, memOrder]
    have hlt := leValue_lt (readBytes m (p + f.off) f.size).reverse
    rw [List.length_reverse, readBytes_length] at hlt
    rw [Nat.mod_eq_of_lt hlt]
    have h' := leBytes_leValue (readBytes m (p + f.off) f.size).reverse
    rw [List.length_reverse, readBytes_length] at h'
    rw [h', List.reverse_reverse, writeBytes_readBytes]

/-- Macro `ConvertN` writes only the bytes of the field it is applied to, whatever
the macro's width. -/
theorem Convert_outside (e : Endian) (mw : Nat) (f : Field) (m : Mem) (p a : Nat)
    (h : a < p + f.off ∨ p + f.off + f.size ≤ a) : Convert e mw f m p a = m a := by
  unfold Convert store
  apply writeBytes_outside
  rw [memOrder_length, leBytes_length]
  exact h

/-! ## Lemmas on byte-reversal plans -/

theorem segSource_cases (ss : List (Nat × Nat)) (a : Nat) :
    segSource ss a = a ∨ ∃ t ∈ ss, inSeg t a = true ∧ inSeg t (segSource ss a) = true := by
  induction ss with
  | nil => exact Or.inl rfl
  | cons s ss ih =>
    by_cases h : inSeg s a = true
    · right
      refine ⟨s, List.mem_cons_self _ _, h, ?_⟩
      simp only [segSource, h, if_true]
      simp only [inSeg, Bool.and_eq_true, decide_eq_true_eq] at h ⊢
      omega
    · simp only [segSource, h]
      rcases ih with h1 | ⟨t, ht, h1, h2⟩
      · exact Or.inl h1
      · exact Or.inr ⟨t, List.mem_cons_of_mem _ ht, h1, h2⟩

theorem segSource_outside (ss : List (Nat × Nat)) (a : Nat)
    (h : ∀ t ∈ ss, inSeg t a = false) : segSource ss a = a := by
  rcases segSource_cases ss a with h1 | ⟨t, ht, h1, _⟩
  · exact h1
  · rw [h t ht] at h1
    cases h1

theorem inSeg_disjoint (s t : Nat × Nat) (a b : Nat) (hd : segDisjoint s t = true)
    (ha : inSeg s a = true) (hb : inSeg t b = true) : a ≠ b := by
  simp only [inSeg, segDisjoint, Bool.and_eq_true, Bool.or_eq_true, decide_eq_true_eq] at *
  omega

theorem inSeg_false_of_disjoint (s t : Nat × Nat) (b : Nat) (hd : segDisjoint s t = true)
    (hb : inSeg t b = true) : inSeg s b = false := by
  cases h : inSeg s b with
  | false => rfl
  | true => exact absurd rfl (inSeg_disjoint s t b b hd h hb)

/-- A plan of pairwise disjoint segments moves each byte once: the byte at
`a` afterwards is the byte that was at `segSource a`. -/
theorem applySegs_apply (ss : List (Nat × Nat)) (hd : segsDisjoint ss = true) (m : Mem)
    (a : Nat) : applySegs ss m a = m (segSource ss a) := by
  induction ss generalizing m with
  | nil => rfl
  | cons s ss ih =>
    simp only [segsDisjoint, Bool.and_eq_true, List.all_eq_true] at hd
    rw [applySegs, ih hd.2]
    by_cases h : inSeg s a = true
    · have hout : segSource ss a = a :=
        segSource_outside ss a fun t ht =>
          Bool.eq_false_iff.mpr fun hta => inSeg_disjoint s t a a (hd.1 t ht) h hta rfl
      rw [hout]
      simp only [segSource, h, if_true]
      simp only [inSeg, Bool.and_eq_true, decide_eq_true_eq] at h
      simp [revSeg, h]
    · have hs : inSeg s (segSource ss a) = false := by
        rcases segSource_cases ss a with h1 | ⟨t, ht, _, h2⟩
        · rw [h1]; exact Bool.eq_false_iff.mpr h
        · exact inSeg_false_of_disjoint s t _ (hd.1 t ht) h2
      simp only [segSource, h]
      simp only [inSeg, Bool.and_eq_false_iff, decide_eq_false_iff_not] at hs
      apply revSeg_outside
      omega

theorem segSource_segSource (ss : List (Nat × Nat)) (hd : segsDisjoint ss = true) (a : Nat) :
    segSource ss (segSource ss a) = a := by
  induction ss with
  | nil => rfl
  | cons s ss ih =>
    simp only [segsDisjoint, Bool.and_eq_true, List.all_eq_true] at hd
    by_cases h : inSeg s a = true
    · have h2 : inSeg s (s.1 + (s.1 + s.2 - 1 - a)) = true := by
        simp only [inSeg, Bool.and_eq_true, decide_eq_true_eq] at h ⊢
        omega
      simp only [segSource, h, h2, if_true]
      simp only [inSeg, Bool.and_eq_true, decide_eq_true_eq] at h
      omega
    · have hs : inSeg s (segSource ss a) = false := by
        rcases segSource_cases ss a with h1 | ⟨t, ht, _, h2⟩
        · rw [h1]; exact Bool.eq_false_iff.mpr h
        · exact inSeg_false_of_disjoint s t _ (hd.1 t ht) h2
      have h' : inSeg s a = false := Bool.eq_false_iff.mpr h
      simp only [segSource, h', hs, Bool.false_eq_true, if_false]
      exact ih hd.2

/-- A plan of pairwise disjoint segments undoes itself. -/
theorem applySegs_applySegs (ss : List (Nat × Nat)) (hd : segsDisjoint ss = true) (m : Mem) :
    applySegs ss (applySegs ss m) = m := by
  funext a
  rw [applySegs_apply ss hd, applySegs_apply ss hd, segSource_segSource ss hd]

theorem applySegs_outside (ss : List (Nat × Nat)) (m : Mem) (a : Nat)
    (h : ∀ t ∈ ss, inSeg t a = false) : applySegs ss m a = m a := by
  induction ss generalizing m with
  | nil => rfl
  | cons s ss ih =>
    rw [applySegs, ih _ fun t ht => h t (List.mem_cons_of_mem _ ht)]
    have hs := h s (List.mem_cons_self _ _)
    simp only [inSeg, Bool.and_eq_false_iff, decide_eq_false_iff_not] at hs
    apply revSeg_outside
    omega

theorem applySegs_append (ss ts : List (Nat × Nat)) (m : Mem) :
    applySegs (ss ++ ts) m = applySegs ts (applySegs ss m) := by
  induction ss generalizing m with
  | nil => rfl
  | cons s ss ih =>
    show applySegs (ss ++ ts) (revSeg s.1 s.2 m) = applySegs ts (applySegs ss (revSeg s.1 s.2 m))
    exact ih _

theorem segDisjoint_shift (p : Nat) (s t : Nat × Nat) :
    segDisjoint (p + s.1, s.2) (p + t.1, t.2) = segDisjoint s t := by
  simp only [segDisjoint]
  congr 1 <;> apply decide_eq_decide.mpr <;> omega

theorem segsDisjoint_segsAt (p : Nat) (rel : List (Nat × Nat)) :
    segsDisjoint (segsAt p rel) = segsDisjoint rel := by
  induction rel with
  | nil => rfl
  | cons s ss ih =>
    simp only [segsAt, List.map_cons, segsDisjoint] at ih ⊢
    rw [ih]
    congr 1
    simp only [List.all_map]
    congr 1
    funext t
    exact segDisjoint_shift p s t

theorem segsAt_segsAt (p q : Nat) (rel : List (Nat × Nat)) :
    segsAt p (segsAt q rel) = segsAt (p + q) rel := by
  simp only [segsAt, List.map_map]
  congr 1
  funext s
  simp [Nat.add_assoc]

theorem segsAt_append (p : Nat) (r1 r2 : List (Nat × Nat)) :
    segsAt p (r1 ++ r2) = segsAt p r1 ++ segsAt p r2 := by
  simp [segsAt]


/-! ## The swap routines as byte-reversal plans -/

theorem range8 : List.range 8 = [0, 1, 2, 3, 4, 5, 6, 7] := by decide

theorem swap_HFSPlusExtentDescriptor_little (m : Mem) (p : Nat) :
    swap_HFSPlusExtentDescriptor .little m p = applySegs (segsAt p planExtentDescriptor) m := by
  simp (disch := decide) only [swap_HFSPlusExtentDescriptor, Convert32, Convert_matched]
  rfl

theorem swap_HFSPlusExtentDescriptor_big (m : Mem) (p : Nat) :
    swap_HFSPlusExtentDescriptor .big m p = m := by
  simp (disch := decide) only [swap_HFSPlusExtentDescriptor, Convert32, Convert_matched]

theorem swap_HFSPlusForkData_little (m : Mem) (p : Nat) :
    swap_HFSPlusForkData .little m p = applySegs (segsAt p planForkData) m := by
  simp (disch := decide) only [swap_HFSPlusForkData, Convert32, Convert64, Convert_matched,
    kHFSPlusExtentDensity, range8, List.foldl, swap_HFSPlusExtentDescriptor_little]
  simp only [planForkData, range8, List.flatMap, List.map, List.flatten, segsAt_append,
    applySegs_append, segsAt_segsAt]
  simp only [segsAt, List.map, applySegs, planForkData, planExtentDescriptor, planBSDInfo,
    planFndrDirInfo, planFndrFileInfo, range8, List.flatMap, List.flatten, List.append,
    List.map_append, List.cons_append, List.nil_append, List.append_nil, applySegs_append]
  rfl

theorem swap_HFSPlusForkData_big (m : Mem) (p : Nat) :
    swap_HFSPlusForkData .big m p = m := by
  simp (disch := decide) only [swap_HFSPlusForkData, Convert32, Convert64, Convert_matched,
    kHFSPlusExtentDensity, range8, List.foldl, swap_HFSPlusExtentDescriptor_big]

theorem swap_HFSPlusVolumeHeader_little (m : Mem) (p : Nat) :
    swap_HFSPlusVolumeHeader .little m p = applySegs (segsAt p planVolumeHeader) m := by
  simp (disch := decide) only [swap_HFSPlusVolumeHeader, Convert16, Convert32, Convert64,
    Convert_matched, swap_HFSPlusForkData_little]
  simp only [planVolumeHeader, segsAt_append, applySegs_append, segsAt_segsAt]
  simp only [segsAt, List.map, applySegs, planForkData, planExtentDescriptor, planBSDInfo,
    planFndrDirInfo, planFndrFileInfo, range8, List.flatMap, List.flatten, List.append,
    List.map_append, List.cons_append, List.nil_append, List.append_nil, applySegs_append]
  rfl

theorem swap_HFSPlusVolumeHeader_big (m : Mem) (p : Nat) :
    swap_HFSPlusVolumeHeader .big m p = m := by
  simp (disch := decide) only [swap_HFSPlusVolumeHeader, Convert16, Convert32, Convert64,
    Convert_matched, swap_HFSPlusForkData_big]

theorem swap_BTNodeDescriptor_little (m : Mem) (p : Nat) :
    swap_BTNodeDescriptor .little m p = applySegs (segsAt p planNodeDescriptor) m := by
  simp (disch := decide) only [swap_BTNodeDescriptor, Convert16, Convert32, Convert_matched]
  rfl

theorem swap_BTNodeDescriptor_big (m : Mem) (p : Nat) :
    swap_BTNodeDescriptor .big m p = m := by
  simp (disch := decide) only [swap_BTNodeDescriptor, Convert16, Convert32, Convert_matched]

theorem swap_BTHeaderRec_little (m : Mem) (p : Nat) :
    swap_BTHeaderRec .little m p = applySegs (segsAt p planHeaderRec) m := by
  simp (disch := decide) only [swap_BTHeaderRec, Convert16, Convert32, Convert_matched]
  rfl

theorem swap_BTHeaderRec_big (m : Mem) (p : Nat) :
    swap_BTHeaderRec .big m p = m := by
  simp (disch := decide) only [swap_BTHeaderRec, Convert16, Convert32, Convert_matched]

theorem swap_HFSPlusCatalogKey_little (m : Mem) (p : Nat) :
    swap_HFSPlusCatalogKey .little m p = applySegs (segsAt p planCatalogKey) m := by
  simp (disch := decide) only [swap_HFSPlusCatalogKey, swap_HFSUniStr255, Convert16, Convert32,
    Convert_matched]
  rfl

theorem swap_HFSPlusCatalogKey_big (m : Mem) (p : Nat) :
    swap_HFSPlusCatalogKey .big m p = m := by
  simp (disch := decide) only [swap_HFSPlusCatalogKey, swap_HFSUniStr255, Convert16, Convert32,
    Convert_matched]

theorem swap_HFSPlusBSDInfo_little (m : Mem) (p : Nat) :
    swap_HFSPlusBSDInfo .little m p = applySegs (segsAt p planBSDInfo) m := by
  simp (disch := decide) only [swap_HFSPlusBSDInfo, Convert16, Convert32, Convert_matched]
  rfl

theorem swap_HFSPlusBSDInfo_big (m : Mem) (p : Nat) :
    swap_HFSPlusBSDInfo .big m p = m := by
  simp (disch := decide) only [swap_HFSPlusBSDInfo, Convert16, Convert32, Convert_matched]

theorem swap_FndrDirInfo_little (m : Mem) (p : Nat) :
    swap_FndrDirInfo .little m p = applySegs (segsAt p planFndrDirInfo) m := by
  simp (disch := decide) only [swap_FndrDirInfo, Convert16, Convert_matched]
  rfl

theorem swap_FndrDirInfo_big (m : Mem) (p : Nat) : swap_FndrDirInfo .big m p = m := by
  simp (disch := decide) only [swap_FndrDirInfo, Convert16, Convert_matched]

theorem swap_FndrFileInfo_little (m : Mem) (p : Nat) :
    swap_FndrFileInfo .little m p = applySegs (segsAt p planFndrFileInfo) m := by
  simp (disch := decide) only [swap_FndrFileInfo, Convert16, Convert32, Convert_matched]
  rfl

theorem swap_FndrFileInfo_big (m : Mem) (p : Nat) : swap_FndrFileInfo .big m p = m := by
  simp (disch := decide) only [swap_FndrFileInfo, Convert16, Convert32, Convert_matched]

theorem swap_HFSPlusCatalogFolder_little (m : Mem) (p : Nat) :
    swap_HFSPlusCatalogFolder .little m p = applySegs (segsAt p planCatalogFolder) m := by
  simp (disch := decide) only [swap_HFSPlusCatalogFolder, Convert16, Convert32, Convert_matched,
    swap_HFSPlusBSDInfo_little, swap_FndrDirInfo_little, swap_FndrOpaqueInfo]
  simp only [planCatalogFolder, segsAt_append, applySegs_append, segsAt_segsAt]
  simp only [segsAt, List.map, applySegs, planForkData, planExtentDescriptor, planBSDInfo,
    planFndrDirInfo, planFndrFileInfo, range8, List.flatMap, List.flatten, List.append,
    List.map_append, List.cons_append, List.nil_append, List.append_nil, applySegs_append]
  rfl

theorem swap_HFSPlusCatalogFolder_big (m : Mem) (p : Nat) :
    swap_HFSPlusCatalogFolder .big m p = m := by
  simp (disch := decide) only [swap_HFSPlusCatalogFolder, Convert16, Convert32, Convert_matched,
    swap_HFSPlusBSDInfo_big, swap_FndrDirInfo_big, swap_FndrOpaqueInfo]

theorem swap_HFSPlusCatalogFile_little (m : Mem) (p : Nat) :
    swap_HFSPlusCatalogFile .little m p = applySegs (segsAt p planCatalogFile) m := by
  simp (disch := decide) only [swap_HFSPlusCatalogFile, Convert16, Convert32, Convert_matched,
    swap_HFSPlusBSDInfo_little, swap_FndrFileInfo_little, swap_FndrOpaqueInfo,
    swap_HFSPlusForkData_little]
  simp only [planCatalogFile, segsAt_append, applySegs_append, segsAt_segsAt]
  simp only [segsAt, List.map, applySegs, planForkData, planExtentDescriptor, planBSDInfo,
    planFndrDirInfo, planFndrFileInfo, range8, List.flatMap, List.flatten, List.append,
    List.map_append, List.cons_append, List.nil_append, List.append_nil, applySegs_append]
  rfl

theorem swap_HFSPlusCatalogFile_big (m : Mem) (p : Nat) :
    swap_HFSPlusCatalogFile .big m p = m := by
  simp (disch := decide) only [swap_HFSPlusCatalogFile, Convert16, Convert32, Convert_matched,
    swap_HFSPlusBSDInfo_big, swap_FndrFileInfo_big, swap_FndrOpaqueInfo,
    swap_HFSPlusForkData_big]

theorem planExtentDescriptor_disjoint : segsDisjoint planExtentDescriptor = true := by decide
theorem planNodeDescriptor_disjoint : segsDisjoint planNodeDescriptor = true := by decide
theorem planHeaderRec_disjoint : segsDisjoint planHeaderRec = true := by decide
theorem planCatalogKey_disjoint : segsDisjoint planCatalogKey = true := by decide
theorem planBSDInfo_disjoint : segsDisjoint planBSDInfo = true := by decide

set_option maxRecDepth 100000 in
theorem planForkData_disjoint : segsDisjoint planForkData = true := by decide

set_option maxRecDepth 100000 in
theorem planCatalogFolder_disjoint : segsDisjoint planCatalogFolder = true := by decide

set_option maxRecDepth 1000000 in
set_option maxHeartbeats 4000000 in
theorem planCatalogFile_disjoint : segsDisjoint planCatalogFile = true := by decide

set_option maxRecDepth 1000000 in
set_option maxHeartbeats 4000000 in
theorem planVolumeHeader_disjoint : segsDisjoint planVolumeHeader = true := by decide


/-! ## Values and frames of plans -/

theorem segSource_mem (ss : List (Nat × Nat)) (hd : segsDisjoint ss = true) (s : Nat × Nat)
    (hs : s ∈ ss) (a : Nat) (ha : inSeg s a = true) :
    segSource ss a = s.1 + (s.1 + s.2 - 1 - a) := by
  induction ss with
  | nil => cases hs
  | cons t ts ih =>
    simp only [segsDisjoint, Bool.and_eq_true, List.all_eq_true] at hd
    rcases List.mem_cons.mp hs with h | h
    · subst h
      simp only [segSource, ha, if_true]
    · have ht : inSeg t a = false := inSeg_false_of_disjoint t s a (hd.1 s h) ha
      simp only [segSource, ht, Bool.false_eq_true, if_false]
      exact ih hd.2 h

/-- After a plan of pairwise disjoint segments, each segment of the plan holds
its former bytes in reverse order. -/
theorem readBytes_applySegs (ss : List (Nat × Nat)) (hd : segsDisjoint ss = true)
    (s : Nat × Nat) (hs : s ∈ ss) (m : Mem) :
    readBytes (applySegs ss m) s.1 s.2 = (readBytes m s.1 s.2).reverse := by
  rw [← readBytes_revSeg]
  apply List.ext_getElem?
  intro k
  rw [readBytes_getElem?, readBytes_getElem?]
  by_cases hk : k < s.2
  · have hin : inSeg s (s.1 + k) = true := by
      simp only [inSeg, Bool.and_eq_true, decide_eq_true_eq]
      omega
    simp only [hk, if_true, applySegs_apply ss hd, segSource_mem ss hd s hs _ hin]
    have hr : revSeg s.1 s.2 m (s.1 + k) = m (s.1 + (s.1 + s.2 - 1 - (s.1 + k))) := by
      have : s.1 ≤ s.1 + k ∧ s.1 + k < s.1 + s.2 := by omega
      simp [revSeg, this]
    rw [hr]
  · simp [hk]

theorem load_applySegs (ss : List (Nat × Nat)) (hd : segsDisjoint ss = true)
    (s : Nat × Nat) (hs : s ∈ ss) (m : Mem) :
    load .little s.2 (applySegs ss m) s.1 = beValue (readBytes m s.1 s.2) := by
  simp only [load, memOrder, beValue, readBytes_applySegs ss hd s hs]

theorem load_big (w : Nat) (m : Mem) (p : Nat) : load .big w m p = beValue (readBytes m p w) := rfl

theorem applySegs_frame (plan : List (Nat × Nat)) (lo hi : Nat)
    (h : segsAvoid lo hi plan = true) (p a : Nat) (h1 : p + lo ≤ a) (h2 : a < p + hi)
    (m : Mem) : applySegs (segsAt p plan) m a = m a := by
  apply applySegs_outside
  intro t ht
  simp only [segsAt, List.mem_map] at ht
  obtain ⟨s, hs, rfl⟩ := ht
  simp only [segsAvoid, List.all_eq_true, Bool.or_eq_true, decide_eq_true_eq] at h
  have := h s hs
  simp only [inSeg, Bool.and_eq_false_iff, decide_eq_false_iff_not]
  omega


theorem plan_involutive (plan : List (Nat × Nat)) (hd : segsDisjoint plan = true) (p : Nat)
    (m : Mem) : applySegs (segsAt p plan) (applySegs (segsAt p plan) m) = m :=
  applySegs_applySegs _ (by rw [segsDisjoint_segsAt]; exact hd) m

/-- Every swap routine other than the thread one is an involution on memory,
on either host. -/
theorem swap_swap_matched_kinds (e : Endian) (m : Mem) (p : Nat) :
    swap_HFSPlusVolumeHeader e (swap_HFSPlusVolumeHeader e m p) p = m ∧
    swap_HFSPlusForkData e (swap_HFSPlusForkData e m p) p = m ∧
    swap_HFSPlusExtentDescriptor e (swap_HFSPlusExtentDescriptor e m p) p = m ∧
    swap_BTNodeDescriptor e (swap_BTNodeDescriptor e m p) p = m ∧
    swap_BTHeaderRec e (swap_BTHeaderRec e m p) p = m ∧
    swap_HFSPlusCatalogKey e (swap_HFSPlusCatalogKey e m p) p = m ∧
    swap_HFSPlusCatalogFolder e (swap_HFSPlusCatalogFolder e m p) p = m ∧
    swap_HFSPlusCatalogFile e (swap_HFSPlusCatalogFile e m p) p = m ∧
    swap_HFSPlusBSDInfo e (swap_HFSPlusBSDInfo e m p) p = m := by
  cases e with
  | little =>
    simp only [swap_HFSPlusVolumeHeader_little, swap_HFSPlusForkData_little,
      swap_HFSPlusExtentDescriptor_little, swap_BTNodeDescriptor_little,
      swap_BTHeaderRec_little, swap_HFSPlusCatalogKey_little, swap_HFSPlusCatalogFolder_little,
      swap_HFSPlusCatalogFile_little, swap_HFSPlusBSDInfo_little]
    exact ⟨plan_involutive _ planVolumeHeader_disjoint p m,
      plan_involutive _ planForkData_disjoint p m,
      plan_involutive _ planExtentDescriptor_disjoint p m,
      plan_involutive _ planNodeDescriptor_disjoint p m,
      plan_involutive _ planHeaderRec_disjoint p m,
      plan_involutive _ planCatalogKey_disjoint p m,
      plan_involutive _ planCatalogFolder_disjoint p m,
      plan_involutive _ planCatalogFile_disjoint p m,
      plan_involutive _ planBSDInfo_disjoint p m⟩
  | big =>
    simp only [swap_HFSPlusVolumeHeader_big, swap_HFSPlusForkData_big,
      swap_HFSPlusExtentDescriptor_big, swap_BTNodeDescriptor_big,
      swap_BTHeaderRec_big, swap_HFSPlusCatalogKey_big, swap_HFSPlusCatalogFolder_big,
      swap_HFSPlusCatalogFile_big, swap_HFSPlusBSDInfo_big, and_self]

/-- C1, at the input where it fails: on a little-endian host the thread swap
applied twice to a thread record whose `reserved` field holds the bytes `00 01`
does not give the record back; byte 3 ends as 0 where it was 1. -/
theorem swap_HFSPlusCatalogThread_twice_ne :
    swap_HFSPlusCatalogThread .little (swap_HFSPlusCatalogThread .little threadRecord 0) 0
      ≠ threadRecord ∧
    swap_HFSPlusCatalogThread .little (swap_HFSPlusCatalogThread .little threadRecord 0) 0 3
      = 0 ∧
    threadRecord 3 = 1 := by
  have h : swap_HFSPlusCatalogThread .little
      (swap_HFSPlusCatalogThread .little threadRecord 0) 0 3 = 0 := by decide
  refine ⟨fun hc => ?_, h, rfl⟩
  have h3 := congrFun hc 3
  rw [h] at h3
  exact absurd h3 (by decide)

set_option maxRecDepth 100000 in
theorem integerFields_in_plan :
    HFSPlusVolumeHeader.integerFields.all
      (fun f => decide ((f.off, f.size) ∈ planVolumeHeader)) = true := by decide

/-- After a swap that follows a plan, a planned field reads as the big-endian
value of its former bytes. -/
theorem load_plan (plan : List (Nat × Nat)) (hd : segsDisjoint plan = true) (p off w : Nat)
    (h : (off, w) ∈ plan) (m : Mem) :
    load .little w (applySegs (segsAt p plan) m) (p + off)
      = beValue (readBytes m (p + off) w) :=
  load_applySegs (segsAt p plan) ((segsDisjoint_segsAt p plan).trans hd) (p + off, w)
    (List.mem_map.mpr ⟨(off, w), h, rfl⟩) m


theorem get_swap_HFSPlusVolumeHeader (e : Endian) (m : Mem) (p : Nat) (f : Field)
    (off : Nat) (hf : (off + f.off, f.size) ∈ planVolumeHeader) :
    f.get e (swap_HFSPlusVolumeHeader e m p) (p + off)
      = beValue (readBytes m (p + off + f.off) f.size) := by
  unfold Field.get
  cases e with
  | big => rw [swap_HFSPlusVolumeHeader_big, load_big]
  | little =>
    rw [swap_HFSPlusVolumeHeader_little, Nat.add_assoc]
    exact load_plan _ planVolumeHeader_disjoint p _ _ hf m

/-- C2: after `swap_HFSPlusVolumeHeader`, the host value of every multi-byte
integer field of the volume header (the twenty scalars and, for each of the
five forks, logicalSize, totalBlocks, clumpSize and the sixteen extent words)
is the big-endian reading of the field's on-disk bytes. -/
theorem swap_HFSPlusVolumeHeader_fields (e : Endian) (m : Mem) (p : Nat) (f : Field)
    (hf : f ∈ HFSPlusVolumeHeader.integerFields) :
    load e f.size (swap_HFSPlusVolumeHeader e m p) (p + f.off)
      = beValue (readBytes m (p + f.off) f.size) := by
  have h1 := List.all_eq_true.mp integerFields_in_plan f hf
  have h2 : (0 + f.off, f.size) ∈ planVolumeHeader := by
    rw [Nat.zero_add]
    exact of_decide_eq_true h1
  exact get_swap_HFSPlusVolumeHeader e m p f 0 h2

theorem swap_HFSPlusVolumeHeader_fields_witness :
    HFSPlusVolumeHeader.blockSize ∈ HFSPlusVolumeHeader.integerFields ∧
    load .little 4 (swap_HFSPlusVolumeHeader .little sampleHeader 0) 40 = 4096 :=
  ⟨by decide, swap_HFSPlusVolumeHeader_fields .little sampleHeader 0
    HFSPlusVolumeHeader.blockSize (by decide)⟩

theorem applySegs_window (plan : List (Nat × Nat)) (lo hi : Nat)
    (h : segsAvoid lo hi plan = true) (p : Nat) (m : Mem) (k : Nat) (hk : lo + k < hi) :
    applySegs (segsAt p plan) m (p + lo + k) = m (p + lo + k) :=
  applySegs_frame plan lo hi h p (p + lo + k) (by omega) (by omega) m

theorem swap_HFSPlusCatalogThread_outside (e : Endian) (m : Mem) (p a : Nat)
    (h : a < p ∨ p + 8 ≤ a) : swap_HFSPlusCatalogThread e m p a = m a := by
  unfold swap_HFSPlusCatalogThread
  simp only [Convert16, Convert32]
  rw [Convert_outside, Convert_outside, Convert_outside]
  · show a < p + 0 ∨ p + 0 + 2 ≤ a
    omega
  · show a < p + 2 ∨ p + 2 + 2 ≤ a
    omega
  · show a < p + 4 ∨ p + 4 + 4 ≤ a
    omega

/-- C3: the swap routines leave every byte outside the multi-byte integer
fields as it was: the 8-bit fields (BSD adminFlags and ownerFlags, also inside
a folder or file record; node-descriptor kind and height; header-record
btreeType and keyCompareType), the opaque arrays (the volume header's 32 bytes
of finderInfo, the 16 bytes of extended Finder info of a folder and of a file
record) and the Unicode data (the 255 characters of an HFSUniStr255, alone or
as a catalog key's nodeName, and the whole nodeName of a thread record). -/
theorem swap_preserves_bytes_and_opaque (e : Endian) (m : Mem) (p : Nat) :
    (swap_HFSPlusBSDInfo e m p (p + HFSPlusBSDInfo.adminFlags.off)
        = m (p + HFSPlusBSDInfo.adminFlags.off) ∧
     swap_HFSPlusBSDInfo e m p (p + HFSPlusBSDInfo.ownerFlags.off)
        = m (p + HFSPlusBSDInfo.ownerFlags.off)) ∧
    (swap_BTNodeDescriptor e m p (p + BTNodeDescriptor.kind.off)
        = m (p + BTNodeDescriptor.kind.off) ∧
     swap_BTNodeDescriptor e m p (p + BTNodeDescriptor.height.off)
        = m (p + BTNodeDescriptor.height.off)) ∧
    (swap_BTHeaderRec e m p (p + BTHeaderRec.btreeType.off)
        = m (p + BTHeaderRec.btreeType.off) ∧
     swap_BTHeaderRec e m p (p + BTHeaderRec.keyCompareType.off)
        = m (p + BTHeaderRec.keyCompareType.off)) ∧
    (∀ k : Fin 32, swap_HFSPlusVolumeHeader e m p (p + HFSPlusVolumeHeader.finderInfo + k)
        = m (p + HFSPlusVolumeHeader.finderInfo + k)) ∧
    (∀ k : Fin 16, swap_HFSPlusCatalogFolder e m p (p + HFSPlusCatalogFolder.finderInfo + k)
        = m (p + HFSPlusCatalogFolder.finderInfo + k)) ∧
    (∀ k : Fin 16, swap_HFSPlusCatalogFile e m p (p + HFSPlusCatalogFile.finderInfo + k)
        = m (p + HFSPlusCatalogFile.finderInfo + k)) ∧
    (∀ k : Fin 2, swap_HFSPlusCatalogFolder e m p
        (p + (HFSPlusCatalogFolder.bsdInfo + HFSPlusBSDInfo.adminFlags.off) + k)
        = m (p + (HFSPlusCatalogFolder.bsdInfo + HFSPlusBSDInfo.adminFlags.off) + k)) ∧
    (∀ k : Fin 2, swap_HFSPlusCatalogFile e m p
        (p + (HFSPlusCatalogFile.bsdInfo + HFSPlusBSDInfo.adminFlags.off) + k)
        = m (p + (HFSPlusCatalogFile.bsdInfo + HFSPlusBSDInfo.adminFlags.off) + k)) ∧
    (∀ k : Fin 510, swap_HFSUniStr255 e m p (p + HFSUniStr255.unicode + k)
        = m (p + HFSUniStr255.unicode + k)) ∧
    (∀ k : Fin 510, swap_HFSPlusCatalogKey e m p
        (p + (HFSPlusCatalogKey.nodeName + HFSUniStr255.unicode) + k)
        = m (p + (HFSPlusCatalogKey.nodeName + HFSUniStr255.unicode) + k)) ∧
    (∀ k : Fin 512, swap_HFSPlusCatalogThread e m p (p + HFSPlusCatalogThread.nodeName + k)
        = m (p + HFSPlusCatalogThread.nodeName + k)) := by
  have hthread : ∀ k : Fin 512,
      swap_HFSPlusCatalogThread e m p (p + HFSPlusCatalogThread.nodeName + k)
        = m (p + HFSPlusCatalogThread.nodeName + k) := fun k =>
    swap_HFSPlusCatalogThread_outside e m p _
      (Or.inr (by show p + 8 ≤ p + 8 + k.val; omega))
  have hstr : ∀ k : Fin 510, swap_HFSUniStr255 e m p (p + HFSUniStr255.unicode + k)
        = m (p + HFSUniStr255.unicode + k) := fun k =>
    Convert_outside e 2 HFSUniStr255.length m p _
      (Or.inr (by show p + 0 + 2 ≤ p + 2 + k.val; omega))
  cases e with
  | big =>
    simp only [swap_HFSPlusVolumeHeader_big, swap_BTNodeDescriptor_big, swap_BTHeaderRec_big,
      swap_HFSPlusCatalogKey_big, swap_HFSPlusCatalogFolder_big, swap_HFSPlusCatalogFile_big,
      swap_HFSPlusBSDInfo_big, and_self, implies_true, true_and]
    exact ⟨hstr, hthread⟩
  | little =>
    simp only [swap_HFSPlusVolumeHeader_little, swap_BTNodeDescriptor_little,
      swap_BTHeaderRec_little, swap_HFSPlusCatalogKey_little, swap_HFSPlusCatalogFolder_little,
      swap_HFSPlusCatalogFile_little, swap_HFSPlusBSDInfo_little]
    refine ⟨⟨?_, ?_⟩, ⟨?_, ?_⟩, ⟨?_, ?_⟩, ?_, ?_, ?_, ?_, ?_, hstr, ?_, hthread⟩
    · exact applySegs_window planBSDInfo 8 10 (by decide) p m 0 (by omega)
    · exact applySegs_window planBSDInfo 9 10 (by decide) p m 0 (by omega)
    · exact applySegs_window planNodeDescriptor 8 10 (by decide) p m 0 (by omega)
    · exact applySegs_window planNodeDescriptor 9 10 (by decide) p m 0 (by omega)
    · exact applySegs_window planHeaderRec 36 38 (by decide) p m 0 (by omega)
    · exact applySegs_window planHeaderRec 37 38 (by decide) p m 0 (by omega)
    · exact fun k => applySegs_window planVolumeHeader 80 112 (by decide) p m k (by omega)
    · exact fun k => applySegs_window planCatalogFolder 64 80 (by decide) p m k (by omega)
    · exact fun k => applySegs_window planCatalogFile 64 80 (by decide) p m k (by omega)
    · exact fun k => applySegs_window planCatalogFolder 40 42 (by decide) p m k (by omega)
    · exact fun k => applySegs_window planCatalogFile 40 42 (by decide) p m k (by omega)
    · exact fun k => applySegs_window planCatalogKey 8 518 (by decide) p m k (by omega)


/-! ## The MDB swap as a plan -/

theorem range3 : List.range 3 = [0, 1, 2] := by decide

theorem swap_HFSExtentDescriptor_little (m : Mem) (p : Nat) :
    swap_HFSExtentDescriptor .little m p = applySegs (segsAt p planExtentDescriptorStd) m := by
  simp (disch := decide) only [swap_HFSExtentDescriptor, Convert16, Convert_matched]
  rfl

theorem swap_HFSExtentDescriptor_big (m : Mem) (p : Nat) :
    swap_HFSExtentDescriptor .big m p = m := by
  simp (disch := decide) only [swap_HFSExtentDescriptor, Convert16, Convert_matched]

theorem swap_HFSMasterDirectoryBlock_little (m : Mem) (p : Nat) :
    swap_HFSMasterDirectoryBlock .little m p
      = applySegs (segsAt p planMasterDirectoryBlock) m := by
  simp (disch := decide) only [swap_HFSMasterDirectoryBlock, Convert16, Convert32,
    Convert_matched, range3, List.foldl, swap_HFSExtentDescriptor_little]
  simp only [planMasterDirectoryBlock, segsAt_append, applySegs_append, segsAt_segsAt]
  simp only [segsAt, List.map, applySegs, planExtentDescriptorStd, range3, List.flatMap,
    List.flatten, List.append, List.map_append, List.cons_append, List.nil_append,
    List.append_nil, applySegs_append]
  rfl

theorem swap_HFSMasterDirectoryBlock_big (m : Mem) (p : Nat) :
    swap_HFSMasterDirectoryBlock .big m p = m := by
  simp (disch := decide) only [swap_HFSMasterDirectoryBlock, Convert16, Convert32,
    Convert_matched, range3, List.foldl, swap_HFSExtentDescriptor_big]

set_option maxRecDepth 100000 in
theorem planMasterDirectoryBlock_disjoint : segsDisjoint planMasterDirectoryBlock = true := by
  decide

theorem get_swap_HFSMasterDirectoryBlock (e : Endian) (m : Mem) (p : Nat) (f : Field)
    (off : Nat) (hf : (off + f.off, f.size) ∈ planMasterDirectoryBlock) :
    f.get e (swap_HFSMasterDirectoryBlock e m p) (p + off)
      = beValue (readBytes m (p + off + f.off) f.size) := by
  unfold Field.get
  cases e with
  | big => rw [swap_HFSMasterDirectoryBlock_big, load_big]
  | little =>
    rw [swap_HFSMasterDirectoryBlock_little, Nat.add_assoc]
    exact load_plan _ planMasterDirectoryBlock_disjoint p _ _ hf m

theorem readBytes_writeBytes (m : Mem) (p : Nat) (bs : List Byte) (off w : Nat)
    (h : off + w ≤ bs.length) :
    readBytes (writeBytes m p bs) (p + off) w = (bs.drop off).take w := by
  apply List.ext_getElem?
  intro k
  rw [readBytes_getElem?]
  by_cases hk : k < w
  · have h1 : p ≤ p + off + k := by omega
    have h2 : p + off + k - p = off + k := by omega
    have h3 : off + k < bs.length := by omega
    simp [hk, writeBytes, h1, h2, List.getElem?_take, List.getElem?_drop, h3]
  · simp [hk, List.getElem?_take]


/-! ## Volume layer -/

theorem vol_read_none (vol : Volume) (m : Mem) (buf n o : Nat) (h : vol.pread n o = none) :
    vol_read vol m buf n o = (-1, m) := by
  simp [vol_read, h]

theorem vol_read_some (vol : Volume) (m : Mem) (buf n o : Nat) (bs : List Byte)
    (h : vol.pread n o = some bs) (hl : bs.length = n) :
    vol_read vol m buf n o = ((n : Int), writeBytes m buf bs) := by
  have ht : bs.take n = bs := List.take_of_length_le (by omega)
  simp [vol_read, h, ht, hl]

theorem hfs_load_mbd_none (e : Endian) (vol : Volume) (m : Mem) (p : Nat)
    (h : vol.pread 162 1024 = none) : hfs_load_mbd e vol m p = (-1, m) := by
  simp [hfs_load_mbd, HFSMasterDirectoryBlock.sizeof, vol_read_none vol m p 162 1024 h]

theorem hfs_load_mbd_some (e : Endian) (vol : Volume) (m : Mem) (p : Nat) (bs : List Byte)
    (h : vol.pread 162 1024 = some bs) (hl : bs.length = 162) :
    hfs_load_mbd e vol m p = (0, swap_HFSMasterDirectoryBlock e (writeBytes m p bs) p) := by
  simp [hfs_load_mbd, HFSMasterDirectoryBlock.sizeof, vol_read_some vol m p 162 1024 bs h hl]

theorem hfs_load_header_none (e : Endian) (vol : Volume) (m : Mem) (p : Nat)
    (h : vol.pread 512 1024 = none) : hfs_load_header e vol m p = (-1, m) := by
  simp [hfs_load_header, HFSPlusVolumeHeader.sizeof, vol_read_none vol m p 512 1024 h]

theorem hfs_load_header_some (e : Endian) (vol : Volume) (m : Mem) (p : Nat) (bs : List Byte)
    (h : vol.pread 512 1024 = some bs) (hl : bs.length = 512) :
    hfs_load_header e vol m p = (0, swap_HFSPlusVolumeHeader e (writeBytes m p bs) p) := by
  simp [hfs_load_header, HFSPlusVolumeHeader.sizeof, vol_read_some vol m p 512 1024 bs h hl]

/-- A field of the MDB that was read from the bytes `bs` and swapped holds the
big-endian value of its bytes in `bs`. -/
theorem get_loaded_mdb (e : Endian) (m : Mem) (bs : List Byte) (f : Field) (off : Nat)
    (hf : (off + f.off, f.size) ∈ planMasterDirectoryBlock)
    (hl : off + f.off + f.size ≤ bs.length) :
    f.get e (swap_HFSMasterDirectoryBlock e (writeBytes m 0 bs) 0) off
      = beValue ((bs.drop (off + f.off)).take f.size) := by
  have h := get_swap_HFSMasterDirectoryBlock e (writeBytes m 0 bs) 0 f off hf
  rw [Nat.zero_add] at h
  rw [h]
  have h2 := readBytes_writeBytes m 0 bs (off + f.off) f.size hl
  rw [Nat.zero_add] at h2
  rw [h2]

/-- A field of the volume header that was read from the bytes `bs` and swapped
holds the big-endian value of its bytes in `bs`. -/
theorem get_loaded_header (e : Endian) (m : Mem) (bs : List Byte) (f : Field) (off : Nat)
    (hf : (off + f.off, f.size) ∈ planVolumeHeader)
    (hl : off + f.off + f.size ≤ bs.length) :
    f.get e (swap_HFSPlusVolumeHeader e (writeBytes m 0 bs) 0) off
      = beValue ((bs.drop (off + f.off)).take f.size) := by
  have h := get_swap_HFSPlusVolumeHeader e (writeBytes m 0 bs) 0 f off hf
  rw [Nat.zero_add] at h
  rw [h]
  have h2 := readBytes_writeBytes m 0 bs (off + f.off) f.size hl
  rw [Nat.zero_add] at h2
  rw [h2]

set_option maxRecDepth 100000 in
theorem signature_in_plan : (0 + HFSPlusVolumeHeader.signature.off,
    HFSPlusVolumeHeader.signature.size) ∈ planVolumeHeader := by decide


theorem hfs_test_eq_detect_spec (e : Endian) (vol : Volume) (mdb0 vh0 : Mem)
    (hfull : FullReads vol) : hfs_test e vol mdb0 vh0 = detect_spec vol := by
  unfold hfs_test detect_spec
  cases hm : vol.pread 162 1024 with
  | none => simp [hfs_load_mbd_none e vol mdb0 0 hm]
  | some mb =>
    have hl : mb.length = 162 := hfull _ _ _ hm
    rw [hfs_load_mbd_some e vol mdb0 0 mb hm hl]
    have hsig : HFSMasterDirectoryBlock.drSigWord.get e
        (swap_HFSMasterDirectoryBlock e (writeBytes mdb0 0 mb) 0) 0 = be16At mb 0 :=
      get_loaded_mdb e mdb0 mb HFSMasterDirectoryBlock.drSigWord 0 (by decide)
        (by rw [hl]; decide)
    have hemb : HFSMasterDirectoryBlock.drEmbedSigWord.get e
        (swap_HFSMasterDirectoryBlock e (writeBytes mdb0 0 mb) 0) 0 = be16At mb 124 :=
      get_loaded_mdb e mdb0 mb HFSMasterDirectoryBlock.drEmbedSigWord 0 (by decide)
        (by rw [hl]; decide)
    simp only [hsig, hemb, kHFSSigWord, kHFSPlusSigWord, kHFSXSigWord]
    by_cases h1 : be16At mb 0 = 0x4244
    · by_cases h2 : be16At mb 124 = 0x482B
      · simp [h1, h2]
      · simp [h1, h2]
    · cases hh : vol.pread 512 1024 with
      | none => simp [h1, hfs_load_header_none e vol vh0 0 hh]
      | some hb =>
        have hl2 : hb.length = 512 := hfull _ _ _ hh
        rw [hfs_load_header_some e vol vh0 0 hb hh hl2]
        have hvsig : HFSPlusVolumeHeader.signature.get e
            (swap_HFSPlusVolumeHeader e (writeBytes vh0 0 hb) 0) 0 = be16At hb 0 :=
          get_loaded_header e vh0 hb HFSPlusVolumeHeader.signature 0 signature_in_plan
            (by rw [hl2]; decide)
        simp [h1, hvsig]


/-- C4: on a readable source `hfs_test` follows the decision table of the spec
on the 16-bit words of the 162-byte and 512-byte reads at offset 1024, and
returns -1 (`none`) exactly when a read it needs fails. -/
theorem hfs_test_decision_table (e : Endian) (vol : Volume) (mdb0 vh0 : Mem)
    (hfull : FullReads vol) : hfs_test e vol mdb0 vh0 = detect_spec vol :=
  hfs_test_eq_detect_spec e vol mdb0 vh0 hfull

theorem diskVolume_fullReads (content : Nat → Byte) : FullReads (diskVolume content) := by
  intro n o bs h
  have : readBytes content o n = bs := Option.some.inj h
  rw [← this, readBytes_length]

set_option maxRecDepth 1000000 in
theorem hfs_test_decision_table_witness :
    FullReads (diskVolume wrappedDisk) ∧
    hfs_test .little (diskVolume wrappedDisk) zeroMem zeroMem
      = detect_spec (diskVolume wrappedDisk) ∧
    detect_spec (diskVolume wrappedDisk) = some .kFilesystemTypeWrappedHFSPlus :=
  ⟨diskVolume_fullReads wrappedDisk,
   hfs_test_decision_table .little (diskVolume wrappedDisk) zeroMem zeroMem
     (diskVolume_fullReads wrappedDisk), by decide⟩

/-- C5, what the code does: whenever the detected kind is bare HFS Standard or
Unknown, `hfs_attach` returns -1, leaves the caller's `HFSVolume` untouched and
sets `errno` to `EINVAL`, the invalid-argument code, which is not the
filesystem-type code `EFTYPE` that `hfs_load` sets for the same volumes. -/
theorem hfs_attach_rejects_with_EINVAL (e : Endian) (h : HFSVolume) (v : Volume) (errno : Int)
    (mdb0 vh0 : Mem)
    (hkind : hfs_test e v mdb0 vh0 = some .kFilesystemTypeHFS ∨
      hfs_test e v mdb0 vh0 = some .kVolumeSubtypeUnknown) :
    hfs_attach e (some h) (some v) errno mdb0 vh0 = (-1, some h, EINVAL) ∧ EINVAL ≠ EFTYPE := by
  refine ⟨?_, by decide⟩
  rcases hkind with hk | hk <;> simp [hfs_attach, hk]

set_option maxRecDepth 1000000 in
theorem hfs_attach_rejects_with_EINVAL_witness :
    hfs_test .little (diskVolume hfsDisk) zeroMem zeroMem = some .kFilesystemTypeHFS ∧
    hfs_attach .little (some HFSVolume.zero) (some (diskVolume hfsDisk)) 0 zeroMem zeroMem
      = (-1, some HFSVolume.zero, EINVAL) ∧ EINVAL ≠ EFTYPE :=
  ⟨by decide, hfs_attach_rejects_with_EINVAL .little HFSVolume.zero (diskVolume hfsDisk) 0
    zeroMem zeroMem (Or.inl (by decide))⟩

/-- Function `hfs_attach` on a readable source that `hfs_test` finds to be a wrapped
HFS Plus volume: the offset is the 32-bit embedded offset of the MDB fields plus
the source's offset, and the cached header is the swapped 512 bytes that the
source delivers at offset 1024. -/
theorem hfs_attach_of_Wrapped (e : Endian) (h0 : HFSVolume) (v : Volume) (errno : Int)
    (mdb0 vh0 : Mem) (mb hb : List Byte)
    (hkind : hfs_test e v mdb0 vh0 = some .kFilesystemTypeWrappedHFSPlus)
    (hm : v.pread 162 1024 = some mb) (hml : mb.length = 162)
    (hh : v.pread 512 1024 = some hb) (hl : hb.length = 512) :
    hfs_attach e (some h0) (some v) errno mdb0 vh0 =
      (0, some
        { vol := some v,
          vh := swap_HFSPlusVolumeHeader e (writeBytes zeroMem 0 hb) 0,
          offset := (embeddedOffset (be16At mb 28) (be16At mb 126) (be32At mb 20)
            + v.offset) % 2 ^ 64,
          length := if v.length ≠ 0 then v.length else
            (HFSPlusVolumeHeader.blockSize.get e
                (swap_HFSPlusVolumeHeader e (writeBytes zeroMem 0 hb) 0) 0 *
              HFSPlusVolumeHeader.totalBlocks.get e
                (swap_HFSPlusVolumeHeader e (writeBytes zeroMem 0 hb) 0) 0) % 2 ^ 64,
          block_size := HFSPlusVolumeHeader.blockSize.get e
            (swap_HFSPlusVolumeHeader e (writeBytes zeroMem 0 hb) 0) 0,
          block_count := HFSPlusVolumeHeader.totalBlocks.get e
            (swap_HFSPlusVolumeHeader e (writeBytes zeroMem 0 hb) 0) 0 }, errno) := by
  have h1 : HFSMasterDirectoryBlock.drAlBlSt.get e
      (swap_HFSMasterDirectoryBlock e (writeBytes zeroMem 0 mb) 0) 0 = be16At mb 28 :=
    get_loaded_mdb e zeroMem mb HFSMasterDirectoryBlock.drAlBlSt 0 (by decide)
      (by rw [hml]; decide)
  have h2 : HFSExtentDescriptor.startBlock.get e
      (swap_HFSMasterDirectoryBlock e (writeBytes zeroMem 0 mb) 0)
      HFSMasterDirectoryBlock.drEmbedExtent = be16At mb 126 :=
    get_loaded_mdb e zeroMem mb HFSExtentDescriptor.startBlock 126 (by decide)
      (by rw [hml]; decide)
  have h3 : HFSMasterDirectoryBlock.drAlBlkSiz.get e
      (swap_HFSMasterDirectoryBlock e (writeBytes zeroMem 0 mb) 0) 0 = be32At mb 20 :=
    get_loaded_mdb e zeroMem mb HFSMasterDirectoryBlock.drAlBlkSiz 0 (by decide)
      (by rw [hml]; decide)
  simp [hfs_attach, hkind, HFSVolume.zero, hfs_load_header_some e v zeroMem 0 hb hh hl,
    hfs_load_mbd_some e v zeroMem 0 mb hm hml, h1, h2, h3]

/-- On every readable source that is a wrapped HFS Plus volume and delivers the
same first two bytes at offset 1024 to both reads, `hfs_attach` succeeds and
the signature of the header it caches is 'BD', the wrapper's. -/
theorem hfs_attach_wrapped_signature (e : Endian) (h0 : HFSVolume) (v : Volume) (errno : Int)
    (mdb0 vh0 : Mem) (mb hb : List Byte) (hfull : FullReads v)
    (hkind : hfs_test e v mdb0 vh0 = some .kFilesystemTypeWrappedHFSPlus)
    (hm : v.pread 162 1024 = some mb) (hh : v.pread 512 1024 = some hb)
    (hsame : be16At hb 0 = be16At mb 0) :
    ∃ h, hfs_attach e (some h0) (some v) errno mdb0 vh0 = (0, some h, errno) ∧
      HFSPlusVolumeHeader.signature.get e h.vh 0 = 0x4244 := by
  have hml : mb.length = 162 := hfull _ _ _ hm
  have hl : hb.length = 512 := hfull _ _ _ hh
  refine ⟨_, hfs_attach_of_Wrapped e h0 v errno mdb0 vh0 mb hb hkind hm hml hh hl, ?_⟩
  have hs : HFSPlusVolumeHeader.signature.get e
      (swap_HFSPlusVolumeHeader e (writeBytes zeroMem 0 hb) 0) 0 = be16At hb 0 :=
    get_loaded_header e zeroMem hb HFSPlusVolumeHeader.signature 0 signature_in_plan
      (by rw [hl]; decide)
  show HFSPlusVolumeHeader.signature.get e
      (swap_HFSPlusVolumeHeader e (writeBytes zeroMem 0 hb) 0) 0 = 0x4244
  rw [hs, hsame]
  have hd := hkind
  rw [hfs_test_eq_detect_spec e v mdb0 vh0 hfull] at hd
  simp only [detect_spec, hm] at hd
  by_contra hne
  simp only [hne, if_false, hh] at hd
  split at hd <;> cases hd

set_option maxRecDepth 1000000 in
/-- C6, at the input where it fails: for the wrapped source whose MDB holds
drAlBlSt = 0, drAlBlkSiz = 524288 and embedded start block 8192, `hfs_attach`
succeeds and sets the volume offset to 0, while the exact value of
source.offset + drAlBlSt*512 + startBlock*drAlBlkSiz is 4294967296: the product
is taken modulo 2^32. -/
theorem hfs_attach_offset_wraps :
    (hfs_load_mbd .little (diskVolume overflowDisk) zeroMem 0).1 = 0 ∧
    HFSMasterDirectoryBlock.drAlBlSt.get .little
      (hfs_load_mbd .little (diskVolume overflowDisk) zeroMem 0).2 0 = 0 ∧
    HFSMasterDirectoryBlock.drAlBlkSiz.get .little
      (hfs_load_mbd .little (diskVolume overflowDisk) zeroMem 0).2 0 = 524288 ∧
    HFSExtentDescriptor.startBlock.get .little
      (hfs_load_mbd .little (diskVolume overflowDisk) zeroMem 0).2
      HFSMasterDirectoryBlock.drEmbedExtent = 8192 ∧
    (hfs_attach .little (some HFSVolume.zero) (some (diskVolume overflowDisk)) 0
      zeroMem zeroMem).1 = 0 ∧
    (hfs_attach .little (some HFSVolume.zero) (some (diskVolume overflowDisk)) 0
      zeroMem zeroMem).2.1.map HFSVolume.offset = some 0 ∧
    (diskVolume overflowDisk).offset + 0 * 512 + 8192 * 524288 = 4294967296 := by
  decide

set_option maxRecDepth 1000000 in
/-- The wrapped-volume example of the spec: drAlBlSt = 16, drAlBlkSiz = 524288
and embedded start block 2 on a source with base offset 0 give the volume
offset 1,056,768. -/
theorem hfs_attach_offset_example :
    (hfs_attach .little (some HFSVolume.zero) (some (diskVolume wrappedDisk)) 0
      zeroMem zeroMem).2.1.map HFSVolume.offset = some 1056768 := by
  decide

set_option maxRecDepth 1000000 in
/-- C7, at the input where it fails: on the wrapped source `wrappedDisk`
`hfs_attach` succeeds with volume offset 1056768, the embedded volume's header
at 1056768 + 1024 has signature 'H+' and blockSize 512, but the cached header
is the swapped 512 bytes at offset 1024 of the wrapper: its signature is 'BD'
(0x4244) and the cached block size is 0. -/
theorem hfs_attach_wrapped_caches_mdb :
    (hfs_attach .little (some HFSVolume.zero) (some (diskVolume wrappedDisk)) 0
      zeroMem zeroMem).1 = 0 ∧
    (hfs_attach .little (some HFSVolume.zero) (some (diskVolume wrappedDisk)) 0
      zeroMem zeroMem).2.1.map HFSVolume.offset = some 1056768 ∧
    ((diskVolume wrappedDisk).pread 512 (1056768 + 1024)).map (fun hb => be16At hb 0)
      = some 0x482B ∧
    ((diskVolume wrappedDisk).pread 512 (1056768 + 1024)).map (fun hb => be32At hb 40)
      = some 512 ∧
    (hfs_attach .little (some HFSVolume.zero) (some (diskVolume wrappedDisk)) 0
      zeroMem zeroMem).2.1.map (fun h => HFSPlusVolumeHeader.signature.get .little h.vh 0)
      = some 0x4244 ∧
    (hfs_attach .little (some HFSVolume.zero) (some (diskVolume wrappedDisk)) 0
      zeroMem zeroMem).2.1.map HFSVolume.block_size = some 0 := by
  decide


set_option maxRecDepth 100000 in
theorem blockSize_in_plan : (0 + HFSPlusVolumeHeader.blockSize.off,
    HFSPlusVolumeHeader.blockSize.size) ∈ planVolumeHeader := by decide

set_option maxRecDepth 100000 in
theorem totalBlocks_in_plan : (0 + HFSPlusVolumeHeader.totalBlocks.off,
    HFSPlusVolumeHeader.totalBlocks.size) ∈ planVolumeHeader := by decide

theorem Field.get_lt (e : Endian) (f : Field) (m : Mem) (p : Nat) :
    f.get e m p < 256 ^ f.size := load_lt e f.size m (p + f.off)

/-- Function `hfs_attach` on a source that `hfs_test` finds to be bare HFS Plus or HFSX. -/
theorem hfs_attach_of_HFSPlus (e : Endian) (h0 : HFSVolume) (v : Volume) (errno : Int)
    (mdb0 vh0 : Mem) (hb : List Byte)
    (hkind : hfs_test e v mdb0 vh0 = some .kFilesystemTypeHFSPlus)
    (hh : v.pread 512 1024 = some hb) (hl : hb.length = 512) :
    hfs_attach e (some h0) (some v) errno mdb0 vh0 =
      (0, some
        { vol := some v,
          vh := swap_HFSPlusVolumeHeader e (writeBytes zeroMem 0 hb) 0,
          offset := v.offset % 2 ^ 64,
          length := if v.length ≠ 0 then v.length else
            (HFSPlusVolumeHeader.blockSize.get e
                (swap_HFSPlusVolumeHeader e (writeBytes zeroMem 0 hb) 0) 0 *
              HFSPlusVolumeHeader.totalBlocks.get e
                (swap_HFSPlusVolumeHeader e (writeBytes zeroMem 0 hb) 0) 0) % 2 ^ 64,
          block_size := HFSPlusVolumeHeader.blockSize.get e
            (swap_HFSPlusVolumeHeader e (writeBytes zeroMem 0 hb) 0) 0,
          block_count := HFSPlusVolumeHeader.totalBlocks.get e
            (swap_HFSPlusVolumeHeader e (writeBytes zeroMem 0 hb) 0) 0 }, errno) := by
  simp [hfs_attach, hkind, HFSVolume.zero, hfs_load_header_some e v zeroMem 0 hb hh hl]

/-- C9: for every bare HFS Plus or HFSX source (a readable source that
`hfs_test` classifies as HFS Plus) `hfs_attach` returns 0 and leaves a volume
whose cached header is the swapped 512 bytes at offset 1024, whose block_size
and block_count are the header's blockSize and totalBlocks (the big-endian
words at bytes 40 and 44 of the header), whose vol is the given source and
whose length is the source's length when that is non-zero and
block_count * block_size otherwise. -/
theorem hfs_attach_bare (e : Endian) (h0 : HFSVolume) (v : Volume) (errno : Int)
    (mdb0 vh0 : Mem) (hfull : FullReads v)
    (hkind : hfs_test e v mdb0 vh0 = some .kFilesystemTypeHFSPlus) :
    ∃ h hb, v.pread 512 1024 = some hb ∧
      hfs_attach e (some h0) (some v) errno mdb0 vh0 = (0, some h, errno) ∧
      h.vh = swap_HFSPlusVolumeHeader e (writeBytes zeroMem 0 hb) 0 ∧
      h.block_size = HFSPlusVolumeHeader.blockSize.get e h.vh 0 ∧
      h.block_size = be32At hb 40 ∧
      h.block_count = HFSPlusVolumeHeader.totalBlocks.get e h.vh 0 ∧
      h.block_count = be32At hb 44 ∧
      h.vol = some v ∧
      h.length = (if v.length ≠ 0 then v.length else h.block_count * h.block_size) := by
  have hd := hkind
  rw [hfs_test_eq_detect_spec e v mdb0 vh0 hfull] at hd
  unfold detect_spec at hd
  cases hm : v.pread 162 1024 with
  | none => simp [hm] at hd
  | some mb =>
    cases hh : v.pread 512 1024 with
    | none =>
      simp only [hm, hh] at hd
      split at hd
      · split at hd <;> cases hd
      · cases hd
    | some hb =>
      have hl : hb.length = 512 := hfull _ _ _ hh
      refine ⟨_, hb, rfl, hfs_attach_of_HFSPlus e h0 v errno mdb0 vh0 hb hkind hh hl,
        rfl, rfl, ?_, rfl, ?_, rfl, ?_⟩
      · exact get_loaded_header e zeroMem hb HFSPlusVolumeHeader.blockSize 0 blockSize_in_plan
          (by rw [hl]; decide)
      · exact get_loaded_header e zeroMem hb HFSPlusVolumeHeader.totalBlocks 0
          totalBlocks_in_plan (by rw [hl]; decide)
      · have h1 := Field.get_lt e HFSPlusVolumeHeader.blockSize
          (swap_HFSPlusVolumeHeader e (writeBytes zeroMem 0 hb) 0) 0
        have h2 := Field.get_lt e HFSPlusVolumeHeader.totalBlocks
          (swap_HFSPlusVolumeHeader e (writeBytes zeroMem 0 hb) 0) 0
        have h3 : HFSPlusVolumeHeader.blockSize.get e
            (swap_HFSPlusVolumeHeader e (writeBytes zeroMem 0 hb) 0) 0 *
          HFSPlusVolumeHeader.totalBlocks.get e
            (swap_HFSPlusVolumeHeader e (writeBytes zeroMem 0 hb) 0) 0 < 2 ^ 64 := by
          have h1' : HFSPlusVolumeHeader.blockSize.get e
              (swap_HFSPlusVolumeHeader e (writeBytes zeroMem 0 hb) 0) 0 < 2 ^ 32 := h1
          have h2' : HFSPlusVolumeHeader.totalBlocks.get e
              (swap_HFSPlusVolumeHeader e (writeBytes zeroMem 0 hb) 0) 0 < 2 ^ 32 := h2
          calc _ < 2 ^ 32 * 2 ^ 32 := Nat.mul_lt_mul'' h1' h2'
            _ = 2 ^ 64 := by norm_num
        show (if v.length ≠ 0 then v.length else _ % 2 ^ 64) = _
        rw [Nat.mod_eq_of_lt h3, Nat.mul_comm]

set_option maxRecDepth 1000000 in
theorem hfs_attach_bare_witness :
    FullReads (diskVolume bareDisk) ∧
    hfs_test .little (diskVolume bareDisk) zeroMem zeroMem = some .kFilesystemTypeHFSPlus ∧
    ∃ h hb, (diskVolume bareDisk).pread 512 1024 = some hb ∧
      hfs_attach .little (some HFSVolume.zero) (some (diskVolume bareDisk)) 0 zeroMem zeroMem
        = (0, some h, 0) ∧
      h.vh = swap_HFSPlusVolumeHeader .little (writeBytes zeroMem 0 hb) 0 ∧
      h.block_size = HFSPlusVolumeHeader.blockSize.get .little h.vh 0 ∧
      h.block_size = be32At hb 40 ∧
      h.block_count = HFSPlusVolumeHeader.totalBlocks.get .little h.vh 0 ∧
      h.block_count = be32At hb 44 ∧
      h.vol = some (diskVolume bareDisk) ∧
      h.length = (if (diskVolume bareDisk).length ≠ 0 then (diskVolume bareDisk).length
        else h.block_count * h.block_size) :=
  ⟨diskVolume_fullReads bareDisk, by decide,
   hfs_attach_bare .little HFSVolume.zero (diskVolume bareDisk) 0 zeroMem zeroMem
     (diskVolume_fullReads bareDisk) (by decide)⟩


/-- Neither `hfs_read` nor `hfs_read_blocks` looks at the volume's offset. -/
theorem hfs_read_ignores_offset (m : Mem) (buffer : Option Nat) (h : HFSVolume)
    (n o x : Nat) (errno : Int) :
    hfs_read m buffer (some { h with offset := x }) n o errno
      = hfs_read m buffer (some h) n o errno ∧
    hfs_read_blocks m buffer (some { h with offset := x }) n o errno
      = hfs_read_blocks m buffer (some h) n o errno := by
  cases buffer <;> exact ⟨rfl, rfl⟩

set_option maxRecDepth 1000000 in
/-- C8, at the input where it fails: on the wrapped source `wrappedDisk`, whose
embedded volume starts at byte 1056768 and has the bytes 'H+' at
1056768 + 1024, a 2-byte `hfs_read` at offset 1024 through the volume that
`hfs_attach` returns delivers the wrapper's bytes 'BD' from source offset 1024;
and through a volume with origin 1056768 and block size 512, `hfs_read_blocks`
of block 2 delivers the 512 bytes at source offset 1024, which start with 'BD',
not the bytes at volume origin + 2 * 512, which start with 'H+'. -/
theorem hfs_read_not_relative_to_origin :
    (hfs_attach .little (some HFSVolume.zero) (some (diskVolume wrappedDisk)) 0
      zeroMem zeroMem).2.1.map HFSVolume.offset = some 1056768 ∧
    readBytes wrappedDisk (1056768 + 1024) 2 = [0x48, 0x2B] ∧
    (hfs_attach .little (some HFSVolume.zero) (some (diskVolume wrappedDisk)) 0
      zeroMem zeroMem).2.1.map
        (fun h => ((hfs_read zeroMem (some 0) (some h) 2 1024 0).1,
          readBytes (hfs_read zeroMem (some 0) (some h) 2 1024 0).2.1 0 2))
      = some (2, [0x42, 0x44]) ∧
    (hfs_read_blocks zeroMem (some 0) (some wrappedVolume) 1 2 0).1 = 1 ∧
    readBytes (hfs_read_blocks zeroMem (some 0) (some wrappedVolume) 1 2 0).2.1 0 2
      = [0x42, 0x44] ∧
    readBytes wrappedDisk (wrappedVolume.offset + 2 * wrappedVolume.block_size) 2
      = [0x48, 0x2B] := by
  decide

/-- C10: for each CNID in {3, 4, 6, 7, 8}, paired with its volume-header
descriptor (3 extentsFile, 4 catalogFile, 6 allocationFile, 7 startupFile,
8 attributesFile), when the extent-list construction succeeds with the list
`l`, `hfsfork_get_special` returns 0 and writes a fork whose fork data,
totalBlocks and logicalSize are those of that descriptor and whose cnid is the
requested CNID. -/
theorem hfsfork_get_special_ok (e : Endian) (getExtents : HFSFork → Option ExtentList)
    (slot : Option HFSFork) (h : HFSVolume) (errno : Int) (cnid off : Nat) (l : ExtentList)
    (hc : (cnid, off) ∈ [(3, HFSPlusVolumeHeader.extentsFile),
      (4, HFSPlusVolumeHeader.catalogFile), (6, HFSPlusVolumeHeader.allocationFile),
      (7, HFSPlusVolumeHeader.startupFile), (8, HFSPlusVolumeHeader.attributesFile)])
    (hext : getExtents (HFSFork.init h (HFSPlusForkData.value e h.vh off)
      .HFSDataForkType cnid) = some l) :
    ∃ f, hfsfork_get_special e getExtents (some slot) (some h) cnid errno
        = .returned (0, some (some f), errno) ∧
      f.forkData = HFSPlusForkData.value e h.vh off ∧
      f.totalBlocks = (HFSPlusForkData.value e h.vh off).totalBlocks ∧
      f.logicalSize = (HFSPlusForkData.value e h.vh off).logicalSize ∧
      f.cnid = cnid ∧ f.extents = l := by
  refine ⟨{ HFSFork.init h (HFSPlusForkData.value e h.vh off) .HFSDataForkType cnid with
    extents := l }, ?_, rfl, rfl, rfl, rfl, rfl⟩
  simp only [List.mem_cons, Prod.mk.injEq, List.mem_singleton, List.not_mem_nil, or_false] at hc
  rcases hc with ⟨rfl, rfl⟩ | ⟨rfl, rfl⟩ | ⟨rfl, rfl⟩ | ⟨rfl, rfl⟩ | ⟨rfl, rfl⟩ <;>
    simp [hfsfork_get_special, hfsfork_make, hext, kHFSExtentsFileID, kHFSCatalogFileID,
      kHFSBadBlockFileID, kHFSAllocationFileID, kHFSStartupFileID, kHFSAttributesFileID]

theorem hfsfork_get_special_ok_witness :
    ∃ f, hfsfork_get_special .little (fun _ => some []) (some none) (some wrappedVolume) 4 0
        = .returned (0, some (some f), 0) ∧
      f.forkData = HFSPlusForkData.value .little wrappedVolume.vh
        HFSPlusVolumeHeader.catalogFile ∧
      f.totalBlocks = (HFSPlusForkData.value .little wrappedVolume.vh
        HFSPlusVolumeHeader.catalogFile).totalBlocks ∧
      f.logicalSize = (HFSPlusForkData.value .little wrappedVolume.vh
        HFSPlusVolumeHeader.catalogFile).logicalSize ∧
      f.cnid = 4 ∧ f.extents = [] :=
  hfsfork_get_special_ok .little (fun _ => some []) none wrappedVolume 0 4
    HFSPlusVolumeHeader.catalogFile [] (by decide) rfl



/-! ## Fork layer: special forks and block reads -/

/-- Whenever `hfsfork_get_special` returns a negative result, the caller's fork
cell is as it was. -/
theorem hfsfork_get_special_failure_keeps_fork (e : Endian)
    (getExtents : HFSFork → Option ExtentList) (fork : Option (Option HFSFork))
    (hfs : Option HFSVolume) (cnid : Nat) (errno : Int) (r : Int)
    (fork' : Option (Option HFSFork)) (errno' : Int)
    (hret : hfsfork_get_special e getExtents fork hfs cnid errno = .returned (r, fork', errno'))
    (hneg : r < 0) : fork' = fork := by
  unfold hfsfork_get_special at hret
  cases fork with
  | none =>
    simp only [Outcome.returned.injEq, Prod.mk.injEq] at hret
    exact hret.2.1.symm
  | some slot =>
    cases hfs with
    | none =>
      simp only [Outcome.returned.injEq, Prod.mk.injEq] at hret
      exact hret.2.1.symm
    | some h =>
      simp only at hret
      split at hret
      · simp only [Outcome.returned.injEq, Prod.mk.injEq] at hret
        exact hret.2.1.symm
      · rename_i fd _
        simp only [hfsfork_make] at hret
        cases hg : getExtents (HFSFork.init h fd .HFSDataForkType cnid) with
        | none => simp [hg] at hret
        | some l =>
          simp [hg] at hret
          omega

/-- C11, what the code does: for CNID 5 and for every CNID outside
{3, 4, 6, 7, 8} `hfsfork_get_special` returns -1 and leaves the caller's fork
cell as it was, but it also leaves `errno` as it was: the failure is not
reported as invalid-argument (`EINVAL`), which the same function does set for a
null `fork` or `hfs`. -/
theorem hfsfork_get_special_bad_cnid (e : Endian) (getExtents : HFSFork → Option ExtentList)
    (slot : Option HFSFork) (h : HFSVolume) (cnid : Nat) (errno : Int)
    (hc : cnid ∉ [3, 4, 6, 7, 8]) :
    hfsfork_get_special e getExtents (some slot) (some h) cnid errno
      = .returned (-1, some slot, errno) ∧
    hfsfork_get_special e getExtents none (some h) cnid errno
      = .returned (-1, none, EINVAL) := by
  simp only [List.mem_cons, List.mem_singleton, List.not_mem_nil, or_false, not_or] at hc
  obtain ⟨h3, h4, h6, h7, h8⟩ := hc
  simp [hfsfork_get_special, kHFSExtentsFileID, kHFSCatalogFileID, kHFSBadBlockFileID,
    kHFSAllocationFileID, kHFSStartupFileID, kHFSAttributesFileID, h3, h4, h6, h7, h8]

theorem hfsfork_get_special_bad_cnid_witness :
    99 ∉ [3, 4, 6, 7, 8] ∧
    (hfsfork_get_special .little (fun _ => some []) (some none) (some wrappedVolume) 99 0
      = .returned (-1, some none, 0) ∧
     hfsfork_get_special .little (fun _ => some []) none (some wrappedVolume) 99 0
      = .returned (-1, none, EINVAL)) ∧
    (0 : Int) ≠ EINVAL :=
  ⟨by decide, hfsfork_get_special_bad_cnid .little (fun _ => some []) none wrappedVolume 99 0
    (by decide), by decide⟩

/-- C12: for every fork and every request with start_block > total_blocks,
`hfs_read_fork` returns -1 without a call of `hfs_read_blocks`, without
entering its loop and with the caller's memory as it was, whether `buffer` is
null or not. -/
theorem hfs_read_fork_beyond_end (find : ExtentList → Nat → Option (Nat × Nat)) (m : Mem)
    (buffer : Option Nat) (f : HFSFork) (block_count start_block : Nat) (errno : Int)
    (h : f.totalBlocks < start_block) :
    (hfs_read_fork find m buffer (some f) block_count start_block errno).outcome
      = .returned (-1) ∧
    (hfs_read_fork find m buffer (some f) block_count start_block errno).reads = [] ∧
    (hfs_read_fork find m buffer (some f) block_count start_block errno).iterations = 0 ∧
    (hfs_read_fork find m buffer (some f) block_count start_block errno).buffer = m := by
  cases buffer with
  | none => exact ⟨rfl, rfl, rfl, rfl⟩
  | some buf =>
    simp only [hfs_read_fork, make_range]
    by_cases hc : block_count < 1
    · simp [hc]
    · simp [hc, h]

theorem hfs_read_fork_beyond_end_witness :
    (forkOf (volumeOn (diskVolume markedDisk) 512) twoExtents 2 1024).totalBlocks < 3 ∧
    (hfs_read_fork extentlist_find zeroMem (some 0)
      (some (forkOf (volumeOn (diskVolume markedDisk) 512) twoExtents 2 1024)) 1 3 0).outcome
      = .returned (-1) ∧
    (hfs_read_fork extentlist_find zeroMem (some 0)
      (some (forkOf (volumeOn (diskVolume markedDisk) 512) twoExtents 2 1024)) 1 3 0).reads
      = [] ∧
    (hfs_read_fork extentlist_find zeroMem (some 0)
      (some (forkOf (volumeOn (diskVolume markedDisk) 512) twoExtents 2 1024)) 1 3 0).iterations
      = 0 ∧
    (hfs_read_fork extentlist_find zeroMem (some 0)
      (some (forkOf (volumeOn (diskVolume markedDisk) 512) twoExtents 2 1024)) 1 3 0).buffer
      = zeroMem :=
  ⟨by decide, hfs_read_fork_beyond_end extentlist_find zeroMem (some 0)
    (forkOf (volumeOn (diskVolume markedDisk) 512) twoExtents 2 1024) 1 3 0 (by decide)⟩

theorem trimRequest_count (total sb bc : Nat) (hbc : 1 ≤ bc) :
    (trimRequest total (make_range sb bc)).count
      = if sb + bc ≤ total then bc else max (total - sb) 1 := by
  unfold trimRequest range_max make_range
  by_cases h : sb + bc ≤ total
  · have h' : ¬ (sb + bc - 1 ≥ total) := by omega
    simp [h, h']
  · have h' : sb + bc - 1 ≥ total := by omega
    simp [h, h']

/-- C13: every call of `hfs_read_fork` with block_count >= 1 and
start_block <= total_blocks that returns, returns the clamped request count:
block_count when start_block + block_count <= total_blocks, and
max(total_blocks - start_block, 1) otherwise.  The value depends on the three
numbers only, not on the volume, the extent list or what the device reads
delivered. -/
theorem hfs_read_fork_return (find : ExtentList → Nat → Option (Nat × Nat)) (m : Mem)
    (buf : Nat) (f : HFSFork) (block_count start_block : Nat) (errno : Int) (r : Int)
    (hbc : 1 ≤ block_count) (hsb : start_block ≤ f.totalBlocks)
    (hret : (hfs_read_fork find m (some buf) (some f) block_count start_block errno).outcome
      = .returned r) :
    r = if start_block + block_count ≤ f.totalBlocks then (block_count : Int)
      else ((max (f.totalBlocks - start_block) 1 : Nat) : Int) := by
  have hc : ¬ block_count < 1 := by omega
  have hs : ¬ f.totalBlocks < start_block := by omega
  simp only [hfs_read_fork, make_range, hc, hs, if_false, gt_iff_lt] at hret
  split at hret
  · cases hret
  · split at hret
    · simp only [Outcome.returned.injEq] at hret
      have ht := trimRequest_count f.totalBlocks start_block block_count hbc
      simp only [make_range] at ht
      rw [← hret, ht]
      split <;> rfl
    · cases hret

set_option maxRecDepth 1000000 in
theorem hfs_read_fork_return_witness :
    (1 ≤ 5 ∧ 0 ≤ (forkOf (volumeOn (diskVolume markedDisk) 512) twoExtents 2 1024).totalBlocks ∧
    (hfs_read_fork extentlist_find zeroMem (some 0)
      (some (forkOf (volumeOn (diskVolume markedDisk) 512) twoExtents 2 1024)) 5 0 0).outcome
      = .returned 2) ∧
    (2 : Int) = if 0 + 5 ≤ (forkOf (volumeOn (diskVolume markedDisk) 512) twoExtents 2
        1024).totalBlocks then ((5 : Nat) : Int)
      else ((max ((forkOf (volumeOn (diskVolume markedDisk) 512) twoExtents 2
        1024).totalBlocks - 0) 1 : Nat) : Int) :=
  ⟨by decide, hfs_read_fork_return extentlist_find zeroMem 0
    (forkOf (volumeOn (diskVolume markedDisk) 512) twoExtents 2 1024) 5 0 0 2 (by decide)
    (by decide) (by decide)⟩

set_option maxRecDepth 1000000 in
/-- C14, at the input where it fails: a fork of two one-block extents at
blocks 1 and 3 (total_blocks = 2, a well-formed list) on a volume whose
allocation blocks are 1024 bytes over a device of 512-byte blocks (ratio 2).
`hfs_read_fork(buf, 2, 0)` returns 2 after a single read, of block 1: the read
delivers 2 device blocks and the loop counts them as 2 allocation blocks.  At
ratio 1 the same fork is read extent by extent, (1,1) then (3,1). -/
theorem hfs_read_fork_ratio_two_reads_once :
    (hfs_read_fork extentlist_find zeroMem (some 0)
      (some (forkOf (volumeOn (diskVolume markedDisk) 1024) twoExtents 2 2048)) 2 0 0).outcome
      = .returned 2 ∧
    (hfs_read_fork extentlist_find zeroMem (some 0)
      (some (forkOf (volumeOn (diskVolume markedDisk) 1024) twoExtents 2 2048)) 2 0 0).reads
      = [(1, 1)] ∧
    twoExtents.map (fun x => (x.startBlock, x.blockCount)) = [(1, 1), (3, 1)] ∧
    (hfs_read_fork extentlist_find zeroMem (some 0)
      (some (forkOf (volumeOn (diskVolume markedDisk) 512) twoExtents 2 1024)) 2 0 0).reads
      = [(1, 1), (3, 1)] := by
  decide

set_option maxRecDepth 1000000 in
/-- C15, at the input where it fails: a fork of two one-block extents at
blocks 1 and 3 on a volume of 512-byte blocks (ratio 1); block 1 starts with
the byte AA and block 3 with BB.  `hfs_read_fork(buf, 2, 0)` returns 2, but
every run is read to the start of the scratch buffer: the caller's byte 0 is
BB, not AA, and byte 512 is 0, not BB. -/
theorem hfs_read_fork_overwrites_runs :
    (hfs_read_fork extentlist_find zeroMem (some 0)
      (some (forkOf (volumeOn (diskVolume markedDisk) 512) twoExtents 2 1024)) 2 0 0).outcome
      = .returned 2 ∧
    extentlist_find twoExtents 0 = some (1, 1) ∧ markedDisk (1 * 512) = 0xAA ∧
    extentlist_find twoExtents 1 = some (3, 1) ∧ markedDisk (3 * 512) = 0xBB ∧
    (hfs_read_fork extentlist_find zeroMem (some 0)
      (some (forkOf (volumeOn (diskVolume markedDisk) 512) twoExtents 2 1024)) 2 0 0).buffer 0
      = 0xBB ∧
    (hfs_read_fork extentlist_find zeroMem (some 0)
      (some (forkOf (volumeOn (diskVolume markedDisk) 512) twoExtents 2 1024)) 2 0 0).buffer 512
      = 0 := by
  decide

set_option maxRecDepth 1000000 in
/-- C17, at the input where it fails: block size 512, a fork of logical size
1024 whose logical byte 512 is the byte BB, offset 500 and size 100.  The claim
asks for ceil((500 mod 512 + 100) / 512) = 2 blocks; `hfs_read_fork_range`
asks `hfs_read_fork` for 1 block from block 0 and then copies 100 bytes from
scratch + 500, of which the last 88 lie beyond the 512 bytes read: the caller's
byte 12 is not the fork's byte 512. -/
theorem hfs_read_fork_range_reads_too_few :
    (500 % 512 + 100 + 512 - 1) / 512 = 2 ∧
    (hfs_read_fork_range extentlist_find zeroMem (some 0)
      (some (forkOf (volumeOn (diskVolume markedDisk) 512) twoExtents 2 1024)) 100 500 0).request
      = some (1, 0) ∧
    (hfs_read_fork_range extentlist_find zeroMem (some 0)
      (some (forkOf (volumeOn (diskVolume markedDisk) 512) twoExtents 2 1024)) 100 500 0).copied
      = some (500, 100) ∧
    1 * 512 < 500 + 100 ∧
    (hfs_read_fork_range extentlist_find zeroMem (some 0)
      (some (forkOf (volumeOn (diskVolume markedDisk) 512) twoExtents 2 1024)) 100 500 0).outcome
      = .returned 100 ∧
    extentlist_find twoExtents 1 = some (3, 1) ∧ markedDisk (3 * 512) = 0xBB ∧
    (hfs_read_fork_range extentlist_find zeroMem (some 0)
      (some (forkOf (volumeOn (diskVolume markedDisk) 512) twoExtents 2 1024)) 100 500 0).buffer
      12 = 0 := by
  decide

set_option maxRecDepth 1000000 in
/-- C18, at the input where it fails: on a little-endian host and a device of
512-byte blocks, an MBR entry of type AF with first_sector_lba = 8388608 and
sector_count = 2000 gives the region offset 0, where first_sector_lba *
block_size is 4294967296: the product of two 32-bit values is taken modulo
2^32.  The example of the spec (first_sector_lba = 40) gives 20,480 and
1,024,000. -/
theorem mbr_load_offset_wraps :
    MBRPartition.first_sector_lba.get .little
      (mbr_load_header (diskVolume farMbrDisk) zeroMem 0).2 MBR.partitions = 8388608 ∧
    mbr_load .little (diskVolume farMbrDisk)
      = (0, [{ index := 0, offset := 0, length := 1024000 }]) ∧
    8388608 * (diskVolume farMbrDisk).block_size = 4294967296 ∧
    mbr_load .little (diskVolume mbrDisk)
      = (0, [{ index := 0, offset := 20480, length := 1024000 }]) := by
  decide

set_option maxRecDepth 1000000 in
/-- C19, at the input where it fails: a fork of an extent of one block at
block 1 and an extent of two blocks at block 5 (ratio 1), and the request
(start 0, count 2).  After the first read one block is outstanding; the run
found is 2 blocks long and is capped with the whole request's count, 2, so the
second read asks for 2 blocks: the blocks requested sum to 3, the clamped
request count is 2. -/
theorem hfs_read_fork_caps_with_request :
    (hfs_read_fork extentlist_find zeroMem (some 0)
      (some (forkOf (volumeOn (diskVolume markedDisk) 512) oneThenTwo 3 1536)) 2 0 0).outcome
      = .returned 2 ∧
    (hfs_read_fork extentlist_find zeroMem (some 0)
      (some (forkOf (volumeOn (diskVolume markedDisk) 512) oneThenTwo 3 1536)) 2 0 0).reads
      = [(1, 1), (5, 2)] ∧
    ((readBody extentlist_find (forkOf (volumeOn (diskVolume markedDisk) 512) oneThenTwo 3 1536)
      (make_range 0 2)
      { remaining := make_range 0 2, read_buffer := zeroMem, loopCounter := 0, reads := [],
        errno := 0 }).state.remaining = { start := 1, count := 1 }) ∧
    extentlist_find oneThenTwo 1 = some (5, 2) ∧ min 2 1 = 1 ∧
    (([(1, 1), (5, 2)] : List (Nat × Nat)).map Prod.snd).sum = 3 := by
  decide

/-! ## The read loop -/

theorem readBody_loopCounter (find : ExtentList → Nat → Option (Nat × Nat)) (fork : HFSFork)
    (request : range) (s : ReadState) :
    (readBody find fork request s).state.loopCounter = s.loopCounter + 1 := by
  unfold readBody
  simp only []
  split
  · rfl
  · split
    · rfl
    · split
      · rfl
      · split <;> rfl

theorem readBody_next_bound (find : ExtentList → Nat → Option (Nat × Nat)) (fork : HFSFork)
    (request : range) (s : ReadState) (h : (readBody find fork request s).isNext = true) :
    s.loopCounter + 1 ≤ 2000 := by
  unfold readBody at h
  simp only [] at h
  split at h
  · cases h
  · omega

theorem readBody_count_le (find : ExtentList → Nat → Option (Nat × Nat)) (fork : HFSFork)
    (request : range) (s : ReadState) :
    (readBody find fork request s).state.remaining.count ≤ s.remaining.count := by
  unfold readBody
  simp only []
  split
  · exact Nat.le_refl _
  · split
    · exact Nat.le_refl _
    · split
      · exact Nat.le_refl _
      · split
        · exact Nat.le_refl _
        · exact Nat.sub_le _ _

theorem readBody_count_lt (find : ExtentList → Nat → Option (Nat × Nat)) (fork : HFSFork)
    (request : range) (s : ReadState) (hne : s.remaining.count ≠ 0)
    (hadv : s.remaining.start < (readBody find fork request s).state.remaining.start) :
    (readBody find fork request s).state.remaining.count < s.remaining.count := by
  unfold readBody at hadv ⊢
  simp only [] at hadv ⊢
  split at hadv
  · exact absurd hadv (Nat.lt_irrefl _)
  · split at hadv
    · exact absurd hadv (Nat.lt_irrefl _)
    · split at hadv
      · exact absurd hadv (Nat.lt_irrefl _)
      · split at hadv
        · exact absurd hadv (Nat.lt_irrefl _)
        · rename_i h1 _ _ h2 h3 h4
          simp only [h1, h3, h4, if_false, ReadStep.state] at hadv ⊢
          omega

/-- The loop keeps the fail-safe counter within 2001, and within 2000 when it
ends with nothing left to get. -/
theorem readLoop_counter (find : ExtentList → Nat → Option (Nat × Nat)) (fork : HFSFork)
    (request : range) (fuel : Nat) (s : ReadState) (hs : s.loopCounter ≤ 2000) :
    (readLoop find fork request fuel s).2.loopCounter ≤ 2001 ∧
    ((readLoop find fork request fuel s).1 = true →
      (readLoop find fork request fuel s).2.loopCounter ≤ 2000) := by
  induction fuel generalizing s with
  | zero => exact ⟨by simp only [readLoop]; omega, fun h => by simp [readLoop] at h⟩
  | succ n ih =>
    unfold readLoop
    by_cases hc : s.remaining.count = 0
    · simp only [hc, if_true]
      exact ⟨by omega, fun _ => hs⟩
    · simp only [hc, if_false]
      have hlc := readBody_loopCounter find fork request s
      have hnb := readBody_next_bound find fork request s
      cases hb : readBody find fork request s with
      | stop s' =>
        rw [hb] at hlc
        simp only [ReadStep.state] at hlc
        exact ⟨by simp only []; omega, fun h => by simp at h⟩
      | next s' =>
        rw [hb] at hlc hnb
        simp only [ReadStep.state] at hlc
        have := hnb rfl
        exact ih s' (by omega)

/-- The bound of 2001 passes is never what ends the loop: with the counter at
`c`, `2001 - c` passes are enough and more change nothing. -/
theorem readLoop_fuel (find : ExtentList → Nat → Option (Nat × Nat)) (fork : HFSFork)
    (request : range) (fuel : Nat) (s : ReadState) (hs : s.loopCounter ≤ 2000)
    (h : 2001 ≤ fuel + s.loopCounter) :
    readLoop find fork request (fuel + 1) s = readLoop find fork request fuel s := by
  induction fuel generalizing s with
  | zero => omega
  | succ n ih =>
    rw [readLoop, readLoop.eq_def find fork request (n + 1) s]
    by_cases hc : s.remaining.count = 0
    · simp only [hc, if_true]
    · simp only [hc, if_false]
      have hlc := readBody_loopCounter find fork request s
      have hnb := readBody_next_bound find fork request s
      cases hb : readBody find fork request s with
      | stop s' => rfl
      | next s' =>
        rw [hb] at hlc hnb
        simp only [ReadStep.state] at hlc
        have := hnb rfl
        exact ih s' (by omega) (by omega)

/-- The loop body is entered at most 2001 times, and the 2001st entry is the
fail-safe stopping the program. -/
theorem hfs_read_fork_iterations (find : ExtentList → Nat → Option (Nat × Nat)) (m : Mem)
    (buffer : Option Nat) (fork : Option HFSFork) (block_count start_block : Nat)
    (errno : Int) :
    (hfs_read_fork find m buffer fork block_count start_block errno).iterations ≤ 2001 ∧
    ((hfs_read_fork find m buffer fork block_count start_block errno).iterations = 2001 →
      (hfs_read_fork find m buffer fork block_count start_block errno).outcome = .aborted) := by
  unfold hfs_read_fork
  cases buffer with
  | none => exact ⟨by simp, fun h => by simp at h⟩
  | some buf =>
    cases fork with
    | none => exact ⟨by simp, fun h => by simp at h⟩
    | some f =>
      simp only []
      split
      · exact ⟨by simp, fun h => by simp at h⟩
      · split
        · exact ⟨by simp, fun h => by simp at h⟩
        · have hinv := readLoop_counter find f
            (trimRequest f.totalBlocks (make_range start_block block_count)) 2001
            { remaining := trimRequest f.totalBlocks (make_range start_block block_count),
              read_buffer := zeroMem, loopCounter := 0, reads := [], errno := errno }
            (by simp)
          split
          · exact ⟨by simp, fun h => by simp at h⟩
          · split
            · rename_i hr
              have := hinv.2 hr
              exact ⟨by simp only []; omega, fun h => by simp only [] at h; omega⟩
            · exact ⟨hinv.1, fun _ => rfl⟩

set_option maxRecDepth 1000000 in
set_option maxHeartbeats 4000000 in
theorem stuckFork_iterations :
    (hfs_read_fork extentlist_find zeroMem (some 0) (some stuckFork) 1 0 0).iterations
      = 2001 := by decide

/-- The size that `hfs_read_fork_range` settles on when the sum does not wrap. -/
theorem clamped_size (L size offset : Nat) (hno : offset + size < 2 ^ 64) (ho : offset ≤ L) :
    (if (offset + size) % 2 ^ 64 > L then L - offset else size) = min size (L - offset) := by
  rw [Nat.mod_eq_of_lt hno]
  split <;> omega

/-- A size below `2 ^ 63` is kept by the conversion to `ssize_t`. -/
theorem toInt64_natCast (n : Nat) (h : n < 2 ^ 63) : toInt64 (n : Int) = (n : Int) := by
  unfold toInt64
  omega

/-- When `hfs_read_fork_range` gets as far as its call of `hfs_read_fork`, with the
arguments `(bc, sb)`: the size `sz` it has settled on is at least 1 and below
`2 ^ 63`, and what the call leaves behind is decided by what `hfs_read_fork`
returns. -/
theorem hfs_read_fork_range_request (find : ExtentList → Nat → Option (Nat × Nat)) (m : Mem)
    (buf : Nat) (f : HFSFork) (size offset : Nat) (errno : Int) (bc sb : Nat)
    (hreq : (hfs_read_fork_range find m (some buf) (some f) size offset errno).request
      = some (bc, sb)) :
    ∃ sz : Nat, 1 ≤ sz ∧ sz < 2 ^ 63 ∧
      (if (offset + size) % 2 ^ 64 > f.logicalSize then f.logicalSize - offset else size)
        = sz ∧
      hfs_read_fork_range find m (some buf) (some f) size offset errno =
        { outcome :=
            match (hfs_read_fork find zeroMem (some 0) (some f) bc sb errno).outcome with
            | .aborted => .aborted
            | .returned _ => .returned (toInt64 sz),
          buffer :=
            match (hfs_read_fork find zeroMem (some 0) (some f) bc sb errno).outcome with
            | .aborted => m
            | .returned read_blocks =>
              if read_blocks ≠ 0 then
                memcpy m buf (hfs_read_fork find zeroMem (some 0) (some f) bc sb errno).buffer
                  (offset % f.hfs.block_size) sz
              else m,
          request := some (bc, sb),
          copied :=
            match (hfs_read_fork find zeroMem (some 0) (some f) bc sb errno).outcome with
            | .aborted => none
            | .returned read_blocks =>
              if read_blocks ≠ 0 then some (offset % f.hfs.block_size, sz) else none,
          errno := (hfs_read_fork find zeroMem (some 0) (some f) bc sb errno).errno } := by
  unfold hfs_read_fork_range at hreq ⊢
  dsimp only at hreq ⊢
  by_cases hgt : offset > f.logicalSize
  · rw [if_pos hgt] at hreq
    exact Option.noConfusion hreq
  · simp only [hgt, if_false] at hreq ⊢
    generalize (if (offset + size) % 2 ^ 64 > f.logicalSize then f.logicalSize - offset
      else size) = sz at hreq ⊢
    by_cases hz : sz < 1
    · rw [if_pos hz] at hreq
      exact Option.noConfusion hreq
    · by_cases hb : f.hfs.block_size = 0
      · rw [if_neg hz, if_pos hb] at hreq
        exact Option.noConfusion hreq
      · by_cases hbig : 2 ^ 63 ≤ sz
        · rw [if_neg hz, if_neg hb, if_pos hbig] at hreq
          exact Option.noConfusion hreq
        · rw [if_neg hz, if_neg hb, if_neg hbig] at hreq ⊢
          generalize (sz / f.hfs.block_size +
            (if ((offset + sz) % 2 ^ 64) % f.hfs.block_size ≠ 0 then 1 else 0)) = bc' at hreq ⊢
          by_cases ha : INIT_BUFFER ((bc' * f.hfs.block_size) % 2 ^ 64) = false
          · rw [if_pos ha] at hreq
            exact Option.noConfusion hreq
          · rw [if_neg ha] at hreq ⊢
            simp only [Option.some.injEq, Prod.mk.injEq] at hreq
            obtain ⟨h1, h2⟩ := hreq
            subst h1
            subst h2
            exact ⟨sz, by omega, by omega, rfl, rfl⟩

/-- What holds of the result of `hfs_read_fork_range` for every fork, offset and
size whose sum offset + size does not wrap in `size_t`: 0 is returned when
offset >= logical_size; otherwise the call returns
min(size, logical_size - offset) whenever it returns, and it returns whenever
the `hfs_read_fork` call it makes does. -/
theorem hfs_read_fork_range_result (find : ExtentList → Nat → Option (Nat × Nat)) (m : Mem)
    (buf : Nat) (f : HFSFork) (size offset : Nat) (errno : Int)
    (hno : offset + size < 2 ^ 64) :
    (f.logicalSize ≤ offset →
      (hfs_read_fork_range find m (some buf) (some f) size offset errno).outcome
        = .returned 0) ∧
    (offset < f.logicalSize →
      (hfs_read_fork_range find m (some buf) (some f) size offset errno).outcome
          = .returned ((min size (f.logicalSize - offset) : Nat) : Int) ∨
      (hfs_read_fork_range find m (some buf) (some f) size offset errno).outcome
          = .aborted) ∧
    (offset < f.logicalSize → ∀ bc sb rb,
      (hfs_read_fork_range find m (some buf) (some f) size offset errno).request
          = some (bc, sb) →
      (hfs_read_fork find zeroMem (some 0) (some f) bc sb errno).outcome = .returned rb →
      (hfs_read_fork_range find m (some buf) (some f) size offset errno).outcome
          = .returned ((min size (f.logicalSize - offset) : Nat) : Int)) := by
  refine ⟨fun hge => ?_, fun hlt => ?_, fun hlt bc sb rb hreq hrd => ?_⟩
  · unfold hfs_read_fork_range
    by_cases hgt : offset > f.logicalSize
    · simp [hgt]
    · have heq : offset = f.logicalSize := by omega
      have hc := clamped_size f.logicalSize size offset hno (by omega)
      simp only [hgt, if_false, hc]
      have hz : min size (f.logicalSize - offset) < 1 := by omega
      simp [hz]
  · have hc := clamped_size f.logicalSize size offset hno (by omega)
    cases hq : (hfs_read_fork_range find m (some buf) (some f) size offset errno).request with
    | none =>
      unfold hfs_read_fork_range at hq ⊢
      dsimp only at hq ⊢
      have hgt : ¬ offset > f.logicalSize := by omega
      rw [if_neg hgt, hc] at hq ⊢
      by_cases hz : min size (f.logicalSize - offset) < 1
      · left
        have h0 : min size (f.logicalSize - offset) = 0 := by omega
        rw [if_pos hz, h0]
        rfl
      · right
        rw [if_neg hz] at hq ⊢
        by_cases hb : f.hfs.block_size = 0
        · rw [if_pos hb]
        · rw [if_neg hb] at hq ⊢
          by_cases hbig : 2 ^ 63 ≤ min size (f.logicalSize - offset)
          · rw [if_pos hbig]
          · rw [if_neg hbig] at hq ⊢
            generalize (min size (f.logicalSize - offset) / f.hfs.block_size +
              (if ((offset + min size (f.logicalSize - offset)) % 2 ^ 64) % f.hfs.block_size ≠ 0
                then 1 else 0)) = bc at hq ⊢
            by_cases ha : INIT_BUFFER ((bc * f.hfs.block_size) % 2 ^ 64) = false
            · rw [if_pos ha]
            · rw [if_neg ha] at hq
              exact Option.noConfusion hq
    | some q =>
      obtain ⟨bc, sb⟩ := q
      obtain ⟨sz, _, h2, hsz, heq⟩ :=
        hfs_read_fork_range_request find m buf f size offset errno bc sb hq
      rw [heq, ← hc, hsz]
      cases hrd : (hfs_read_fork find zeroMem (some 0) (some f) bc sb errno).outcome with
      | aborted => right; rfl
      | returned rb =>
        left
        show Outcome.returned (toInt64 (sz : Int)) = _
        rw [toInt64_natCast sz h2]
  · have hc := clamped_size f.logicalSize size offset hno (by omega)
    obtain ⟨sz, _, h2, hsz, heq⟩ :=
      hfs_read_fork_range_request find m buf f size offset errno bc sb hreq
    rw [heq, ← hc, hsz]
    dsimp only
    rw [hrd]
    show Outcome.returned (toInt64 (sz : Int)) = _
    rw [toInt64_natCast sz h2]

set_option maxRecDepth 1000000 in
theorem hfs_read_fork_range_result_witness :
    (0 + 2000 < 2 ^ 64 ∧
     0 < (forkOf (volumeOn (diskVolume markedDisk) 512) twoExtents 2 1024).logicalSize) ∧
    ((hfs_read_fork_range extentlist_find zeroMem (some 0)
        (some (forkOf (volumeOn (diskVolume markedDisk) 512) twoExtents 2 1024))
        2000 0 0).request = some (2, 0) ∧
     (hfs_read_fork extentlist_find zeroMem (some 0)
        (some (forkOf (volumeOn (diskVolume markedDisk) 512) twoExtents 2 1024))
        2 0 0).outcome = .returned 2) ∧
    (hfs_read_fork_range extentlist_find zeroMem (some 0)
        (some (forkOf (volumeOn (diskVolume markedDisk) 512) twoExtents 2 1024))
        2000 0 0).outcome = .returned 1024 :=
  ⟨by decide, by decide,
   (hfs_read_fork_range_result extentlist_find zeroMem 0
      (forkOf (volumeOn (diskVolume markedDisk) 512) twoExtents 2 1024) 2000 0 0
      (by decide)).2.2 (by decide) 2 0 2 (by decide) (by decide)⟩


/-- C16, what the code does where the sum offset + size wraps in `size_t`: for
every fork, a request at offset = logical_size whose size is a `size_t` value
with offset + size >= 2 ^ 64 is not answered with 0.  The wrapped sum is below
logical_size, the clamp is skipped and the size is kept: the call stops, or it
returns the size; it stops whenever the size is `2 ^ 63` or more. -/
theorem hfs_read_fork_range_sum_wraps (find : ExtentList → Nat → Option (Nat × Nat))
    (m : Mem) (buf : Nat) (f : HFSFork) (size offset : Nat) (errno : Int)
    (hoff : offset = f.logicalSize) (ho : offset < 2 ^ 64) (hs : size < 2 ^ 64)
    (hw : 2 ^ 64 ≤ offset + size) :
    (hfs_read_fork_range find m (some buf) (some f) size offset errno).outcome
      ≠ .returned 0 ∧
    ((hfs_read_fork_range find m (some buf) (some f) size offset errno).outcome = .aborted ∨
     (hfs_read_fork_range find m (some buf) (some f) size offset errno).outcome
      = .returned (size : Int)) ∧
    (2 ^ 63 ≤ size →
      (hfs_read_fork_range find m (some buf) (some f) size offset errno).outcome
        = .aborted) := by
  have key :
      ((hfs_read_fork_range find m (some buf) (some f) size offset errno).outcome = .aborted ∨
       (hfs_read_fork_range find m (some buf) (some f) size offset errno).outcome
        = .returned (size : Int)) ∧
      (2 ^ 63 ≤ size →
        (hfs_read_fork_range find m (some buf) (some f) size offset errno).outcome
          = .aborted) := by
    unfold hfs_read_fork_range
    dsimp only
    have hgt : ¬ offset > f.logicalSize := by omega
    have hsum : ¬ (offset + size) % 2 ^ 64 > f.logicalSize := by omega
    have hz : ¬ size < 1 := by omega
    rw [if_neg hgt, if_neg hsum, if_neg hz]
    by_cases hb : f.hfs.block_size = 0
    · rw [if_pos hb]
      exact ⟨Or.inl rfl, fun _ => rfl⟩
    · rw [if_neg hb]
      by_cases hbig : 2 ^ 63 ≤ size
      · rw [if_pos hbig]
        exact ⟨Or.inl rfl, fun _ => rfl⟩
      · rw [if_neg hbig]
        generalize (size / f.hfs.block_size +
          (if ((offset + size) % 2 ^ 64) % f.hfs.block_size ≠ 0 then 1 else 0)) = bc
        by_cases ha : INIT_BUFFER ((bc * f.hfs.block_size) % 2 ^ 64) = false
        · rw [if_pos ha]
          exact ⟨Or.inl rfl, fun _ => rfl⟩
        · rw [if_neg ha]
          refine ⟨?_, fun h => absurd h hbig⟩
          cases hrd : (hfs_read_fork find zeroMem (some 0) (some f) bc
              (offset / f.hfs.block_size) errno).outcome with
          | aborted =>
            left
            dsimp only
          | returned rb =>
            right
            dsimp only
            rw [toInt64_natCast size (by omega)]
  refine ⟨?_, key.1, key.2⟩
  rcases key.1 with h | h
  · rw [h]
    exact fun h' => Outcome.noConfusion h'
  · rw [h]
    intro h'
    have := Outcome.returned.inj h'
    omega

set_option maxRecDepth 1000000 in
/-- A fork of two blocks of 512 bytes and logical size 1024, offset 1024 and
size 2 ^ 64 - 1024: the sum offset + size wraps to 0, and the call does not
return 0 but stops. -/
theorem hfs_read_fork_range_sum_wraps_witness :
    (1024 = (forkOf (volumeOn (diskVolume markedDisk) 512) twoExtents 2 1024).logicalSize ∧
     1024 < 2 ^ 64 ∧ 18446744073709550592 < 2 ^ 64 ∧
     2 ^ 64 ≤ 1024 + 18446744073709550592 ∧ 2 ^ 63 ≤ 18446744073709550592) ∧
    (1024 + 18446744073709550592) % 2 ^ 64 = 0 ∧
    (hfs_read_fork_range extentlist_find zeroMem (some 0)
        (some (forkOf (volumeOn (diskVolume markedDisk) 512) twoExtents 2 1024))
        18446744073709550592 1024 0).outcome ≠ .returned 0 ∧
    (hfs_read_fork_range extentlist_find zeroMem (some 0)
        (some (forkOf (volumeOn (diskVolume markedDisk) 512) twoExtents 2 1024))
        18446744073709550592 1024 0).outcome = .aborted :=
  ⟨by decide, by decide,
   (hfs_read_fork_range_sum_wraps extentlist_find zeroMem 0
      (forkOf (volumeOn (diskVolume markedDisk) 512) twoExtents 2 1024)
      18446744073709550592 1024 0 (by decide) (by decide) (by decide) (by decide)).1,
   (hfs_read_fork_range_sum_wraps extentlist_find zeroMem 0
      (forkOf (volumeOn (diskVolume markedDisk) 512) twoExtents 2 1024)
      18446744073709550592 1024 0 (by decide) (by decide) (by decide) (by decide)).2.2
      (by decide)⟩

set_option maxRecDepth 1000000 in
/-- The same request evaluated: the call stops, where the claim has it return
0; and at offset 1 with size 2 ^ 64 - 1 on the same fork, where the claim has
1023 returned after a successful read, the call stops as well. -/
theorem hfs_read_fork_range_sum_wraps_example :
    (hfs_read_fork_range extentlist_find zeroMem (some 0)
        (some (forkOf (volumeOn (diskVolume markedDisk) 512) twoExtents 2 1024))
        18446744073709550592 1024 0).outcome = .aborted ∧
    (hfs_read_fork_range extentlist_find zeroMem (some 0)
        (some (forkOf (volumeOn (diskVolume markedDisk) 512) twoExtents 2 1024))
        18446744073709551615 1 0).outcome = .aborted := by
  decide

/-! ## Whole-fork reads at ratio 1 -/

theorem hfs_read_blocks_ratio_one (m : Mem) (h : HFSVolume) (v : Volume) (c s : Nat)
    (errno : Int) (hv : h.vol = some v) (hb : h.block_size = v.block_size)
    (hpos : 0 < v.block_size) (hreads : AlwaysReads v)
    (hc : c < 2 ^ 64) :
    (hfs_read_blocks m (some 0) (some h) c s errno).1 = (c : Int) ∧
    (hfs_read_blocks m (some 0) (some h) c s errno).2.2 = errno := by
  have hratio : h.block_size / v.block_size % 2 ^ 32 = 1 := by
    rw [hb, Nat.div_self hpos]
    rfl
  obtain ⟨bs, hbs, hlen⟩ := hreads (c * v.block_size) (s % 2 ^ 64 * v.block_size)
  have htake : (bs.take (c * v.block_size)).length = c * v.block_size := by
    rw [List.length_take, hlen, Nat.min_self]
  simp only [hfs_read_blocks, hv, hratio, Nat.mul_one, Nat.mod_eq_of_lt hc, vol_read_blocks,
    hbs, htake, Nat.mul_div_cancel _ hpos, and_self]

theorem extentlist_find_skip (pre rest : ExtentList) (L : Nat)
    (hpre : ∀ y ∈ pre, y.logicalStart + y.blockCount ≤ L) :
    extentlist_find (pre ++ rest) L = extentlist_find rest L := by
  induction pre with
  | nil => rfl
  | cons y ys ih =>
    have hy := hpre y (List.mem_cons_self _ _)
    have hn : (decide (y.logicalStart ≤ L) && decide (L < y.logicalStart + y.blockCount))
        = false := by
      simp only [Bool.and_eq_false_iff, decide_eq_false_iff_not]
      omega
    have ih' := ih fun z hz => hpre z (List.mem_cons_of_mem _ hz)
    unfold extentlist_find at ih' ⊢
    simp only [List.cons_append, List.find?_cons, hn]
    exact ih'

theorem extentlist_find_head (x : Extent) (xs : ExtentList) (hx : 1 ≤ x.blockCount) :
    extentlist_find (x :: xs) x.logicalStart = some (x.startBlock, x.blockCount) := by
  have hn : (decide (x.logicalStart ≤ x.logicalStart) &&
      decide (x.logicalStart < x.logicalStart + x.blockCount)) = true := by
    simp only [Bool.and_eq_true, decide_eq_true_eq]
    omega
  simp only [extentlist_find, List.find?_cons, hn, Nat.sub_self, Nat.add_zero, Nat.sub_zero]


/-- One pass of the loop body at ratio 1 on a source that always reads: the
run found is read whole and taken off what is left. -/
theorem readBody_ratio_one (f : HFSFork) (v : Volume) (request : range) (s : ReadState)
    (sb bc : Nat) (hv : f.hfs.vol = some v) (hb : f.hfs.block_size = v.block_size)
    (hpos : 0 < v.block_size) (hreads : AlwaysReads v)
    (hfind : extentlist_find f.extents s.remaining.start = some (sb, bc))
    (hbc : 1 ≤ bc) (hle : bc ≤ request.count) (hlt : bc < 2 ^ 64)
    (hlc : s.loopCounter + 1 ≤ 2000) :
    ∃ s', readBody extentlist_find f request s = .next s' ∧
      s'.remaining = { start := s.remaining.start + bc,
                       count := s.remaining.count - min bc s.remaining.count } ∧
      s'.loopCounter = s.loopCounter + 1 ∧ s'.reads = s.reads ++ [(sb, bc)] := by
  obtain ⟨h1, _⟩ := hfs_read_blocks_ratio_one s.read_buffer f.hfs v bc sb s.errno hv hb hpos
    hreads hlt
  have hn : ¬ (s.loopCounter + 1 > 2000) := by omega
  have hz : ¬ (bc = 0) := by omega
  have hmin : min bc request.count = bc := Nat.min_eq_left hle
  have hnn : ¬ ((bc : Int) < 0) := by omega
  unfold readBody
  simp only [hn, if_false, hfind, hz, hmin, h1, hnn, Int.toNat_ofNat]
  exact ⟨_, rfl, rfl, rfl, rfl⟩

theorem readLoop_chain (f : HFSFork) (v : Volume) (request : range)
    (hv : f.hfs.vol = some v) (hb : f.hfs.block_size = v.block_size)
    (hpos : 0 < v.block_size) (hreads : AlwaysReads v) (hreq : request.count < 2 ^ 64)
    (rest : ExtentList) :
    ∀ (pre : ExtentList) (L : Nat) (s : ReadState) (fuel : Nat),
      f.extents = pre ++ rest →
      (∀ y ∈ pre, y.logicalStart + y.blockCount ≤ L) →
      extentsChain L rest = true →
      (∀ x ∈ rest, x.blockCount ≤ request.count) →
      s.remaining = { start := L, count := extentsTotal rest } →
      s.loopCounter + rest.length ≤ 2000 →
      rest.length < fuel →
      (readLoop extentlist_find f request fuel s).1 = true ∧
      (readLoop extentlist_find f request fuel s).2.reads
        = s.reads ++ rest.map (fun x => (x.startBlock, x.blockCount)) ∧
      (readLoop extentlist_find f request fuel s).2.loopCounter
        = s.loopCounter + rest.length := by
  induction rest with
  | nil =>
    intro pre L s fuel _ _ _ _ hrem _ hfuel
    obtain ⟨n, rfl⟩ : ∃ n, fuel = n + 1 := ⟨fuel - 1, by simp at hfuel; omega⟩
    have hc : s.remaining.count = 0 := by rw [hrem]; rfl
    simp [readLoop, hc]
  | cons x xs ih =>
    intro pre L s fuel hext hpre hchain hcap hrem hlc hfuel
    obtain ⟨n, rfl⟩ : ∃ n, fuel = n + 1 := ⟨fuel - 1, by simp at hfuel; omega⟩
    simp only [extentsChain, Bool.and_eq_true, decide_eq_true_eq] at hchain
    obtain ⟨⟨hxl, hxb⟩, hrestchain⟩ := hchain
    have htot : extentsTotal (x :: xs) = x.blockCount + extentsTotal xs := by
      simp [extentsTotal]
    have hc : ¬ (s.remaining.count = 0) := by rw [hrem, htot]; simp only []; omega
    have hxcap := hcap x (List.mem_cons_self _ _)
    have hstart : s.remaining.start = x.logicalStart := by rw [hrem, hxl]
    have hfind : extentlist_find f.extents s.remaining.start
        = some (x.startBlock, x.blockCount) := by
      rw [hext, hstart, extentlist_find_skip pre (x :: xs) x.logicalStart
        (fun y hy => by rw [hxl]; exact hpre y hy), extentlist_find_head x xs hxb]
    simp only [List.length_cons] at hlc hfuel
    obtain ⟨s', hbody, hrem', hlc', hreads'⟩ := readBody_ratio_one f v request s x.startBlock
      x.blockCount hv hb hpos hreads hfind hxb hxcap (by omega) (by omega)
    rw [readLoop]
    simp only [hc, if_false, hbody]
    have hrem'' : s'.remaining = { start := L + x.blockCount, count := extentsTotal xs } := by
      rw [hrem', hrem, htot]
      simp only [range.mk.injEq, true_and]
      omega
    have hpre' : ∀ y ∈ pre ++ [x], y.logicalStart + y.blockCount ≤ L + x.blockCount := by
      intro y hy
      rcases List.mem_append.mp hy with hy | hy
      · have := hpre y hy
        omega
      · rw [List.mem_singleton.mp hy, hxl]
    obtain ⟨r1, r2, r3⟩ := ih (pre ++ [x]) (L + x.blockCount) s' n
      (by rw [hext]; simp) hpre' hrestchain
      (fun y hy => hcap y (List.mem_cons_of_mem _ hy)) hrem'' (by omega) (by omega)
    refine ⟨r1, ?_, ?_⟩
    · rw [r2, hreads']
      simp
    · rw [r3, hlc', List.length_cons]
      omega


theorem extentsChain_count_le (l : ExtentList) (L : Nat) (x : Extent) (hx : x ∈ l) :
    x.blockCount ≤ extentsTotal l := by
  induction l generalizing L with
  | nil => cases hx
  | cons y ys ih =>
    have htot : extentsTotal (y :: ys) = y.blockCount + extentsTotal ys := by
      simp [extentsTotal]
    rcases List.mem_cons.mp hx with h | h
    · rw [htot, h]; omega
    · have := ih (L + y.blockCount) h
      omega

/-- At ratio 1, on a source that always reads, reading a whole fork whose
extent list is a gapless chain of at most 2000 non-empty extents from logical
block 0 (and for which the scratch buffer is allocated) issues one read per
entry, in list order, of that entry's block count at that entry's start
block, and returns total_blocks. -/
theorem hfs_read_fork_whole_ratio_one (m : Mem) (buf : Nat) (f : HFSFork) (v : Volume)
    (errno : Int) (hv : f.hfs.vol = some v) (hb : f.hfs.block_size = v.block_size)
    (hpos : 0 < v.block_size) (hreads : AlwaysReads v)
    (hchain : extentsChain 0 f.extents = true)
    (htotal : f.totalBlocks = extentsTotal f.extents) (hne : 1 ≤ f.totalBlocks)
    (hlt : f.totalBlocks < 2 ^ 64) (hlen : f.extents.length ≤ 2000)
    (halloc : INIT_BUFFER ((f.totalBlocks * f.hfs.block_size) % 2 ^ 64) = true) :
    (hfs_read_fork extentlist_find m (some buf) (some f) f.totalBlocks 0 errno).outcome
      = .returned f.totalBlocks ∧
    (hfs_read_fork extentlist_find m (some buf) (some f) f.totalBlocks 0 errno).reads
      = f.extents.map (fun x => (x.startBlock, x.blockCount)) := by
  have hc : ¬ f.totalBlocks < 1 := by omega
  have hs : ¬ (0 > f.totalBlocks) := by omega
  have htrim : trimRequest f.totalBlocks { start := 0, count := f.totalBlocks }
      = { start := 0, count := f.totalBlocks } := by
    unfold trimRequest range_max
    split
    · simp only [range.mk.injEq, true_and]
      omega
    · rfl
  obtain ⟨r1, r2, _⟩ := readLoop_chain f v { start := 0, count := f.totalBlocks } hv hb hpos
    hreads hlt f.extents [] 0
    { remaining := { start := 0, count := f.totalBlocks }, read_buffer := zeroMem,
      loopCounter := 0, reads := [], errno := errno } 2001 rfl
    (fun y hy => by cases hy) hchain
    (fun x hx => by
      show x.blockCount ≤ f.totalBlocks
      rw [htotal]
      exact extentsChain_count_le f.extents 0 x hx)
    (by rw [htotal]) (by simp only []; omega) (by omega)
  have hgt : ¬ (f.totalBlocks < 0) := by omega
  simp only [hfs_read_fork, make_range, hc, hgt, gt_iff_lt, if_false, htrim, halloc,
    Bool.true_eq_false, r1, if_true, r2, List.nil_append, and_self]

theorem diskVolume_alwaysReads (content : Nat → Byte) : AlwaysReads (diskVolume content) :=
  fun n o => ⟨readBytes content o n, rfl, readBytes_length content o n⟩

/-- The scenario S5 of the spec at ratio 1: three reads, (100,10), (500,5) and
(200,3), in that order, and the result 18. -/
theorem hfs_read_fork_fragmented_example :
    (hfs_read_fork extentlist_find zeroMem (some 0)
      (some (forkOf (volumeOn (diskVolume markedDisk) 512) fragmentedExtents 18 9216))
      18 0 0).outcome = .returned 18 ∧
    (hfs_read_fork extentlist_find zeroMem (some 0)
      (some (forkOf (volumeOn (diskVolume markedDisk) 512) fragmentedExtents 18 9216))
      18 0 0).reads = [(100, 10), (500, 5), (200, 3)] :=
  hfs_read_fork_whole_ratio_one zeroMem 0
    (forkOf (volumeOn (diskVolume markedDisk) 512) fragmentedExtents 18 9216)
    (diskVolume markedDisk) 0 rfl rfl (by decide) (diskVolume_alwaysReads markedDisk)
    (by decide) (by decide) (by decide) (by decide) (by decide) (by decide)

/-! ## The read loop: progress and the fail-safe -/

/-- What a pass through the loop body does to `remaining`: it moves the start
on by some number `b` of blocks and takes as many off the count, as far as the
count goes. -/
theorem readBody_remaining (find : ExtentList → Nat → Option (Nat × Nat)) (fork : HFSFork)
    (request : range) (s : ReadState) :
    ∃ b : Nat, (readBody find fork request s).state.remaining =
      { start := s.remaining.start + b,
        count := s.remaining.count - min b s.remaining.count } := by
  unfold readBody
  simp only []
  split
  · exact ⟨0, by simp [ReadStep.state]⟩
  · split
    · exact ⟨0, by simp [ReadStep.state]⟩
    · split
      · exact ⟨0, by simp [ReadStep.state]⟩
      · split
        · exact ⟨0, by simp [ReadStep.state]⟩
        · exact ⟨_, rfl⟩

/-- A pass that leaves `remaining.start` where it was leaves `remaining.count`
where it was. -/
theorem readBody_count_same (find : ExtentList → Nat → Option (Nat × Nat)) (fork : HFSFork)
    (request : range) (s : ReadState)
    (hsame : (readBody find fork request s).state.remaining.start = s.remaining.start) :
    (readBody find fork request s).state.remaining.count = s.remaining.count := by
  obtain ⟨b, hb⟩ := readBody_remaining find fork request s
  rw [hb] at hsame ⊢
  simp only [] at hsame ⊢
  have h0 : b = 0 := by omega
  subst h0
  simp

/-- The fail-safe itself: entered with the counter at 2000 or more, the loop
body stops the program before it looks up or reads anything. -/
theorem readBody_failsafe (find : ExtentList → Nat → Option (Nat × Nat)) (fork : HFSFork)
    (request : range) (s : ReadState) (h : 2000 ≤ s.loopCounter) :
    readBody find fork request s = .stop { s with loopCounter := s.loopCounter + 1 } := by
  unfold readBody
  have hg : s.loopCounter + 1 > 2000 := by omega
  simp only [hg, if_true]

/-- A pass through the loop body makes at most one call of `hfs_read_blocks`. -/
theorem readBody_reads (find : ExtentList → Nat → Option (Nat × Nat)) (fork : HFSFork)
    (request : range) (s : ReadState) :
    (readBody find fork request s).state.reads.length ≤ s.reads.length + 1 := by
  unfold readBody
  simp only []
  split
  · simp [ReadStep.state]
  · split
    · simp [ReadStep.state]
    · split
      · simp [ReadStep.state]
      · split <;> simp [ReadStep.state]

/-- The loop makes at most 2000 calls of `hfs_read_blocks`, however many
passes it is allowed. -/
theorem readLoop_reads (find : ExtentList → Nat → Option (Nat × Nat)) (fork : HFSFork)
    (request : range) (fuel : Nat) (s : ReadState) (hr : s.reads.length ≤ s.loopCounter)
    (hs : s.loopCounter ≤ 2000) :
    (readLoop find fork request fuel s).2.reads.length ≤ 2000 := by
  induction fuel generalizing s with
  | zero => simp only [readLoop]; omega
  | succ n ih =>
    unfold readLoop
    by_cases hc : s.remaining.count = 0
    · simp only [hc, if_true]
      omega
    · simp only [hc, if_false]
      have hlc := readBody_loopCounter find fork request s
      have hnb := readBody_next_bound find fork request s
      have hrd := readBody_reads find fork request s
      cases hb : readBody find fork request s with
      | stop s' =>
        by_cases hg : 2000 ≤ s.loopCounter
        · rw [readBody_failsafe find fork request s hg] at hb
          cases hb
          simp only []
          omega
        · rw [hb] at hrd
          simp only [ReadStep.state] at hrd
          simp only []
          omega
      | next s' =>
        rw [hb] at hlc hnb hrd
        simp only [ReadStep.state] at hlc hrd
        have := hnb rfl
        exact ih s' (by omega) (by omega)

/-- Any number of passes beyond 2001 changes nothing: from a counter of 0 the
loop has ended, by itself or in the fail-safe, within 2001 passes. -/
theorem readLoop_fuel_add (find : ExtentList → Nat → Option (Nat × Nat)) (fork : HFSFork)
    (request : range) (s : ReadState) (hs : s.loopCounter = 0) (n : Nat) :
    readLoop find fork request (2001 + n) s = readLoop find fork request 2001 s := by
  induction n with
  | zero => rfl
  | succ k ih =>
    rw [← ih]
    exact readLoop_fuel find fork request (2001 + k) s (by omega) (by omega)

/-- A pass that ends back at the loop condition has taken at least one block
off what is left, when every run found is non-empty and no read delivers 0
blocks. -/
theorem readBody_progress (find : ExtentList → Nat → Option (Nat × Nat)) (fork : HFSFork)
    (request : range) (s : ReadState) (hreq : 1 ≤ request.count)
    (hne : s.remaining.count ≠ 0)
    (hfind : ∀ L r, find fork.extents L = some r → 1 ≤ r.2)
    (hread : ∀ mem c sb en, 1 ≤ c → c ≤ request.count →
      (hfs_read_blocks mem (some 0) (some fork.hfs) c sb en).1 ≠ 0)
    (hnext : (readBody find fork request s).isNext = true) :
    (readBody find fork request s).state.remaining.count < s.remaining.count := by
  unfold readBody at hnext ⊢
  simp only [] at hnext ⊢
  by_cases hg : s.loopCounter + 1 > 2000
  · simp only [hg, if_true, ReadStep.isNext] at hnext
    cases hnext
  · simp only [hg, if_false] at hnext ⊢
    cases hf : find fork.extents s.remaining.start with
    | none =>
      simp only [hf, ReadStep.isNext] at hnext
      cases hnext
    | some rr =>
      have hrr := hfind _ _ hf
      have hz : ¬ rr.2 = 0 := by omega
      simp only [hf, hz, if_false] at hnext ⊢
      have hrd := hread s.read_buffer (min rr.2 request.count) rr.1 s.errno
        (by omega) (Nat.min_le_right _ _)
      by_cases hneg : (hfs_read_blocks s.read_buffer (some 0) (some fork.hfs)
          (min rr.2 request.count) rr.1 s.errno).1 < 0
      · simp only [hneg, if_true, ReadStep.isNext] at hnext
        cases hnext
      · simp only [hneg, if_false, ReadStep.state]
        omega

/-- When every run found is non-empty and no read delivers 0 blocks, the loop
adds at most `remaining.count` to the fail-safe counter. -/
theorem readLoop_bound (find : ExtentList → Nat → Option (Nat × Nat)) (fork : HFSFork)
    (request : range) (hreq : 1 ≤ request.count)
    (hfind : ∀ L r, find fork.extents L = some r → 1 ≤ r.2)
    (hread : ∀ mem c sb en, 1 ≤ c → c ≤ request.count →
      (hfs_read_blocks mem (some 0) (some fork.hfs) c sb en).1 ≠ 0)
    (fuel : Nat) (s : ReadState) :
    (readLoop find fork request fuel s).2.loopCounter ≤ s.loopCounter + s.remaining.count := by
  induction fuel generalizing s with
  | zero => simp only [readLoop]; omega
  | succ n ih =>
    unfold readLoop
    by_cases hc : s.remaining.count = 0
    · simp only [hc, if_true]
      omega
    · simp only [hc, if_false]
      have hlc := readBody_loopCounter find fork request s
      have hpr := readBody_progress find fork request s hreq hc hfind hread
      cases hb : readBody find fork request s with
      | stop s' =>
        rw [hb] at hlc
        simp only [ReadStep.state] at hlc
        simp only []
        omega
      | next s' =>
        rw [hb] at hlc hpr
        simp only [ReadStep.state, ReadStep.isNext] at hlc hpr
        have h1 := hpr trivial
        have h2 := ih s'
        show (readLoop find fork request n s').2.loopCounter ≤ _
        omega

/-- The request that passes the sanity checks of `hfs_read_fork` asks for at
least one block after the trim. -/
theorem trimRequest_count_pos (totalBlocks : Nat) (request : range) (h : ¬ request.count < 1) :
    1 ≤ (trimRequest totalBlocks request).count := by
  unfold trimRequest
  split
  · exact Nat.le_max_right _ _
  · omega

/-- The calls of `hfs_read_blocks` that `hfs_read_fork` makes are at most
2000. -/
theorem hfs_read_fork_reads (find : ExtentList → Nat → Option (Nat × Nat)) (m : Mem)
    (buffer : Option Nat) (fork : Option HFSFork) (block_count start_block : Nat)
    (errno : Int) :
    (hfs_read_fork find m buffer fork block_count start_block errno).reads.length ≤ 2000 := by
  unfold hfs_read_fork
  cases buffer with
  | none => simp
  | some buf =>
    cases fork with
    | none => simp
    | some f =>
      simp only []
      split
      · simp
      · split
        · simp
        · have hinv := readLoop_reads find f
            (trimRequest f.totalBlocks (make_range start_block block_count)) 2001
            { remaining := trimRequest f.totalBlocks (make_range start_block block_count),
              read_buffer := zeroMem, loopCounter := 0, reads := [], errno := errno }
            (by simp) (by simp)
          split
          · simp
          · split
            · exact hinv
            · exact hinv

/-- When every run found is non-empty and no read delivers 0 blocks, the loop
body of `hfs_read_fork` is entered at most as often as the trimmed request has
blocks. -/
theorem hfs_read_fork_bound (find : ExtentList → Nat → Option (Nat × Nat)) (m : Mem)
    (buffer : Option Nat) (f : HFSFork) (block_count start_block : Nat) (errno : Int)
    (hfind : ∀ L r, find f.extents L = some r → 1 ≤ r.2)
    (hread : ∀ mem c sb en, 1 ≤ c →
      c ≤ (trimRequest f.totalBlocks (make_range start_block block_count)).count →
      (hfs_read_blocks mem (some 0) (some f.hfs) c sb en).1 ≠ 0) :
    (hfs_read_fork find m buffer (some f) block_count start_block errno).iterations
      ≤ (trimRequest f.totalBlocks (make_range start_block block_count)).count := by
  unfold hfs_read_fork
  cases buffer with
  | none => simp
  | some buf =>
    simp only []
    split
    · simp
    · rename_i hcount
      split
      · simp
      · have hreq := trimRequest_count_pos f.totalBlocks (make_range start_block block_count) hcount
        have hinv := readLoop_bound find f
          (trimRequest f.totalBlocks (make_range start_block block_count)) hreq hfind hread 2001
          { remaining := trimRequest f.totalBlocks (make_range start_block block_count),
            read_buffer := zeroMem, loopCounter := 0, reads := [], errno := errno }
        simp only [Nat.zero_add] at hinv
        split
        · simp
        · split
          · exact hinv
          · exact hinv

/-- The run that `extentlist_find` returns is never empty. -/
theorem extentlist_find_run_pos (list : ExtentList) (L : Nat) (r : Nat × Nat)
    (h : extentlist_find list L = some r) : 1 ≤ r.2 := by
  unfold extentlist_find at h
  cases hf : list.find? (fun x =>
      decide (x.logicalStart ≤ L) && decide (L < x.logicalStart + x.blockCount)) with
  | none =>
    rw [hf] at h
    cases h
  | some x =>
    rw [hf] at h
    have hx := List.find?_some hf
    simp only [Bool.and_eq_true, decide_eq_true_eq] at hx
    simp only [Option.some.injEq] at h
    subst h
    simp only []
    omega

/-- C20 as stated fails: on a fork of one block whose source delivers no block
to a read, the request (start 0, count 1) passes the sanity checks, the first
pass through the loop body ends back at the loop condition with
remaining.count still 1, and the loop does not end after request.count = 1
passes: the body is entered 2001 times and the call stops in the fail-safe. -/
theorem read_loop_pass_without_progress :
    (readBody extentlist_find stuckFork (make_range 0 1) firstPass).isNext = true ∧
    (readBody extentlist_find stuckFork (make_range 0 1) firstPass).state.remaining.count
      = firstPass.remaining.count ∧
    firstPass.remaining.count = 1 ∧
    (hfs_read_fork extentlist_find zeroMem (some 0) (some stuckFork) 1 0 0).iterations
      = 2001 ∧
    (hfs_read_fork extentlist_find zeroMem (some 0) (some stuckFork) 1 0 0).outcome
      = .aborted :=
  ⟨by decide, by decide, rfl, stuckFork_iterations,
   (hfs_read_fork_iterations extentlist_find zeroMem (some 0) (some stuckFork) 1 0 0).2
     stuckFork_iterations⟩

/-- C20, amended.  For every fork, every request and every state of the loop
of `hfs_read_fork`: no pass through the loop body increases remaining.count; a
pass whose read delivers at least one block (it advances remaining.start)
strictly decreases it, and a pass that delivers none (remaining.start stays)
leaves it unchanged.  When every lookup in the extent list gives a non-empty
run and no device read delivers 0 blocks, the body is entered at most as often
as the trimmed request has blocks.  In every case the fail-safe bounds the
loop: a pass entered with the counter at 2000 stops the program before any
lookup or read, so that the body is entered at most 2001 times, the 2001st
entry being the fatal stop, after at most 2000 device reads; and the loop has
ended within 2001 passes however many more it is allowed. -/
theorem read_loop_progress (find : ExtentList → Nat → Option (Nat × Nat)) (fork : HFSFork)
    (request : range) (s : ReadState) (m : Mem) (buffer : Option Nat)
    (block_count start_block : Nat) (errno : Int) :
    (readBody find fork request s).state.remaining.count ≤ s.remaining.count ∧
    (s.remaining.count ≠ 0 →
      s.remaining.start < (readBody find fork request s).state.remaining.start →
      (readBody find fork request s).state.remaining.count < s.remaining.count) ∧
    ((readBody find fork request s).state.remaining.start = s.remaining.start →
      (readBody find fork request s).state.remaining.count = s.remaining.count) ∧
    ((∀ L r, find fork.extents L = some r → 1 ≤ r.2) →
      (∀ mem c sb en, 1 ≤ c →
        c ≤ (trimRequest fork.totalBlocks (make_range start_block block_count)).count →
        (hfs_read_blocks mem (some 0) (some fork.hfs) c sb en).1 ≠ 0) →
      (hfs_read_fork find m buffer (some fork) block_count start_block errno).iterations
        ≤ (trimRequest fork.totalBlocks (make_range start_block block_count)).count) ∧
    (2000 ≤ s.loopCounter →
      readBody find fork request s = .stop { s with loopCounter := s.loopCounter + 1 }) ∧
    (hfs_read_fork find m buffer (some fork) block_count start_block errno).iterations
      ≤ 2001 ∧
    ((hfs_read_fork find m buffer (some fork) block_count start_block errno).iterations
        = 2001 →
      (hfs_read_fork find m buffer (some fork) block_count start_block errno).outcome
        = .aborted) ∧
    (hfs_read_fork find m buffer (some fork) block_count start_block errno).reads.length
      ≤ 2000 ∧
    (s.loopCounter = 0 → ∀ n,
      readLoop find fork request (2001 + n) s = readLoop find fork request 2001 s) :=
  ⟨readBody_count_le find fork request s, readBody_count_lt find fork request s,
   readBody_count_same find fork request s,
   hfs_read_fork_bound find m buffer fork block_count start_block errno,
   readBody_failsafe find fork request s,
   (hfs_read_fork_iterations find m buffer (some fork) block_count start_block errno).1,
   (hfs_read_fork_iterations find m buffer (some fork) block_count start_block errno).2,
   hfs_read_fork_reads find m buffer (some fork) block_count start_block errno,
   readLoop_fuel_add find fork request s⟩

set_option maxRecDepth 1000000 in
/-- The parts of C20, amended, at work.  On a fork of two extents of one block
each over a source that always reads, the first pass advances remaining.start
and takes remaining.count below 2, and the call for both blocks enters the
loop body at most twice.  On a fork whose source delivers no block, the first
pass leaves remaining where it was, a pass entered with the counter at 2000 is
the fatal stop, the call is stopped at the 2001st entry, and one pass more
than 2001 changes nothing. -/
theorem read_loop_progress_witness :
    (({ remaining := make_range 0 2, read_buffer := zeroMem, loopCounter := 0, reads := [],
        errno := 0 } : ReadState).remaining.count ≠ 0 ∧
     ({ remaining := make_range 0 2, read_buffer := zeroMem, loopCounter := 0, reads := [],
        errno := 0 } : ReadState).remaining.start <
      (readBody extentlist_find (forkOf (volumeOn (diskVolume markedDisk) 512) twoExtents 2 1024)
        (make_range 0 2)
        { remaining := make_range 0 2, read_buffer := zeroMem, loopCounter := 0, reads := [],
          errno := 0 }).state.remaining.start) ∧
    (readBody extentlist_find (forkOf (volumeOn (diskVolume markedDisk) 512) twoExtents 2 1024)
      (make_range 0 2)
      { remaining := make_range 0 2, read_buffer := zeroMem, loopCounter := 0, reads := [],
        errno := 0 }).state.remaining.count < 2 ∧
    (hfs_read_fork extentlist_find zeroMem (some 0)
      (some (forkOf (volumeOn (diskVolume markedDisk) 512) twoExtents 2 1024)) 2 0 0).iterations
      ≤ 2 ∧
    ((readBody extentlist_find stuckFork (make_range 0 1) firstPass).state.remaining.start
        = firstPass.remaining.start ∧
     (readBody extentlist_find stuckFork (make_range 0 1) firstPass).state.remaining.count
        = 1) ∧
    (readBody extentlist_find stuckFork (make_range 0 1)
      { firstPass with loopCounter := 2000 }).isNext = false ∧
    (hfs_read_fork extentlist_find zeroMem (some 0) (some stuckFork) 1 0 0).outcome
      = .aborted ∧
    readLoop extentlist_find stuckFork (make_range 0 1) (2001 + 1) firstPass
      = readLoop extentlist_find stuckFork (make_range 0 1) 2001 firstPass :=
  ⟨by decide,
   (read_loop_progress extentlist_find
      (forkOf (volumeOn (diskVolume markedDisk) 512) twoExtents 2 1024) (make_range 0 2)
      { remaining := make_range 0 2, read_buffer := zeroMem, loopCounter := 0, reads := [],
        errno := 0 } zeroMem (some 0) 2 0 0).2.1 (by decide) (by decide),
   (read_loop_progress extentlist_find
      (forkOf (volumeOn (diskVolume markedDisk) 512) twoExtents 2 1024) (make_range 0 2)
      firstPass zeroMem (some 0) 2 0 0).2.2.2.1
      (fun L r h => extentlist_find_run_pos _ L r h)
      (fun mem c sb en _ h2 => by
        have hc : c ≤ 2 := h2
        show (hfs_read_blocks mem (some 0) (some (volumeOn (diskVolume markedDisk) 512)) c sb
          en).1 ≠ 0
        rw [(hfs_read_blocks_ratio_one mem (volumeOn (diskVolume markedDisk) 512)
          (diskVolume markedDisk) c sb en rfl rfl (by decide)
          (diskVolume_alwaysReads markedDisk) (by omega)).1]
        omega),
   ⟨by decide,
    (read_loop_progress extentlist_find stuckFork (make_range 0 1) firstPass zeroMem (some 0)
      1 0 0).2.2.1 (by decide)⟩,
   congrArg ReadStep.isNext
     ((read_loop_progress extentlist_find stuckFork (make_range 0 1)
        { firstPass with loopCounter := 2000 } zeroMem (some 0) 1 0 0).2.2.2.2.1 (by decide)),
   (read_loop_progress extentlist_find stuckFork (make_range 0 1) firstPass zeroMem (some 0)
      1 0 0).2.2.2.2.2.2.1 stuckFork_iterations,
   (read_loop_progress extentlist_find stuckFork (make_range 0 1) firstPass zeroMem (some 0)
      1 0 0).2.2.2.2.2.2.2.2 rfl 1⟩

/-! ## B-tree nodes -/

theorem swapOffset_little (m : Mem) (a : Nat) : swapOffset .little m a = revSeg a 2 m := by
  have h := Convert_matched .little 2 ⟨0, 2, false⟩ m a rfl
  simp only [Convert, Nat.add_zero] at h
  unfold swapOffset S16
  rw [← h]
  rw [macroArg_matched 2 ⟨0, 2, false⟩ _ rfl (load_lt .little 2 m a)]
  have : load .little 2 m a % 2 ^ 16 = load .little 2 m a :=
    Nat.mod_eq_of_lt (by have := load_lt .little 2 m a; simpa using this)
  rw [this]

theorem swapOffset_big (m : Mem) (a : Nat) : swapOffset .big m a = m := by
  have h := Convert_matched .big 2 ⟨0, 2, false⟩ m a rfl
  simp only [Convert, Nat.add_zero] at h
  unfold swapOffset S16
  rw [macroArg_matched 2 ⟨0, 2, false⟩ _ rfl (load_lt .big 2 m a)] at h
  have : load .big 2 m a % 2 ^ 16 = load .big 2 m a :=
    Nat.mod_eq_of_lt (by have := load_lt .big 2 m a; simpa using this)
  rw [this, h]

theorem swapOffset_outside (e : Endian) (m : Mem) (p a : Nat) (h : a < p ∨ p + 2 ≤ a) :
    swapOffset e m p a = m a := by
  unfold swapOffset store
  apply writeBytes_outside
  rw [memOrder_length, leBytes_length]
  exact h

theorem foldl_swapOffset_outside (e : Endian) (f : Nat → Nat) (l : List Nat) (m : Mem) (a : Nat)
    (h : ∀ i ∈ l, a < f i ∨ f i + 2 ≤ a) :
    (l.foldl (fun m i => swapOffset e m (f i)) m) a = m a := by
  induction l generalizing m with
  | nil => rfl
  | cons x xs ih =>
    rw [List.foldl_cons, ih _ fun i hi => h i (List.mem_cons_of_mem _ hi)]
    exact swapOffset_outside e m (f x) a (h x (List.mem_cons_self _ _))

/-- The loop over the record offsets writes only the `numRecords` words from
`offsets` on: nothing below `node_end - 2 * numRecords`, where the free-space
offset lies. -/
theorem swapOffsets_outside (e : Endian) (node : BTreeNode) (m : Mem) (a : Nat)
    (h : a < offsetsBase node ∨ offsetsBase node + 2 * node.nodeDescriptor.numRecords ≤ a) :
    swapOffsets e node m a = m a := by
  unfold swapOffsets
  apply foldl_swapOffset_outside e (offsetSlot node)
  intro i hi
  rw [List.mem_range] at hi
  unfold offsetSlot
  omega

/-- Function `swap_BTNodeDescriptor` writes only the first 12 bytes of the descriptor. -/
theorem swap_BTNodeDescriptor_outside (e : Endian) (m : Mem) (p a : Nat) (h : p + 12 ≤ a) :
    swap_BTNodeDescriptor e m p a = m a := by
  unfold swap_BTNodeDescriptor
  simp only [Convert16, Convert32]
  rw [Convert_outside _ _ _ _ _ _ (by simp only [BTNodeDescriptor.numRecords]; omega),
    Convert_outside _ _ _ _ _ _ (by simp only [BTNodeDescriptor.bLink]; omega),
    Convert_outside _ _ _ _ _ _ (by simp only [BTNodeDescriptor.fLink]; omega)]

/-- The slot `&offsets[i]` that the loops of `swap_BTreeNode` use at index `i`
is the slot of record `numRecords - 1 - i`, the one at
`node_end - 2 * ((numRecords - 1 - i) + 1)`: index 0 is the last record, and
the indices from 1 on are the records `numRecords - 2` down to 0. -/
theorem offsetSlot_record (node : BTreeNode) (i : Nat) (hi : i < node.nodeDescriptor.numRecords)
    (hfit : 2 * node.nodeDescriptor.numRecords ≤ node.data + node.blockSize) :
    offsetSlot node i
      = node.data + node.blockSize - 2 * ((node.nodeDescriptor.numRecords - 1 - i) + 1) := by
  unfold offsetSlot offsetsBase
  omega

/-- When the address of the buffer's last word ends in 14, `swap_BTreeNode` returns at once,
whatever the buffer holds. -/
theorem swap_BTreeNode_sentinel (e : Endian) (m : Mem) (node : BTreeNode)
    (hs : sentinel node = 14) : swap_BTreeNode e m node = (m, node) := by
  unfold swap_BTreeNode
  rw [if_pos hs]

/-- A node read into a buffer at address 65040 is never swapped: the test of
the sentinel looks at the address, not at the buffer. -/
theorem swap_BTreeNode_unluckyNode (e : Endian) (m : Mem) (cnid : Nat) :
    swap_BTreeNode e m (unluckyNode cnid) = (m, unluckyNode cnid) :=
  swap_BTreeNode_sentinel e m (unluckyNode cnid) (by
    show (65040 + 512 + 2 ^ 64 - 2) % 2 ^ 16 = 14
    decide)

/-- On a node of a tree other than the catalog, `swap_BTreeNode` swaps the descriptor and
the record offsets and nothing else. -/
theorem swap_BTreeNode_other_tree (e : Endian) (m : Mem) (node : BTreeNode)
    (hc : node.cnid ≠ kHFSCatalogFileID) (hs : sentinel node ≠ 14) :
    swap_BTreeNode e m node =
      (swapOffsets e
          { node with nodeDescriptor :=
              BTNodeDescriptor.value e (swap_BTNodeDescriptor e m node.data) node.data }
          (swap_BTNodeDescriptor e m node.data),
        { node with nodeDescriptor :=
            BTNodeDescriptor.value e (swap_BTNodeDescriptor e m node.data) node.data }) := by
  unfold swap_BTreeNode
  simp only [hs, if_false, hc]

/-- On a header node of the catalog tree, `swap_BTreeNode` swaps the descriptor, the record
offsets and the header record that follows the descriptor. -/
theorem swap_BTreeNode_catalog_header (e : Endian) (m : Mem) (node : BTreeNode)
    (hc : node.cnid = kHFSCatalogFileID) (hs : sentinel node ≠ 14)
    (hk : (BTNodeDescriptor.value e (swap_BTNodeDescriptor e m node.data) node.data).kind
      = kBTHeaderNode) :
    swap_BTreeNode e m node =
      (swap_BTHeaderRec e
          (swapOffsets e
            { node with nodeDescriptor :=
                BTNodeDescriptor.value e (swap_BTNodeDescriptor e m node.data) node.data }
            (swap_BTNodeDescriptor e m node.data))
          (node.data + BTNodeDescriptor.sizeof),
        { node with nodeDescriptor :=
            BTNodeDescriptor.value e (swap_BTNodeDescriptor e m node.data) node.data }) := by
  unfold swap_BTreeNode
  simp only [hs, if_false, hc, hk, if_true]

set_option maxRecDepth 1000000 in
/-- C21, at the input where it fails: the header node `headerImage` of the
catalog tree, read into a buffer at address 4096, on a little-endian host.
The test of the sentinel compares the low 16 bits of an address, 4606 here,
with 14.  After the first call the last record-offset slot of the buffer
reads 14, the decoded descriptor has 3 records and the header record has root
node 1.  The second call on the same buffer does not return early: it decodes
768 records, leaves root node 65536 and changes the descriptor bytes of the
buffer, so swap(swap(node)) differs from swap(node). -/
theorem swap_BTreeNode_second_call_changes :
    sentinel (freshNode kHFSCatalogFileID) = 4606 ∧
    load .little 2 (swap_BTreeNode .little headerImage (freshNode kHFSCatalogFileID)).1
      (4096 + 510) = 14 ∧
    (swap_BTreeNode .little headerImage (freshNode kHFSCatalogFileID)).2.nodeDescriptor
      = { fLink := 0, bLink := 0, kind := 1, height := 0, numRecords := 3, reserved := 0 } ∧
    (swap_BTreeNode .little
      (swap_BTreeNode .little headerImage (freshNode kHFSCatalogFileID)).1
      (swap_BTreeNode .little headerImage (freshNode kHFSCatalogFileID)).2).2.nodeDescriptor
      = { fLink := 0, bLink := 0, kind := 1, height := 0, numRecords := 768, reserved := 0 } ∧
    BTHeaderRec.rootNode.get .little
      (swap_BTreeNode .little headerImage (freshNode kHFSCatalogFileID)).1 (4096 + 14) = 1 ∧
    BTHeaderRec.rootNode.get .little
      (swap_BTreeNode .little
        (swap_BTreeNode .little headerImage (freshNode kHFSCatalogFileID)).1
        (swap_BTreeNode .little headerImage (freshNode kHFSCatalogFileID)).2).1
      (4096 + 14) = 65536 ∧
    readBytes (swap_BTreeNode .little headerImage (freshNode kHFSCatalogFileID)).1 4096 14
      = [0, 0, 0, 0, 0, 0, 0, 0, 1, 0, 3, 0, 0, 0] ∧
    readBytes
      (swap_BTreeNode .little
        (swap_BTreeNode .little headerImage (freshNode kHFSCatalogFileID)).1
        (swap_BTreeNode .little headerImage (freshNode kHFSCatalogFileID)).2).1 4096 14
      = [0, 0, 0, 0, 0, 0, 0, 0, 0, 1, 3, 0, 0, 0] := by
  decide

set_option maxRecDepth 1000000 in
/-- C22, at the input where it fails: the catalog leaf node `leafImage` with
3 records, on a little-endian host.  `swap_BTreeNode` decodes the descriptor
(fLink 2, bLink 1, 3 records) and converts the three record offsets at 510,
508 and 506, which then read 14, 34 and 54.  The fourth entry of the offset
array, the free-space offset 74 at 504, keeps its disk bytes and reads
18944: of the n + 1 entries only n are converted. -/
theorem swap_BTreeNode_free_space_offset :
    (swap_BTreeNode .little leafImage (freshNode kHFSCatalogFileID)).2.nodeDescriptor
      = { fLink := 2, bLink := 1, kind := -1, height := 1, numRecords := 3, reserved := 0 } ∧
    load .little 2 (swap_BTreeNode .little leafImage (freshNode kHFSCatalogFileID)).1
      (4096 + 510) = 14 ∧
    load .little 2 (swap_BTreeNode .little leafImage (freshNode kHFSCatalogFileID)).1
      (4096 + 508) = 34 ∧
    load .little 2 (swap_BTreeNode .little leafImage (freshNode kHFSCatalogFileID)).1
      (4096 + 506) = 54 ∧
    beValue (readBytes leafImage (4096 + 504) 2) = 74 ∧
    readBytes (swap_BTreeNode .little leafImage (freshNode kHFSCatalogFileID)).1 (4096 + 504) 2
      = readBytes leafImage (4096 + 504) 2 ∧
    load .little 2 (swap_BTreeNode .little leafImage (freshNode kHFSCatalogFileID)).1
      (4096 + 504) = 18944 := by
  decide

set_option maxRecDepth 1000000 in
/-- The catalog leaf node `leafImage`, on a little-endian host.  Record i
starts at the offset stored at node_end - 2 * (i + 1): record 0 at 14, record 1
at 34, record 2 at 54, each with key length 6 on disk.  After `swap_BTreeNode`
the key lengths of record 0 and record 1 read 6 in host order, and record 2,
the last one, is left in disk order (its key length reads 1536). -/
theorem swap_BTreeNode_skips_last_record :
    (beValue (readBytes leafImage (4096 + 512 - 2 * (0 + 1)) 2) = 14 ∧
     beValue (readBytes leafImage (4096 + 512 - 2 * (1 + 1)) 2) = 34 ∧
     beValue (readBytes leafImage (4096 + 512 - 2 * (2 + 1)) 2) = 54) ∧
    (beValue (readBytes leafImage (4096 + 14) 2) = 6 ∧
     beValue (readBytes leafImage (4096 + 34) 2) = 6 ∧
     beValue (readBytes leafImage (4096 + 54) 2) = 6) ∧
    BTreeKey.length16.get .little
      (swap_BTreeNode .little leafImage (freshNode kHFSCatalogFileID)).1 (4096 + 14) = 6 ∧
    BTreeKey.length16.get .little
      (swap_BTreeNode .little leafImage (freshNode kHFSCatalogFileID)).1 (4096 + 34) = 6 ∧
    BTreeKey.length16.get .little
      (swap_BTreeNode .little leafImage (freshNode kHFSCatalogFileID)).1 (4096 + 54) = 1536 ∧
    readBytes (swap_BTreeNode .little leafImage (freshNode kHFSCatalogFileID)).1 (4096 + 54) 20
      = readBytes leafImage (4096 + 54) 20 := by
  decide

set_option maxRecDepth 1000000 in
/-- C24, at the inputs where it fails, on a little-endian host.  In
`leafImage` record 1 starts at 34 with key length 6; the payload position of
the code is 34 + 6, not 34 + 2 + 6, and the thread record at 34 + 2 + 6 (type
4 on disk) is left in disk order.  In `namedLeafImage` record 0 starts at 14
with key length 8; the word at 14 + 8, the last character of the name, is 3,
and the thread swap is applied there: it reverses that character, zeroes the
type of the folder record at 14 + 2 + 8 and leaves the folder ID in disk
order (16 reads 268435456). -/
theorem swap_BTreeNode_payload_position :
    (keyLength .little (swap_BTreeNode .little leafImage (freshNode kHFSCatalogFileID)).1
      (4096 + 34) = 6 ∧
     recordPayload .little (swap_BTreeNode .little leafImage (freshNode kHFSCatalogFileID)).2
      (swap_BTreeNode .little leafImage (freshNode kHFSCatalogFileID)).1 1 (4096 + 34)
      = 4096 + 34 + 6 ∧
     beValue (readBytes leafImage (4096 + 34 + 2 + 6) 2) = 4 ∧
     readBytes (swap_BTreeNode .little leafImage (freshNode kHFSCatalogFileID)).1
      (4096 + 34 + 2 + 6) 12 = readBytes leafImage (4096 + 34 + 2 + 6) 12) ∧
    (keyLength .little (swap_BTreeNode .little namedLeafImage (freshNode kHFSCatalogFileID)).1
      (4096 + 14) = 8 ∧
     readBytes namedLeafImage (4096 + 14 + 8) 6 = [0, 3, 0, 1, 0, 0] ∧
     readBytes (swap_BTreeNode .little namedLeafImage (freshNode kHFSCatalogFileID)).1
      (4096 + 14 + 8) 6 = [3, 0, 0, 0, 0, 0] ∧
     beValue (readBytes namedLeafImage (4096 + 14 + 2 + 8) 2) = 1 ∧
     HFSPlusCatalogFolder.recordType.get .little
      (swap_BTreeNode .little namedLeafImage (freshNode kHFSCatalogFileID)).1
      (4096 + 14 + 2 + 8) = 0 ∧
     beValue (readBytes namedLeafImage (4096 + 14 + 2 + 8 + 8) 4) = 16 ∧
     HFSPlusCatalogFolder.folderID.get .little
      (swap_BTreeNode .little namedLeafImage (freshNode kHFSCatalogFileID)).1
      (4096 + 14 + 2 + 8) = 268435456) := by
  decide

/-- C25, what the code does: on every node of a tree other than
the catalog, so on every header node of the extents-overflow and of the
attributes tree, `swap_BTreeNode` leaves each byte of the B-tree header record,
the 106 bytes after the 14-byte node descriptor, as it was read from disk
(for a node that holds the descriptor, the header record and its record
offsets without overlap). -/
theorem swap_BTreeNode_header_kept (e : Endian) (m : Mem) (node : BTreeNode) (a : Nat)
    (hc : node.cnid ≠ kHFSCatalogFileID)
    (hfit : BTNodeDescriptor.sizeof + BTHeaderRec.sizeof
      + 2 * (swap_BTreeNode e m node).2.nodeDescriptor.numRecords ≤ node.blockSize)
    (h1 : node.data + BTNodeDescriptor.sizeof ≤ a)
    (h2 : a < node.data + BTNodeDescriptor.sizeof + BTHeaderRec.sizeof) :
    (swap_BTreeNode e m node).1 a = m a := by
  by_cases hs : sentinel node = 14
  · rw [swap_BTreeNode_sentinel e m node hs]
  · rw [swap_BTreeNode_other_tree e m node hc hs] at hfit ⊢
    have h14 : BTNodeDescriptor.sizeof = 14 := rfl
    have h106 : BTHeaderRec.sizeof = 106 := rfl
    rw [h14] at h1
    rw [h14, h106] at hfit h2
    show swapOffsets e _ (swap_BTNodeDescriptor e m node.data) a = m a
    rw [swapOffsets_outside, swap_BTNodeDescriptor_outside _ _ _ _ (by omega)]
    left
    show a < node.data + node.blockSize - 2 *
      (BTNodeDescriptor.value e (swap_BTNodeDescriptor e m node.data) node.data).numRecords
    have hfit' : 14 + 106 + 2 *
      (BTNodeDescriptor.value e (swap_BTNodeDescriptor e m node.data) node.data).numRecords
        ≤ node.blockSize := hfit
    omega

set_option maxRecDepth 1000000 in
/-- The header node `extentsHeaderImage`, node 0 of an extents-overflow tree, on
a little-endian host: the byte of the node size at 14 + 18 is as on disk,
where the node size is 512, and the host reads 2; so it is under the CNID of
the attributes tree.  In the header node `headerImage` of the catalog tree the
host reads 512. -/
theorem swap_BTreeNode_header_kept_witness :
    (kHFSExtentsFileID ≠ kHFSCatalogFileID ∧
     BTNodeDescriptor.sizeof + BTHeaderRec.sizeof
      + 2 * (swap_BTreeNode .little extentsHeaderImage
          (freshNode kHFSExtentsFileID)).2.nodeDescriptor.numRecords
      ≤ (freshNode kHFSExtentsFileID).blockSize) ∧
    (swap_BTreeNode .little extentsHeaderImage
      (freshNode kHFSExtentsFileID)).2.nodeDescriptor.kind = kBTHeaderNode ∧
    (swap_BTreeNode .little extentsHeaderImage (freshNode kHFSExtentsFileID)).1
      (4096 + 14 + 18) = extentsHeaderImage (4096 + 14 + 18) ∧
    beValue (readBytes extentsHeaderImage (4096 + 14 + 18) 2) = 512 ∧
    BTHeaderRec.nodeSize.get .little
      (swap_BTreeNode .little extentsHeaderImage (freshNode kHFSExtentsFileID)).1
      (4096 + 14) = 2 ∧
    BTHeaderRec.nodeSize.get .little
      (swap_BTreeNode .little extentsHeaderImage (freshNode kHFSAttributesFileID)).1
      (4096 + 14) = 2 ∧
    BTHeaderRec.nodeSize.get .little
      (swap_BTreeNode .little headerImage (freshNode kHFSCatalogFileID)).1 (4096 + 14) = 512 :=
  ⟨⟨by decide, by decide⟩, by decide,
   swap_BTreeNode_header_kept .little extentsHeaderImage (freshNode kHFSExtentsFileID)
     (4096 + 14 + 18) (by decide) (by decide) (by decide) (by decide),
   by decide, by decide, by decide, by decide⟩

/-! ## B-tree nodes: what is decoded in general -/

/-- Memories that agree on a window give the same bytes there. -/
theorem readBytes_agree (m m' : Mem) (p w : Nat) (h : ∀ a, p ≤ a → a < p + w → m' a = m a) :
    readBytes m' p w = readBytes m p w := by
  unfold readBytes
  apply List.map_congr_left
  intro k hk
  rw [List.mem_range] at hk
  exact h (p + k) (by omega) (by omega)

theorem load_agree (e : Endian) (m m' : Mem) (p w : Nat)
    (h : ∀ a, p ≤ a → a < p + w → m' a = m a) : load e w m' p = load e w m p := by
  unfold load
  rw [readBytes_agree m m' p w h]

/-- The statement `*offset = S16(*offset)` leaves in the word the big-endian
reading of its former bytes, on either host. -/
theorem load_swapOffset (e : Endian) (m : Mem) (a : Nat) :
    load e 2 (swapOffset e m a) a = beValue (readBytes m a 2) := by
  cases e with
  | big => rw [swapOffset_big, load_big]
  | little =>
    rw [swapOffset_little]
    simp only [load, memOrder, beValue, readBytes_revSeg]

theorem foldl_swapOffset_slot (e : Endian) (f : Nat → Nat) (l : List Nat) (hl : l.Nodup)
    (hsep : ∀ i ∈ l, ∀ j ∈ l, i ≠ j → f i + 2 ≤ f j ∨ f j + 2 ≤ f i) (m : Mem) (x : Nat)
    (hx : x ∈ l) :
    load e 2 (l.foldl (fun m i => swapOffset e m (f i)) m) (f x)
      = beValue (readBytes m (f x) 2) := by
  induction l generalizing m with
  | nil => cases hx
  | cons y ys ih =>
    rw [List.foldl_cons]
    rw [List.nodup_cons] at hl
    by_cases hxy : x = y
    · subst hxy
      rw [load_agree e (swapOffset e m (f x)) _ (f x) 2, load_swapOffset]
      intro a h1 h2
      apply foldl_swapOffset_outside
      intro i hi
      have hne : x ≠ i := fun h => hl.1 (h ▸ hi)
      have := hsep x (List.mem_cons_self _ _) i (List.mem_cons_of_mem _ hi) hne
      omega
    · have hxs : x ∈ ys := by
        cases hx with
        | head => exact absurd rfl hxy
        | tail _ h => exact h
      rw [ih hl.2 (fun i hi j hj => hsep i (List.mem_cons_of_mem _ hi) j
        (List.mem_cons_of_mem _ hj)) _ hxs]
      congr 1
      apply readBytes_agree
      intro a h1 h2
      apply swapOffset_outside
      have := hsep x (List.mem_cons_of_mem _ hxs) y (List.mem_cons_self _ _) hxy
      omega

/-- After the loop over the record offsets, each of the `numRecords` words
`offsets[i]` holds the big-endian reading of its former bytes, on either
host. -/
theorem swapOffsets_slot (e : Endian) (node : BTreeNode) (m : Mem) (i : Nat)
    (hi : i < node.nodeDescriptor.numRecords) :
    load e 2 (swapOffsets e node m) (offsetSlot node i)
      = beValue (readBytes m (offsetSlot node i) 2) := by
  unfold swapOffsets
  apply foldl_swapOffset_slot e (offsetSlot node) _ (List.nodup_range _)
  · intro a _ b _ hab
    unfold offsetSlot
    omega
  · exact List.mem_range.mpr hi

theorem get_swap_BTNodeDescriptor (e : Endian) (m : Mem) (p : Nat) (f : Field)
    (hf : (f.off, f.size) ∈ planNodeDescriptor) :
    f.get e (swap_BTNodeDescriptor e m p) p = beValue (readBytes m (p + f.off) f.size) := by
  unfold Field.get
  cases e with
  | big => rw [swap_BTNodeDescriptor_big, load_big]
  | little =>
    rw [swap_BTNodeDescriptor_little]
    exact load_plan _ planNodeDescriptor_disjoint p _ _ hf m

/-- Whichever branch `swap_BTreeNode` takes after the test of the sentinel, the node struct
it leaves behind holds the descriptor as decoded from the swapped buffer. -/
theorem swap_BTreeNode_snd (e : Endian) (m : Mem) (node : BTreeNode) (hs : sentinel node ≠ 14) :
    (swap_BTreeNode e m node).2 =
      { node with nodeDescriptor :=
          BTNodeDescriptor.value e (swap_BTNodeDescriptor e m node.data) node.data } := by
  unfold swap_BTreeNode
  rw [if_neg hs]
  simp only []
  split
  · split
    · rfl
    · split <;> rfl
  · rfl

/-- For every node that passes the test of the sentinel, on either host, the
decoded `fLink`, `bLink` and `numRecords` are the big-endian readings of the
descriptor's bytes on disk. -/
theorem swap_BTreeNode_descriptor (e : Endian) (m : Mem) (node : BTreeNode)
    (hs : sentinel node ≠ 14) :
    (swap_BTreeNode e m node).2.nodeDescriptor.fLink
      = beValue (readBytes m (node.data + 0) 4) ∧
    (swap_BTreeNode e m node).2.nodeDescriptor.bLink
      = beValue (readBytes m (node.data + 4) 4) ∧
    (swap_BTreeNode e m node).2.nodeDescriptor.numRecords
      = beValue (readBytes m (node.data + 10) 2) := by
  rw [swap_BTreeNode_snd e m node hs]
  exact ⟨get_swap_BTNodeDescriptor e m node.data BTNodeDescriptor.fLink (by decide),
    get_swap_BTNodeDescriptor e m node.data BTNodeDescriptor.bLink (by decide),
    get_swap_BTNodeDescriptor e m node.data BTNodeDescriptor.numRecords (by decide)⟩

/-- For every node of a tree other than the catalog, on either host: each of
the `numRecords` words from `node_end - 2 * numRecords` on holds the
big-endian reading of its disk bytes, and every byte between the descriptor's
first 12 bytes and `node_end - 2 * numRecords`, the free-space offset among
them, is as read from disk. -/
theorem swap_BTreeNode_offsets (e : Endian) (m : Mem) (node : BTreeNode)
    (hc : node.cnid ≠ kHFSCatalogFileID) (hs : sentinel node ≠ 14)
    (hfit : 12 + 2 * (swap_BTreeNode e m node).2.nodeDescriptor.numRecords ≤ node.blockSize) :
    (∀ i, i < (swap_BTreeNode e m node).2.nodeDescriptor.numRecords →
      load e 2 (swap_BTreeNode e m node).1 (offsetSlot (swap_BTreeNode e m node).2 i)
        = beValue (readBytes m (offsetSlot (swap_BTreeNode e m node).2 i) 2)) ∧
    (∀ a, node.data + 12 ≤ a → a < offsetsBase (swap_BTreeNode e m node).2 →
      (swap_BTreeNode e m node).1 a = m a) := by
  rw [swap_BTreeNode_other_tree e m node hc hs] at hfit ⊢
  simp only [] at hfit ⊢
  constructor
  · intro i hi
    rw [swapOffsets_slot e _ _ i hi]
    congr 1
    apply readBytes_agree
    intro a h1 h2
    apply swap_BTNodeDescriptor_outside
    unfold offsetSlot offsetsBase at h1
    simp only [] at h1
    omega
  · intro a h1 h2
    rw [swapOffsets_outside _ _ _ _ (Or.inl h2), swap_BTNodeDescriptor_outside _ _ _ _ h1]

/-- Function `swap_BTreeKey` does to the key's first word what the offset loop does to
an offset. -/
theorem swap_BTreeKey_eq_swapOffset (e : Endian) (m : Mem) (key : Nat) :
    swap_BTreeKey e m key = swapOffset e m key := by
  unfold swap_BTreeKey
  have h := Convert_matched e 2 BTreeKey.length16 m key rfl
  simp only [Convert16]
  rw [h]
  cases e with
  | little => rw [swapOffset_little]; rfl
  | big => rw [swapOffset_big]

/-- In an index node the body of the record loop swaps the key length and
nothing else. -/
theorem swapRecord_index (e : Endian) (node : BTreeNode) (m : Mem) (i : Nat)
    (hk : node.nodeDescriptor.kind = kBTIndexNode) :
    swapRecord e node m i = swapOffset e m (node.data + load e 2 m (offsetSlot node i)) := by
  unfold swapRecord
  simp only [hk, if_true]
  exact swap_BTreeKey_eq_swapOffset e m _

/-- In an index node whose keys lie clear of the offset slots, the record
loop swaps the key length at the addresses the slots held on entry. -/
theorem foldl_swapRecord_index (e : Endian) (node : BTreeNode)
    (hk : node.nodeDescriptor.kind = kBTIndexNode) (off : Nat → Nat) (l : List Nat) (m : Mem)
    (hinv : ∀ i ∈ l, load e 2 m (offsetSlot node i) = off i)
    (hsep : ∀ i ∈ l, ∀ j ∈ l, node.data + off i + 2 ≤ offsetSlot node j ∨
      offsetSlot node j + 2 ≤ node.data + off i) :
    l.foldl (swapRecord e node) m
      = l.foldl (fun m i => swapOffset e m (node.data + off i)) m := by
  induction l generalizing m with
  | nil => rfl
  | cons y ys ih =>
    rw [List.foldl_cons, List.foldl_cons, swapRecord_index e node m y hk,
      hinv y (List.mem_cons_self _ _)]
    apply ih
    · intro i hi
      rw [← hinv i (List.mem_cons_of_mem _ hi)]
      apply load_agree
      intro a h1 h2
      apply swapOffset_outside
      have := hsep y (List.mem_cons_self _ _) i (List.mem_cons_of_mem _ hi)
      omega
    · intro i hi j hj
      exact hsep i (List.mem_cons_of_mem _ hi) j (List.mem_cons_of_mem _ hj)

/-- On an index or leaf node of the catalog tree, `swap_BTreeNode` swaps the descriptor and
the record offsets and then runs the record loop for `i` from 1 to `numRecords - 1`. -/
theorem swap_BTreeNode_catalog_index (e : Endian) (m : Mem) (node : BTreeNode)
    (hc : node.cnid = kHFSCatalogFileID) (hs : sentinel node ≠ 14)
    (hk : (BTNodeDescriptor.value e (swap_BTNodeDescriptor e m node.data) node.data).kind
      = kBTIndexNode) :
    swap_BTreeNode e m node =
      ((List.range' 1
          ((BTNodeDescriptor.value e (swap_BTNodeDescriptor e m node.data)
            node.data).numRecords - 1)).foldl
          (swapRecord e
            { node with nodeDescriptor :=
                BTNodeDescriptor.value e (swap_BTNodeDescriptor e m node.data) node.data })
          (swapOffsets e
            { node with nodeDescriptor :=
                BTNodeDescriptor.value e (swap_BTNodeDescriptor e m node.data) node.data }
            (swap_BTNodeDescriptor e m node.data)),
        { node with nodeDescriptor :=
            BTNodeDescriptor.value e (swap_BTNodeDescriptor e m node.data) node.data }) := by
  unfold swap_BTreeNode
  have hne : kBTIndexNode ≠ kBTHeaderNode := by decide
  simp only [hs, if_false, hc, hk, if_true, hne, true_or]

/-- The record loop of an index node, on the memory the offset loop leaves:
the key lengths of the records 0 to n - 2 are decoded and record n - 1 is as
on disk. -/
theorem recordLoop_index (e : Endian) (m : Mem) (node : BTreeNode) (n : Nat)
    (hkind : node.nodeDescriptor.kind = kBTIndexNode)
    (hnum : node.nodeDescriptor.numRecords = n)
    (hfit : 14 + 2 * n ≤ node.blockSize)
    (hin : ∀ j, j < n → 14 ≤ recordOffset m node j ∧
      recordOffset m node j + 2 ≤ node.blockSize - 2 * n)
    (hsep : ∀ j, j < n → ∀ k, k < n → j ≠ k →
      recordOffset m node j + 2 ≤ recordOffset m node k ∨
      recordOffset m node k + 2 ≤ recordOffset m node j) :
    (∀ j, j + 1 < n →
      load e 2
        ((List.range' 1 (n - 1)).foldl (swapRecord e node)
          (swapOffsets e node (swap_BTNodeDescriptor e m node.data)))
        (node.data + recordOffset m node j)
        = beValue (readBytes m (node.data + recordOffset m node j) 2)) ∧
    (∀ j, j + 1 = n →
      readBytes
        ((List.range' 1 (n - 1)).foldl (swapRecord e node)
          (swapOffsets e node (swap_BTNodeDescriptor e m node.data)))
        (node.data + recordOffset m node j) 2
        = readBytes m (node.data + recordOffset m node j) 2) := by
  -- the slots of the offset array
  have hbase : offsetsBase node = node.data + node.blockSize - 2 * n := by
    unfold offsetsBase
    rw [hnum]
  have hslot : ∀ i, i < n →
      offsetSlot node i = node.data + node.blockSize - 2 * ((n - 1 - i) + 1) := by
    intro i hi
    unfold offsetSlot
    rw [hbase]
    omega
  -- the memory before the record loop agrees with the disk outside the
  -- descriptor and the offset array
  have hm0 : ∀ a, node.data + 12 ≤ a → a < node.data + node.blockSize - 2 * n →
      swapOffsets e node (swap_BTNodeDescriptor e m node.data) a = m a := by
    intro a h1 h2
    rw [swapOffsets_outside _ _ _ _ (Or.inl (by rw [hbase]; exact h2)),
      swap_BTNodeDescriptor_outside _ _ _ _ h1]
  -- what the loop reads in slot `i`
  have hread : ∀ i, i < n →
      load e 2 (swapOffsets e node (swap_BTNodeDescriptor e m node.data))
        (offsetSlot node i) = recordOffset m node (n - 1 - i) := by
    intro i hi
    rw [swapOffsets_slot e node _ i (by rw [hnum]; exact hi)]
    unfold recordOffset
    rw [hslot i hi]
    congr 1
    apply readBytes_agree
    intro a h1 h2
    apply swap_BTNodeDescriptor_outside
    omega
  have hmem : ∀ i, i ∈ List.range' 1 (n - 1) → 1 ≤ i ∧ i < n := by
    intro i hi
    rw [List.mem_range'_1] at hi
    omega
  rw [foldl_swapRecord_index e node hkind (fun i => recordOffset m node (n - 1 - i))
    (List.range' 1 (n - 1)) _ (fun i hi => hread i (hmem i hi).2)
    (fun i hi j hj => by
      have h1 := hin (n - 1 - i) (by have := hmem i hi; omega)
      have h2 := hslot j (hmem j hj).2
      have h3 := hmem j hj
      simp only []
      rw [h2]
      omega)]
  constructor
  · intro j hj
    have hi : n - 1 - j ∈ List.range' 1 (n - 1) := by
      rw [List.mem_range'_1]
      omega
    have hjj : n - 1 - (n - 1 - j) = j := by omega
    have key := foldl_swapOffset_slot e
      (fun i => node.data + recordOffset m node (n - 1 - i)) (List.range' 1 (n - 1))
      (List.nodup_range' _ _)
      (fun a ha b hb hab => by
        have ha' := hmem a ha
        have hb' := hmem b hb
        have := hsep (n - 1 - a) (by omega) (n - 1 - b) (by omega) (by omega)
        simp only []
        omega)
      (swapOffsets e node (swap_BTNodeDescriptor e m node.data)) (n - 1 - j) hi
    simp only [hjj] at key
    rw [key]
    congr 1
    apply readBytes_agree
    intro a h1 h2
    have := hin j (by omega)
    exact hm0 a (by omega) (by omega)
  · intro j hj
    apply readBytes_agree
    intro a h1 h2
    rw [foldl_swapOffset_outside e (fun i => node.data + recordOffset m node (n - 1 - i))]
    · have := hin j (by omega)
      exact hm0 a (by omega) (by omega)
    · intro i hi
      have hi' := hmem i hi
      have := hsep j (by omega) (n - 1 - i) (by omega) (by omega)
      omega

/-- C23, what the code does: for every index node of the catalog
tree with n records, on either host, where record j starts at the 16-bit
offset stored at node_end - 2 * (j + 1) and the keys lie between the
descriptor and the offset array without overlap: `swap_BTreeNode` decodes the
key length of every record j with j + 1 < n, record 0 among them, and leaves
the last record, n - 1, as read from disk.  The records decoded are 0 to
n - 2, not 1 to n - 1. -/
theorem swap_BTreeNode_index_records (e : Endian) (m : Mem) (node : BTreeNode) (n : Nat)
    (hc : node.cnid = kHFSCatalogFileID) (hs : sentinel node ≠ 14)
    (hk : (swap_BTreeNode e m node).2.nodeDescriptor.kind = kBTIndexNode)
    (hn : (swap_BTreeNode e m node).2.nodeDescriptor.numRecords = n)
    (hfit : 14 + 2 * n ≤ node.blockSize)
    (hin : ∀ j, j < n → 14 ≤ recordOffset m node j ∧
      recordOffset m node j + 2 ≤ node.blockSize - 2 * n)
    (hsep : ∀ j, j < n → ∀ k, k < n → j ≠ k →
      recordOffset m node j + 2 ≤ recordOffset m node k ∨
      recordOffset m node k + 2 ≤ recordOffset m node j) :
    (∀ j, j + 1 < n →
      load e 2 (swap_BTreeNode e m node).1 (node.data + recordOffset m node j)
        = beValue (readBytes m (node.data + recordOffset m node j) 2)) ∧
    (∀ j, j + 1 = n →
      readBytes (swap_BTreeNode e m node).1 (node.data + recordOffset m node j) 2
        = readBytes m (node.data + recordOffset m node j) 2) := by
  rw [swap_BTreeNode_snd e m node hs] at hk hn
  simp only [] at hk hn
  rw [swap_BTreeNode_catalog_index e m node hc hs hk]
  simp only []
  rw [hn]
  exact recordLoop_index e m _ n hk hn hfit hin hsep

set_option maxRecDepth 1000000 in
/-- The index node `indexImage` with records at 14, 26 and 38, each with key
length 6 on disk, on a little-endian host: after `swap_BTreeNode` the key
lengths of record 0 and record 1 read 6, and record 2 keeps its disk bytes
and reads 1536. -/
theorem swap_BTreeNode_index_records_witness :
    (kHFSCatalogFileID = kHFSCatalogFileID ∧ sentinel (freshNode kHFSCatalogFileID) ≠ 14 ∧
     (swap_BTreeNode .little indexImage (freshNode kHFSCatalogFileID)).2.nodeDescriptor.kind
       = kBTIndexNode ∧
     (swap_BTreeNode .little indexImage
       (freshNode kHFSCatalogFileID)).2.nodeDescriptor.numRecords = 3 ∧
     recordOffset indexImage (freshNode kHFSCatalogFileID) 0 = 14 ∧
     recordOffset indexImage (freshNode kHFSCatalogFileID) 1 = 26 ∧
     recordOffset indexImage (freshNode kHFSCatalogFileID) 2 = 38) ∧
    (beValue (readBytes indexImage (4096 + 14) 2) = 6 ∧
     beValue (readBytes indexImage (4096 + 26) 2) = 6 ∧
     beValue (readBytes indexImage (4096 + 38) 2) = 6) ∧
    load .little 2 (swap_BTreeNode .little indexImage (freshNode kHFSCatalogFileID)).1
      (4096 + 14) = 6 ∧
    load .little 2 (swap_BTreeNode .little indexImage (freshNode kHFSCatalogFileID)).1
      (4096 + 26) = 6 ∧
    readBytes (swap_BTreeNode .little indexImage (freshNode kHFSCatalogFileID)).1
      (4096 + 38) 2 = [0, 6] ∧
    load .little 2 (swap_BTreeNode .little indexImage (freshNode kHFSCatalogFileID)).1
      (4096 + 38) = 1536 :=
  ⟨⟨rfl, by decide, by decide, by decide, by decide, by decide, by decide⟩,
   ⟨by decide, by decide, by decide⟩,
   ((swap_BTreeNode_index_records .little indexImage (freshNode kHFSCatalogFileID) 3 rfl
      (by decide) (by decide) (by decide) (by decide) (by decide) (by decide)).1 0
      (by decide)).trans (by decide),
   ((swap_BTreeNode_index_records .little indexImage (freshNode kHFSCatalogFileID) 3 rfl
      (by decide) (by decide) (by decide) (by decide) (by decide) (by decide)).1 1
      (by decide)).trans (by decide),
   ((swap_BTreeNode_index_records .little indexImage (freshNode kHFSCatalogFileID) 3 rfl
      (by decide) (by decide) (by decide) (by decide) (by decide) (by decide)).2 2
      (by decide)).trans (by decide),
   by decide⟩

/-! ## Stream cursors -/

theorem toInt64_of_isInt64 (x : Int) (h : isInt64 x) : toInt64 x = x := by
  unfold isInt64 at h
  unfold toInt64
  omega

/-- C26: for every cursor c (the cookie's), position argument p and total
length L (the length of the source for `hfs_seekfn`, the logical size of the
fork for `fork_seekfn`), the seek functions set the cursor to, and return, p
for SEEK_SET, c + p for SEEK_CUR and L - p for SEEK_END, wherever that value
is one of the 64-bit signed result type. -/
theorem seekfn_positions (hc : HFSVolumeCookie) (fc : HFSForkCookie) (vol : Volume) (p : Int)
    (hvol : hc.hfs.vol = some vol) :
    hfs_seekfn hc p SEEK_SET = some (p, { hc with cursor := p }) ∧
    (isInt64 (hc.cursor + p) →
      hfs_seekfn hc p SEEK_CUR = some (hc.cursor + p, { hc with cursor := hc.cursor + p })) ∧
    (isInt64 ((vol.length : Int) - p) →
      hfs_seekfn hc p SEEK_END
        = some ((vol.length : Int) - p, { hc with cursor := (vol.length : Int) - p })) ∧
    fork_seekfn fc p SEEK_SET = (p, { fc with cursor := p }) ∧
    (isInt64 (fc.cursor + p) →
      fork_seekfn fc p SEEK_CUR = (fc.cursor + p, { fc with cursor := fc.cursor + p })) ∧
    (isInt64 ((fc.fork.logicalSize : Int) - p) →
      fork_seekfn fc p SEEK_END
        = ((fc.fork.logicalSize : Int) - p,
           { fc with cursor := (fc.fork.logicalSize : Int) - p })) := by
  refine ⟨?_, fun h => ?_, fun h => ?_, ?_, fun h => ?_, fun h => ?_⟩
  · simp [hfs_seekfn, SEEK_SET, SEEK_CUR, SEEK_END]
  · rw [Int.add_comm] at h
    simp [hfs_seekfn, SEEK_CUR, toInt64_of_isInt64 _ h, Int.add_comm]
  · simp [hfs_seekfn, SEEK_CUR, SEEK_END, hvol, toInt64_of_isInt64 _ h]
  · simp [fork_seekfn, SEEK_SET, SEEK_CUR, SEEK_END]
  · rw [Int.add_comm] at h
    simp [fork_seekfn, SEEK_CUR, toInt64_of_isInt64 _ h, Int.add_comm]
  · simp [fork_seekfn, SEEK_CUR, SEEK_END, toInt64_of_isInt64 _ h]

/-- Streams with the cursor at 100 on a source of 4096 bytes and on a fork of
1024 bytes, and the position argument 30: the new cursors are 30, 130, and
4066 and 994. -/
theorem seekfn_positions_witness :
    (volumeCookie.hfs.vol = some sizedVolume ∧ isInt64 (100 + 30) ∧ isInt64 (4096 - 30) ∧
     isInt64 (1024 - 30)) ∧
    hfs_seekfn volumeCookie 30 SEEK_SET = some (30, { volumeCookie with cursor := 30 }) ∧
    hfs_seekfn volumeCookie 30 SEEK_CUR = some (130, { volumeCookie with cursor := 130 }) ∧
    hfs_seekfn volumeCookie 30 SEEK_END = some (4066, { volumeCookie with cursor := 4066 }) ∧
    fork_seekfn forkCookie 30 SEEK_SET = (30, { forkCookie with cursor := 30 }) ∧
    fork_seekfn forkCookie 30 SEEK_CUR = (130, { forkCookie with cursor := 130 }) ∧
    fork_seekfn forkCookie 30 SEEK_END = (994, { forkCookie with cursor := 994 }) :=
  ⟨⟨rfl, by decide, by decide, by decide⟩,
   (seekfn_positions volumeCookie forkCookie sizedVolume 30 rfl).1,
   (seekfn_positions volumeCookie forkCookie sizedVolume 30 rfl).2.1 (by decide),
   (seekfn_positions volumeCookie forkCookie sizedVolume 30 rfl).2.2.1 (by decide),
   (seekfn_positions volumeCookie forkCookie sizedVolume 30 rfl).2.2.2.1,
   (seekfn_positions volumeCookie forkCookie sizedVolume 30 rfl).2.2.2.2.1 (by decide),
   (seekfn_positions volumeCookie forkCookie sizedVolume 30 rfl).2.2.2.2.2 (by decide)⟩

/-! ## Byte ranges of a fork when the block read fails -/

/-- C27, what the code does: whenever the call of `hfs_read_fork`
inside `hfs_read_fork_range` returns a negative value,
`hfs_read_fork_range` returns the byte count n of the request all the same
(at least 1, never a negative result) and copies n bytes from the scratch
buffer into the caller's buffer. -/
theorem hfs_read_fork_range_ignores_failure (find : ExtentList → Nat → Option (Nat × Nat))
    (m : Mem) (buf : Nat) (f : HFSFork) (size offset : Nat) (errno : Int) (bc sb : Nat)
    (v : Int)
    (hreq : (hfs_read_fork_range find m (some buf) (some f) size offset errno).request
      = some (bc, sb))
    (hrd : (hfs_read_fork find zeroMem (some 0) (some f) bc sb errno).outcome = .returned v)
    (hv : v < 0) :
    ∃ n : Nat, 1 ≤ n ∧
      (hfs_read_fork_range find m (some buf) (some f) size offset errno).outcome
        = .returned (n : Int) ∧
      (hfs_read_fork_range find m (some buf) (some f) size offset errno).copied
        = some (offset % f.hfs.block_size, n) ∧
      (hfs_read_fork_range find m (some buf) (some f) size offset errno).buffer
        = memcpy m buf
            (hfs_read_fork find zeroMem (some 0) (some f) bc sb errno).buffer
            (offset % f.hfs.block_size) n := by
  obtain ⟨sz, h1, h2, _, heq⟩ :=
    hfs_read_fork_range_request find m buf f size offset errno bc sb hreq
  have hne : v ≠ 0 := by omega
  rw [heq]
  dsimp only
  rw [hrd]
  refine ⟨sz, h1, ?_, ?_, ?_⟩
  · show Outcome.returned (toInt64 (sz : Int)) = _
    rw [toInt64_natCast sz h2]
  · simp only [hne, ne_eq, not_false_eq_true, if_true]
  · simp only [hne, ne_eq, not_false_eq_true, if_true]

set_option maxRecDepth 1000000 in
/-- A fork of two blocks of 512 bytes, size 511 and offset 1: the request
passed on is for 0 blocks, `hfs_read_fork` returns -1, and
`hfs_read_fork_range` returns 511 after a copy of 511 bytes from offset 1 of
the scratch buffer. -/
theorem hfs_read_fork_range_ignores_failure_witness :
    ((hfs_read_fork_range extentlist_find zeroMem (some 0)
        (some (forkOf (volumeOn (diskVolume markedDisk) 512) twoExtents 2 1024))
        511 1 0).request = some (0, 0) ∧
     (hfs_read_fork extentlist_find zeroMem (some 0)
        (some (forkOf (volumeOn (diskVolume markedDisk) 512) twoExtents 2 1024))
        0 0 0).outcome = .returned (-1) ∧ (-1 : Int) < 0) ∧
    (hfs_read_fork_range extentlist_find zeroMem (some 0)
        (some (forkOf (volumeOn (diskVolume markedDisk) 512) twoExtents 2 1024))
        511 1 0).outcome = .returned 511 ∧
    (hfs_read_fork_range extentlist_find zeroMem (some 0)
        (some (forkOf (volumeOn (diskVolume markedDisk) 512) twoExtents 2 1024))
        511 1 0).copied = some (1, 511) ∧
    ∃ n : Nat, 1 ≤ n ∧
      (hfs_read_fork_range extentlist_find zeroMem (some 0)
        (some (forkOf (volumeOn (diskVolume markedDisk) 512) twoExtents 2 1024))
        511 1 0).outcome = .returned (n : Int) :=
  ⟨⟨by decide, by decide, by decide⟩, by decide, by decide,
   (hfs_read_fork_range_ignores_failure extentlist_find zeroMem 0
      (forkOf (volumeOn (diskVolume markedDisk) 512) twoExtents 2 1024) 511 1 0 0 0 (-1)
      (by decide) (by decide) (by decide)).imp fun _ h => ⟨h.1, h.2.1⟩⟩

set_option maxRecDepth 1000000 in
/-- A fork whose descriptor gives it 1 block and a logical size of 2048 bytes,
size 100 and offset 1536: the request passed on starts at block 3, beyond the
fork, `hfs_read_fork` returns -1, and `hfs_read_fork_range` returns 100 after
a copy of 100 bytes from the scratch buffer. -/
theorem hfs_read_fork_range_beyond_fork_example :
    (hfs_read_fork_range extentlist_find zeroMem (some 0)
        (some (forkOf (volumeOn (diskVolume markedDisk) 512)
          [{ logicalStart := 0, startBlock := 1, blockCount := 1 }] 1 2048))
        100 1536 0).request = some (1, 3) ∧
    (hfs_read_fork extentlist_find zeroMem (some 0)
        (some (forkOf (volumeOn (diskVolume markedDisk) 512)
          [{ logicalStart := 0, startBlock := 1, blockCount := 1 }] 1 2048))
        1 3 0).outcome = .returned (-1) ∧
    (hfs_read_fork_range extentlist_find zeroMem (some 0)
        (some (forkOf (volumeOn (diskVolume markedDisk) 512)
          [{ logicalStart := 0, startBlock := 1, blockCount := 1 }] 1 2048))
        100 1536 0).outcome = .returned 100 ∧
    (hfs_read_fork_range extentlist_find zeroMem (some 0)
        (some (forkOf (volumeOn (diskVolume markedDisk) 512)
          [{ logicalStart := 0, startBlock := 1, blockCount := 1 }] 1 2048))
        100 1536 0).copied = some (0, 100) := by
  decide

/-! ## Partition type names -/

/-- C28, what the code does: for a type that no entry of the
table has, `mbr_partition_type_str` returns whatever the static buffer held on
entry, the name left there by the previous call, and never "unknown"; the
hint is left unchanged. -/
theorem mbr_partition_type_str_absent (table : Nat → MBRPartitionName) (type_str : String)
    (type : Nat) (hint : Option Nat) (h : ∀ i, i < 256 → (table i).type ≠ type) :
    mbr_partition_type_str table type_str type hint
      = { type_str := type_str, hint := hint } := by
  unfold mbr_partition_type_str
  have key : ∀ (l : List Nat) (s : TypeStr), (∀ i ∈ l, (table i).type ≠ type) →
      l.foldl (fun s i =>
        if (table i).type = type then
          { type_str := strlcpy (table i).name 99,
            hint := s.hint.map fun _ => (table i).hints }
        else s) s = s := by
    intro l
    induction l with
    | nil => intro s _; rfl
    | cons x xs ih =>
      intro s hl
      rw [List.foldl_cons, if_neg (hl x (List.mem_cons_self _ _))]
      exact ih s fun i hi => hl i (List.mem_cons_of_mem _ hi)
  exact key _ _ fun i hi => h i (List.mem_range.mp hi)

set_option maxRecDepth 1000000 in
/-- With the table `sampleTypes`, which has no type 0x42: a call for type 0xAF
returns "HFS" and the hint 4; a call for type 0x42 that follows it returns
"HFS" again, and the first call of a run for type 0x42 returns the empty
string. -/
theorem mbr_partition_type_str_absent_witness :
    (∀ i, i < 256 → (sampleTypes i).type ≠ 0x42) ∧
    mbr_partition_type_str sampleTypes "" 0xAF (some 0)
      = { type_str := "HFS", hint := some 4 } ∧
    mbr_partition_type_str sampleTypes "HFS" 0x42 (some 0)
      = { type_str := "HFS", hint := some 0 } ∧
    mbr_partition_type_str sampleTypes "" 0x42 (some 0)
      = { type_str := "", hint := some 0 } :=
  ⟨by decide, by decide,
   mbr_partition_type_str_absent sampleTypes "HFS" 0x42 (some 0) (by decide),
   mbr_partition_type_str_absent sampleTypes "" 0x42 (some 0) (by decide)⟩


end HFS
